import Mathlib

/-! # ecs-secrets: the secret store, its gateway and its crypter

A shallow embedding of `modules/store/store.go`, `modules/dao/dao.go` and
`modules/crypt/{crypt,utils}.go`.

* Go `string` and `[]byte` are byte sequences (`List Byte`); the conversions
  `[]byte(s)` and `string(b)` are therefore the identity.
* Go `int64` is `Int`, and the one arithmetic operation of the store
  (`Serial + 1`) wraps with `wrapInt64`.
* A Go result pair `(*T, error)` is `Option T × Option Error`; both halves may be
  present, as in Go.
* Collaborators (`dao.DAO`, `crypt.Crypter`, the KMS client, the key cache, the
  DynamoDB client) are records of state-passing functions; every call the store or the
  crypter makes to one of them is appended to a call log, so that "is never called" is
  a statement about the log.
* A call that can panic (`GetLatestVersion` of `dao.go`, on `Items[0]`) returns an
  `Option`, `none` for the panic.
-/

set_option linter.dupNamespace false

namespace EcsSecrets

/-! ## Go values -/

/-- One Go `byte`. -/
abbrev Byte := Fin 256

/-- A Go `string`: an immutable sequence of bytes. -/
abbrev GoString := List Byte

/-- The byte with value `n % 256`. -/
def byte (n : Nat) : Byte := ⟨n % 256, Nat.mod_lt n (by decide)⟩

/-- The Go string literal with the (ASCII) characters of `s`. -/
def str (s : String) : GoString := s.data.map (fun c => byte c.toNat)

/-- A Go `error` value: either a message built by `fmt.Errorf`/`errors.New` (also
the errors of the collaborators), or a `*strconv.NumError`. -/
inductive Error where
  | errorString (msg : GoString)
  | NumError (Func : GoString) (Num : GoString) (outOfRange : Bool)
  deriving DecidableEq, Repr

/-- The method `Error()` of a Go error: its message. (For a `NumError` the number is
shown between plain double quotes.) -/
def Error.Error : Error → GoString
  | Error.errorString msg => msg
  | Error.NumError f num outOfRange =>
    str "strconv." ++ f ++ str ": parsing " ++ [byte 34] ++ num ++ [byte 34] ++ str ": " ++
      (if outOfRange then str "value out of range" else str "invalid syntax")

/-- `fmt.Errorf` with one `%s`/`%v` verb: prefix, argument, suffix. -/
def Errorf (pre arg post : GoString) : Error := Error.errorString (pre ++ arg ++ post)

/-- The smallest `int64`. -/
def minInt64 : Int := -9223372036854775808

/-- The largest `int64`. -/
def maxInt64 : Int := 9223372036854775807

/-- The value is representable as an `int64`. -/
def InInt64 (i : Int) : Prop := minInt64 ≤ i ∧ i ≤ maxInt64

instance (i : Int) : Decidable (InInt64 i) := by unfold InInt64; infer_instance

/-- Two's-complement wrap-around of a mathematical integer into `int64`. -/
def wrapInt64 (i : Int) : Int := (i + 9223372036854775808) % 18446744073709551616 - 9223372036854775808

/-! ## strconv -/

namespace strconv

/-- The decimal digits loop of `strconv.ParseUint` (base 10, no underscores): the
value of the digit string read after `acc`, or `none` on a byte that is no digit. -/
def parseDigits : Nat → List Byte → Option Nat
  | acc, [] => some acc
  | acc, c :: cs =>
    if 48 ≤ c.val ∧ c.val ≤ 57 then parseDigits (acc * 10 + (c.val - 48)) cs else none

/-- Go's `strconv.Atoi` on a 64-bit platform: an optional sign, then one or more
decimal digits, the value within `int64`. On a range error the clamped value is
returned along with the error, as `ParseInt` does. -/
def Atoi (s : GoString) : Int × Option Error :=
  match s with
  | [] => (0, some (Error.NumError (str "Atoi") s false))
  | c :: rest =>
    let digits := if c.val = 45 ∨ c.val = 43 then rest else s
    if digits = [] then (0, some (Error.NumError (str "Atoi") s false))
    else
      match parseDigits 0 digits with
      | none => (0, some (Error.NumError (str "Atoi") s false))
      | some n =>
        if c.val = 45 then
          if n ≤ 9223372036854775808 then (-(n : Int), none)
          else (minInt64, some (Error.NumError (str "Atoi") s true))
        else
          if n < 9223372036854775808 then ((n : Int), none)
          else (maxInt64, some (Error.NumError (str "Atoi") s true))

/-- A decimal integer as it is written: an optional sign followed by one or more
decimal digits. (Stated on the text alone, independently of `Atoi`.) -/
def isDecimalInteger (s : GoString) : Bool :=
  match s with
  | [] => false
  | c :: rest =>
    let digits := if c.val = 45 ∨ c.val = 43 then rest else s
    !digits.isEmpty && digits.all (fun d => decide (48 ≤ d.val ∧ d.val ≤ 57))

/-- The decimal digits of `n`, most significant first; `fuel` bounds the number
of divisions (`n` itself is always enough). -/
def formatBits : Nat → Nat → List Byte
  | 0, n => [byte (48 + n % 10)]
  | fuel + 1, n =>
    if n < 10 then [byte (48 + n)] else formatBits fuel (n / 10) ++ [byte (48 + n % 10)]

/-- Go's `strconv.FormatInt(i, 10)`. -/
def FormatInt (i : Int) : GoString :=
  if i < 0 then byte 45 :: formatBits i.natAbs i.natAbs else formatBits i.toNat i.toNat

end strconv

/-! ## encoding/base64 (`StdEncoding`) -/

namespace base64

/-- The alphabet of `base64.StdEncoding`. -/
def encodeStd : List Byte :=
  str "ABCDEFGHIJKLMNOPQRSTUVWXYZabcdefghijklmnopqrstuvwxyz0123456789+/"

/-- The character of a 6-bit value. -/
def encodeChar (n : Nat) : Byte := encodeStd.getD n (byte 61)

/-- The table `decodeMap` of `StdEncoding`: the 6-bit value of an alphabet character,
`none` (0xFF in Go) for every other byte. -/
def decodeMap (c : Byte) : Option Nat :=
  if 65 ≤ c.val ∧ c.val ≤ 90 then some (c.val - 65)
  else if 97 ≤ c.val ∧ c.val ≤ 122 then some (c.val - 97 + 26)
  else if 48 ≤ c.val ∧ c.val ≤ 57 then some (c.val - 48 + 52)
  else if c.val = 43 then some 62
  else if c.val = 47 then some 63
  else none

/-- Go's `StdEncoding.EncodeToString`: three bytes become four characters, a last
group of one or two bytes is padded with `=`. -/
def EncodeToString : List Byte → GoString
  | [] => []
  | [a] => [encodeChar (a.val / 4), encodeChar (a.val % 4 * 16), byte 61, byte 61]
  | [a, b] =>
    [encodeChar (a.val / 4), encodeChar (a.val % 4 * 16 + b.val / 16),
     encodeChar (b.val % 16 * 4), byte 61]
  | a :: b :: c :: rest =>
    encodeChar (a.val / 4) :: encodeChar (a.val % 4 * 16 + b.val / 16) ::
      encodeChar (b.val % 16 * 4 + c.val / 64) :: encodeChar (c.val % 64) ::
      EncodeToString rest

/-- A second text for the same bytes: as `EncodeToString`, but with the lowest of the
unused bits of the last character before the padding set (a text that
`EncodeToString` never writes). Equal to `EncodeToString` when there is no padding. -/
def encodeWithPaddingBit : List Byte → GoString
  | [] => []
  | [a] => [encodeChar (a.val / 4), encodeChar (a.val % 4 * 16 + 1), byte 61, byte 61]
  | [a, b] =>
    [encodeChar (a.val / 4), encodeChar (a.val % 4 * 16 + b.val / 16),
     encodeChar (b.val % 16 * 4 + 1), byte 61]
  | a :: b :: c :: rest =>
    encodeChar (a.val / 4) :: encodeChar (a.val % 4 * 16 + b.val / 16) ::
      encodeChar (b.val % 16 * 4 + c.val / 64) :: encodeChar (c.val % 64) ::
      encodeWithPaddingBit rest

/-- The quantum loop of `StdEncoding.decode` on input without line breaks: groups of
four alphabet characters, the last group possibly ending in `=` or `==`, and nothing
after the padding. The decoding is not strict: the bits of the last character that do
not belong to a byte are ignored. `none` stands for a `CorruptInputError`. -/
def decodeQuanta : List Byte → Option (List Byte)
  | [] => some []
  | a :: b :: c :: d :: rest =>
    match decodeMap a, decodeMap b with
    | some x, some y =>
      if c.val = 61 then
        if d.val = 61 ∧ rest = [] then some [byte (x * 4 + y / 16)] else none
      else
        match decodeMap c with
        | none => none
        | some z =>
          if d.val = 61 then
            if rest = [] then some [byte (x * 4 + y / 16), byte (y % 16 * 16 + z / 4)] else none
          else
            match decodeMap d with
            | none => none
            | some u =>
              match decodeQuanta rest with
              | none => none
              | some t =>
                some (byte (x * 4 + y / 16) :: byte (y % 16 * 16 + z / 4) ::
                  byte (z % 4 * 64 + u) :: t)
    | _, _ => none
  | _ => none

/-- Go's `StdEncoding.DecodeString`: carriage returns and line feeds are skipped
wherever they stand, the rest is decoded by `decodeQuanta`. On corrupt input the
error is returned (the offset it carries in Go is not modelled). -/
def DecodeString (s : GoString) : List Byte × Option Error :=
  match decodeQuanta (s.filter (fun c => !(decide (c.val = 10) || decide (c.val = 13)))) with
  | some bytes => (bytes, none)
  | none => ([], some (Error.errorString (str "illegal base64 data")))

/-- Membership in the alphabet of RFC 4648, table 1. -/
def isAlphabet (c : Byte) : Bool := encodeStd.contains c

/-- Valid standard base64 in the words of RFC 4648, section 4, for a text without line
breaks: groups of four characters of the alphabet, where the last group may end in one
or two `=`. This definition follows the standard, not the decoder; it is compared with
`decodeQuanta` in the theorems. -/
def isStdQuanta : List Byte → Bool
  | [] => true
  | a :: b :: c :: d :: rest =>
    if rest = [] then
      isAlphabet a && isAlphabet b &&
        ((isAlphabet c && (isAlphabet d || decide (d.val = 61))) ||
          (decide (c.val = 61) && decide (d.val = 61)))
    else
      isAlphabet a && isAlphabet b && isAlphabet c && isAlphabet d && isStdQuanta rest
  | _ => false

/-- Valid standard base64 text, carriage returns and line feeds aside (as in the
line-wrapped texts of MIME and PEM). -/
def isStdText (s : GoString) : Bool :=
  isStdQuanta (s.filter (fun c => !(decide (c.val = 10) || decide (c.val = 13))))

end base64

/-! ## The collaborators of the crypter: KMS client, key cache, cryptopasta -/

namespace kms

/-- The fields of `kms.GenerateDataKeyInput` that the crypter sets. -/
structure GenerateDataKeyInput where
  KeySpec : GoString
  KeyId : GoString
  deriving DecidableEq, Repr

/-- The fields of `kms.GenerateDataKeyOutput` that the crypter reads. -/
structure GenerateDataKeyOutput where
  Plaintext : List Byte
  CiphertextBlob : List Byte
  deriving DecidableEq, Repr

/-- The field of `kms.DecryptInput` that the crypter sets. -/
structure DecryptInput where
  CiphertextBlob : List Byte
  deriving DecidableEq, Repr

/-- The field of `kms.DecryptOutput` that the crypter reads. -/
structure DecryptOutput where
  Plaintext : List Byte
  deriving DecidableEq, Repr

/-- The two methods of the interface `client.Client` (modules/kms/client) that the
crypter calls, over an environment `ω`. A call returns an output or an error. -/
structure Client (ω : Type) where
  Decrypt : DecryptInput → ω → Except Error DecryptOutput × ω
  GenerateDataKey : GenerateDataKeyInput → ω → Except Error GenerateDataKeyOutput × ω

/-- Modelled from the spec: `utils.GetCMKAlias` of modules/kms/utils, which is not among
the sources; the alias is the one `crypt_test.go` expects for the application name. -/
def GetCMKAlias (appName : GoString) : GoString := str "alias/ECSSecretsMaskerKey-" ++ appName

/-- A key service for tests that needs no state: every data key is the 32 bytes
"super-awesome-aes-key-so-secure?" of `crypt_test.go`, wrapping a key reverses it and
unwrapping reverses it back. -/
def reversingClient (ω : Type) : Client ω where
  Decrypt := fun input e => (Except.ok { Plaintext := input.CiphertextBlob.reverse }, e)
  GenerateDataKey := fun _ e =>
    (Except.ok { Plaintext := str "super-awesome-aes-key-so-secure?",
                 CiphertextBlob := (str "super-awesome-aes-key-so-secure?").reverse }, e)

/-- A key service every call of which fails with the error `e`. -/
def failingClient (ω : Type) (e : Error) : Client ω where
  Decrypt := fun _ env => (Except.error e, env)
  GenerateDataKey := fun _ env => (Except.error e, env)

/-- A key service whose `GenerateDataKey` returns the output `out`, whatever the input,
and whose `Decrypt` returns the blob it is given. -/
def fixedKeyClient (ω : Type) (out : GenerateDataKeyOutput) : Client ω where
  Decrypt := fun input env => (Except.ok { Plaintext := input.CiphertextBlob }, env)
  GenerateDataKey := fun _ env => (Except.ok out, env)

end kms

namespace cache

/-- Modelled from the spec: the interface `cache.Cache` of modules/cache, which is not
among the sources: `Get(key) -> (value, found)` and `Set(key, value)`. The values the
crypter stores and reads back are byte slices. -/
structure Cache (ω : Type) where
  Get : GoString → ω → Option (List Byte) × ω
  Set : GoString → List Byte → ω → ω

/-- A cache that behaves as a map: the environment is the list of the entries set so
far, newest first, and `Get` returns the newest entry of the key. -/
def mapCache : Cache (List (GoString × List Byte)) where
  Get := fun key e => ((e.find? (fun kv => decide (kv.1 = key))).map (fun kv => kv.2), e)
  Set := fun key value e => (key, value) :: e

/-- A `Set` is visible to the `Get` of the same key that follows it. -/
def Cache.SetThenGet {ω : Type} (c : Cache ω) : Prop :=
  ∀ (key : GoString) (value : List Byte) (e : ω), (c.Get key (c.Set key value e)).1 = some value

end cache

namespace cryptopasta

/-- The two functions of the package `github.com/gtank/cryptopasta` that `utils.go`
calls (AES-256-GCM with a 32-byte key): `Encrypt` draws its nonce from the environment,
`Decrypt` is a function of the blob and the key. The package is a parameter of the
model. -/
structure Package (ω : Type) where
  Encrypt : List Byte → List Byte → ω → (List Byte × Option Error) × ω
  Decrypt : List Byte → List Byte → List Byte × Option Error

/-- The contract of the package: what `Encrypt` produces under a 32-byte key,
`Decrypt` opens under that key. -/
def Package.Correct {ω : Type} (p : Package ω) : Prop :=
  ∀ (plaintext key : List Byte) (e : ω), key.length = 32 →
    (p.Encrypt plaintext key e).1.2 = none →
    p.Decrypt (p.Encrypt plaintext key e).1.1 key = (plaintext, none)

/-- The tag of the package for tests: sixteen copies of the sum, modulo 256, of the
bytes of the key, the nonce and the body. -/
def checksumTag (key nonce body : List Byte) : List Byte :=
  List.replicate 16 (byte ((key ++ nonce ++ body).foldl (fun acc b => acc + b.val) 0))

/-- A stand-in for the package in tests, with its framing (a 12-byte nonce, the body,
a 16-byte tag) but no secrecy: the body is the plaintext, the nonce is zero and the tag
is `checksumTag`. `Decrypt` rejects a blob shorter than nonce and tag, and a blob
whose tag is not the one of its key, nonce and body. -/
def checksumSeal (ω : Type) : Package ω where
  Encrypt := fun plaintext key e =>
    ((List.replicate 12 (byte 0) ++ plaintext ++
      checksumTag key (List.replicate 12 (byte 0)) plaintext, none), e)
  Decrypt := fun blob key =>
    if blob.length < 28 then ([], some (Error.errorString (str "malformed ciphertext")))
    else if blob.drop (blob.length - 16) =
        checksumTag key (blob.take 12) ((blob.drop 12).take (blob.length - 28)) then
      ((blob.drop 12).take (blob.length - 28), none)
    else ([], some (Error.errorString (str "cipher: message authentication failed")))

end cryptopasta

/-! ## modules/dao: the record and the gateway interface -/

namespace dao

/-- The Go struct `dao.SecretRecord`, the payload used to interact with DynamoDB. -/
structure SecretRecord where
  Name : GoString
  Serial : Int
  EncryptedData : GoString
  EncryptedDataKey : GoString
  Active : Bool
  deriving DecidableEq, Repr

/-- The Go interface `dao.DAO` over a gateway state `σ`. -/
structure DAO (σ : Type) where
  GetLatestVersion : GoString → σ → (Option SecretRecord × Option Error) × σ
  GetSecretRecord : GoString → Int → σ → (Option SecretRecord × Option Error) × σ
  PutSecretRecord : SecretRecord → σ → Option Error × σ
  RevokeSecretRecord : GoString → Int → σ → Option Error × σ

/-- The record's primary key in the secrets table is the pair (Name, Serial). -/
def SecretRecord.hasKey (r : SecretRecord) (name : GoString) (serial : Int) : Bool :=
  decide (r.Name = name) && decide (r.Serial = serial)

/-- The record with the maximum serial among the records named `name`: what the
query of `GetLatestVersion` (descending index order, limit 1) selects. -/
def latest (name : GoString) : List SecretRecord → Option SecretRecord
  | [] => none
  | r :: rs =>
    match latest name rs with
    | none => if r.Name = name then some r else none
    | some b => if r.Name = name ∧ b.Serial < r.Serial then some r else some b

/-- The serials stored for a name, in the order of the items in the table (the in-memory
gateway keeps the newest item first). -/
def serialsOf (name : GoString) (t : List SecretRecord) : List Int :=
  (t.filter (fun r => decide (r.Name = name))).map (fun r => r.Serial)

/-- An in-memory gateway with the behaviour `dao.go` gets from the table: the
state is the list of items, at most one per key.
* `GetLatestVersion`: the item with the maximum serial for the name, `(nil, nil)`
  when the name has none.
* `GetSecretRecord`: the item with that key, or the error of `dao.go` line 81.
* `PutSecretRecord`: an unconditional put, which replaces an item with the same key.
* `RevokeSecretRecord`: an update that sets `Active` to false on the item with that
  key, and creates the item (key and `Active` only) when there is none. -/
def inMemoryDAO : DAO (List SecretRecord) where
  GetLatestVersion := fun name t => ((latest name t, none), t)
  GetSecretRecord := fun name serial t =>
    match t.find? (fun r => r.hasKey name serial) with
    | some r => ((some r, none), t)
    | none => ((none, some (Error.errorString (str "Secret record not found in the data store"))), t)
  PutSecretRecord := fun record t =>
    (none, record :: t.filter (fun r => !r.hasKey record.Name record.Serial))
  RevokeSecretRecord := fun name serial t =>
    if t.any (fun r => r.hasKey name serial) then
      (none, t.map (fun r => if r.hasKey name serial then { r with Active := false } else r))
    else
      (none, { Name := name, Serial := serial, EncryptedData := [], EncryptedDataKey := [],
               Active := false } :: t)

/-- A gateway every call of which fails with the error `e` (and returns no record). -/
def failingDAO (e : Error) : DAO Unit where
  GetLatestVersion := fun _ u => ((none, some e), u)
  GetSecretRecord := fun _ _ u => ((none, some e), u)
  PutSecretRecord := fun _ u => (some e, u)
  RevokeSecretRecord := fun _ _ u => (some e, u)

end dao

/-! ## modules/dao over the DynamoDB client: the two reads of `dao.go` -/

namespace aws

/-- The function `aws.Int64Value`: the value behind the pointer, 0 for a nil pointer. -/
def Int64Value : Option Int → Int
  | none => 0
  | some v => v

end aws

namespace dynamodb

/-- The fields of `dynamodb.AttributeValue` that `dao.go` sets: each is a pointer, nil
when the attribute is of another type. -/
structure AttributeValue where
  S : Option GoString
  N : Option GoString
  BOOL : Option Bool
  deriving DecidableEq, Repr

/-- A Go `map[string]*dynamodb.AttributeValue`, as the list of its entries; its length
is the number of entries. -/
abbrev AttributeMap := List (GoString × AttributeValue)

/-- The fields of `dynamodb.GetItemInput` that `dao.go` sets. -/
structure GetItemInput where
  TableName : GoString
  Key : AttributeMap
  deriving DecidableEq, Repr

/-- The field of `dynamodb.GetItemOutput` that `dao.go` reads; the map is nil when the
table has no item with the key. -/
structure GetItemOutput where
  Item : Option AttributeMap
  deriving DecidableEq, Repr

/-- The fields of `dynamodb.QueryInput` that `dao.go` sets. -/
structure QueryInput where
  TableName : GoString
  ScanIndexForward : Bool
  Limit : Int
  KeyConditionExpression : GoString
  ExpressionAttributeNames : List (GoString × GoString)
  ExpressionAttributeValues : AttributeMap
  deriving DecidableEq, Repr

/-- The fields of `dynamodb.QueryOutput` that `dao.go` reads: `Count` is a pointer. -/
structure QueryOutput where
  Count : Option Int
  Items : List AttributeMap
  deriving DecidableEq, Repr

/-- The two methods of the interface `client.Client` (modules/dynamodb/client) that the
reads of `dao.go` call, over a table state `δ`. A call returns a pointer to its output,
possibly nil, and an error, possibly nil. -/
structure Client (δ : Type) where
  GetItem : GetItemInput → δ → (Option GetItemOutput × Option Error) × δ
  Query : QueryInput → δ → (Option QueryOutput × Option Error) × δ

/-- A client for tests that needs no state: both calls return the given results. -/
def fixedClient (item : Option GetItemOutput × Option Error)
    (query : Option QueryOutput × Option Error) : Client Unit where
  GetItem := fun _ u => (item, u)
  Query := fun _ u => (query, u)

end dynamodb

namespace dynamodbattribute

/-- The two functions of the package `dynamodbattribute` of the AWS SDK that `dao.go`
calls to fill a record from an item: the record handed in (by pointer) as the call
leaves it, and the error. The package is a parameter of the model. -/
structure Package where
  UnmarshalMap : dynamodb.AttributeMap → dao.SecretRecord → dao.SecretRecord × Option Error
  ConvertFromMap : dynamodb.AttributeMap → dao.SecretRecord → dao.SecretRecord × Option Error

/-- The string attribute `key` of an item. -/
def stringOf (item : dynamodb.AttributeMap) (key : GoString) : Option GoString :=
  (item.find? (fun kv => decide (kv.1 = key))).bind (fun kv => kv.2.S)

/-- A stand-in for the package in tests, which reads the three string attributes of the
record and leaves the other fields as they are. -/
def stringsOnly : Package where
  UnmarshalMap := fun item out =>
    ({ out with
       Name := (stringOf item (str "Name")).getD out.Name,
       EncryptedData := (stringOf item (str "EncryptedData")).getD out.EncryptedData,
       EncryptedDataKey := (stringOf item (str "EncryptedDataKey")).getD out.EncryptedDataKey },
     none)
  ConvertFromMap := fun item out =>
    ({ out with
       Name := (stringOf item (str "Name")).getD out.Name,
       EncryptedData := (stringOf item (str "EncryptedData")).getD out.EncryptedData,
       EncryptedDataKey := (stringOf item (str "EncryptedDataKey")).getD out.EncryptedDataKey },
     none)

end dynamodbattribute

namespace cfnclient

/-- The constant `stackPrefix` of modules/cloudformation/client. -/
def stackPrefix : GoString := str "ECS-Secrets-"

/-- The constant `secretsTableNameSuffix`. -/
def secretsTableNameSuffix : GoString := str "-Secrets"

/-- The function `getStackName`. -/
def getStackName (appName : GoString) : GoString := stackPrefix ++ appName

/-- The function `GetSecretsTableName`. -/
def GetSecretsTableName (appName : GoString) : GoString :=
  getStackName appName ++ secretsTableNameSuffix

end cfnclient

namespace dao

/-- The Go struct `dao`: the application name and the DynamoDB client. -/
structure dao (δ : Type) where
  appName : GoString
  dynamodbClient : dynamodb.Client δ

/-- The zero value `SecretRecord{}`. -/
def emptyRecord : SecretRecord :=
  { Name := [], Serial := 0, EncryptedData := [], EncryptedDataKey := [], Active := false }

/-- Lines 62-74 of `GetSecretRecord`: the input of the `GetItem` call. -/
def GetSecretRecord.input {δ : Type} (d : dao δ) (name : GoString) (serial : Int) :
    dynamodb.GetItemInput :=
  { TableName := cfnclient.GetSecretsTableName d.appName,
    Key := [(str "Name", { S := some name, N := none, BOOL := none }),
            (str "Serial", { S := none, N := some (strconv.FormatInt serial), BOOL := none })] }

/-- The method `dao.GetSecretRecord(namespace, serial)`. -/
def dao.GetSecretRecord {δ : Type} (pkg : dynamodbattribute.Package) (d : dao δ)
    (name : GoString) (serial : Int) (t : δ) : (Option SecretRecord × Option Error) × δ :=
  let r := d.dynamodbClient.GetItem (GetSecretRecord.input d name serial) t
  match r.1.2 with
  | some err => ((none, some err), r.2)
  | none =>
    match r.1.1 with
    | none =>
      ((none, some (Error.errorString (str "Secret record not found in the data store"))), r.2)
    | some itemResult =>
      match itemResult.Item with
      | none =>
        ((none, some (Error.errorString (str "Secret record not found in the data store"))), r.2)
      | some item =>
        if item.length = 0 then
          ((none, some (Error.errorString (str "Secret record not found in the data store"))),
            r.2)
        else
          let u := pkg.UnmarshalMap item emptyRecord
          match u.2 with
          | some err => ((none, some err), r.2)
          | none => ((some u.1, none), r.2)

/-- Lines 131-145 of `GetLatestVersion`: the input of the `Query` call. -/
def GetLatestVersion.input {δ : Type} (d : dao δ) (secretName : GoString) :
    dynamodb.QueryInput :=
  { TableName := cfnclient.GetSecretsTableName d.appName,
    ScanIndexForward := false,
    Limit := 1,
    KeyConditionExpression := str "#N = :val",
    ExpressionAttributeNames := [(str "#N", str "Name")],
    ExpressionAttributeValues := [(str ":val", { S := some secretName, N := none, BOOL := none })] }

/-- The method `dao.GetLatestVersion(secretName)`. The result is `none` when the call
panics: `result.Items[0]` on a result that reports a count other than 0 and carries no
item. On the last line the record is returned along with the error of the conversion. -/
def dao.GetLatestVersion {δ : Type} (pkg : dynamodbattribute.Package) (d : dao δ)
    (secretName : GoString) (t : δ) : Option ((Option SecretRecord × Option Error) × δ) :=
  let r := d.dynamodbClient.Query (GetLatestVersion.input d secretName) t
  match r.1.2 with
  | some err => some ((none, some err), r.2)
  | none =>
    match r.1.1 with
    | none => some ((none, none), r.2)
    | some result =>
      if aws.Int64Value result.Count = 0 then some ((none, none), r.2)
      else
        match result.Items with
        | [] => none
        | item :: _ =>
          let c := pkg.ConvertFromMap item emptyRecord
          some ((some c.1, c.2), r.2)

end dao

/-! ## modules/api: the caller-facing record -/

namespace api

/-- The Go struct `api.SecretRecord`: the view handed to and returned by the store. -/
structure SecretRecord where
  Name : GoString
  Serial : Int
  Payload : GoString
  Active : Bool
  deriving DecidableEq, Repr

end api

/-! ## modules/crypt: the Crypter interface -/

namespace crypt

/-- What a call `EncryptSecret(secretRecord, secret)` leaves behind: the contents
of the record the pointer argument designates after the call, and the returned
pair. -/
structure EncryptOutcome where
  record : dao.SecretRecord
  ret : Option dao.SecretRecord
  err : Option Error
  deriving DecidableEq, Repr

/-- The Go interface `crypt.Crypter` over a crypter state `κ`. -/
structure Crypter (κ : Type) where
  EncryptSecret : dao.SecretRecord → GoString → κ → EncryptOutcome × κ
  DecryptSecret : dao.SecretRecord → κ → (Option GoString × Option Error) × κ

/-- A crypter that keeps the payload as it is: `EncryptSecret` stores the payload
in `EncryptedData`, `DecryptSecret` returns `EncryptedData`. -/
def identityCrypter : Crypter Unit where
  EncryptSecret := fun r secret u =>
    ({ record := { r with EncryptedData := secret },
       ret := some { r with EncryptedData := secret }, err := none }, u)
  DecryptSecret := fun r u => ((some r.EncryptedData, none), u)

/-- A crypter whose `EncryptSecret` fails with the error `e` and leaves the record
untouched, and whose `DecryptSecret` fails with `e` too. -/
def failingCrypter (e : Error) : Crypter Unit where
  EncryptSecret := fun r _ u => ({ record := r, ret := none, err := some e }, u)
  DecryptSecret := fun _ u => ((none, some e), u)

/-- `EncryptSecret` writes nothing but the two encrypted fields of the record it
is handed: the name, the serial and the active flag stay as they were. -/
def Crypter.KeepsKey {κ : Type} (c : Crypter κ) : Prop :=
  ∀ (r : dao.SecretRecord) (secret : GoString) (k : κ),
    (c.EncryptSecret r secret k).1.record.Name = r.Name ∧
    (c.EncryptSecret r secret k).1.record.Serial = r.Serial ∧
    (c.EncryptSecret r secret k).1.record.Active = r.Active

/-- The constant `defaultKeySpec`. -/
def defaultKeySpec : GoString := str "AES_256"

/-- The function `base64Encode` of `utils.go`. -/
def base64Encode (input : List Byte) : GoString := base64.EncodeToString input

/-- The function `base64Decode` of `utils.go`. -/
def base64Decode (input : GoString) : List Byte × Option Error := base64.DecodeString input

/-- The function `getCryptoKey` of `utils.go`: `io.ReadFull` of 32 bytes, which fails
with `EOF` on empty input and with `unexpected EOF` on fewer than 32 bytes. -/
def getCryptoKey (input : List Byte) : Except Error (List Byte) :=
  if input.length < 32 then
    Except.error (Errorf (str "Error reading data key: ")
      (if input = [] then str "EOF" else str "unexpected EOF") [])
  else Except.ok (input.take 32)

/-- The function `encrypt` of `utils.go`. -/
def encrypt {ω : Type} (pasta : cryptopasta.Package ω) (secret : GoString) (key : List Byte)
    (e : ω) : (List Byte × Option Error) × ω :=
  match getCryptoKey key with
  | Except.error err => (([], some err), e)
  | Except.ok cryptoKey =>
    let r := pasta.Encrypt secret cryptoKey e
    match r.1.2 with
    | some err => (([], some (Errorf (str "Error encrypting secret: ") err.Error [])), r.2)
    | none => ((r.1.1, none), r.2)

/-- The function `decrypt` of `utils.go`. -/
def decrypt {ω : Type} (pasta : cryptopasta.Package ω) (data key : List Byte) :
    List Byte × Option Error :=
  match getCryptoKey key with
  | Except.error err => ([], some err)
  | Except.ok cryptoKey =>
    match (pasta.Decrypt data cryptoKey).2 with
    | some err => ([], some (Errorf (str "Error decrypting secret: ") err.Error []))
    | none => ((pasta.Decrypt data cryptoKey).1, none)

/-- The Go struct `kmsCrypter`. -/
structure kmsCrypter (ω : Type) where
  kmsClient : kms.Client ω
  keyCache : cache.Cache ω
  appName : GoString

/-- A call made by the crypter to the KMS client or to the key cache. -/
inductive Call where
  | GenerateDataKey (input : kms.GenerateDataKeyInput)
  | Decrypt (input : kms.DecryptInput)
  | CacheGet (key : GoString)
  | CacheSet (key : GoString) (value : List Byte)
  deriving DecidableEq, Repr

/-- The call is a KMS `Decrypt`. -/
def Call.isDecrypt : Call → Bool
  | Call.Decrypt _ => true
  | _ => false

/-- The call is a cache `Set`. -/
def Call.isCacheSet : Call → Bool
  | Call.CacheSet _ _ => true
  | _ => false

/-- The state the crypter runs against: the environment of its collaborators and the
log of the calls made to them so far (oldest first). -/
structure World (ω : Type) where
  env : ω
  calls : List Call

/-- The method `generateDataKey`: the one call `kmsClient.GenerateDataKey`. -/
def kmsCrypter.generateDataKey {ω : Type} (crypter : kmsCrypter ω) (w : World ω) :
    Except Error kms.GenerateDataKeyOutput × World ω :=
  let input : kms.GenerateDataKeyInput :=
    { KeySpec := defaultKeySpec, KeyId := kms.GetCMKAlias crypter.appName }
  let r := crypter.kmsClient.GenerateDataKey input w.env
  (r.1, { env := r.2, calls := w.calls ++ [Call.GenerateDataKey input] })

/-- The method `fetchDataKey`. -/
def kmsCrypter.fetchDataKey {ω : Type} (crypter : kmsCrypter ω)
    (loadedSecret : dao.SecretRecord) (w : World ω) : (List Byte × Option Error) × World ω :=
  let g := crypter.keyCache.Get loadedSecret.EncryptedDataKey w.env
  let w1 : World ω :=
    { env := g.2, calls := w.calls ++ [Call.CacheGet loadedSecret.EncryptedDataKey] }
  match g.1 with
  | some dataKey => ((dataKey, none), w1)
  | none =>
    match base64Decode loadedSecret.EncryptedDataKey with
    | (_, some err) => (([], some err), w1)
    | (decodedKey, none) =>
      let d := crypter.kmsClient.Decrypt { CiphertextBlob := decodedKey } w1.env
      let w2 : World ω :=
        { env := d.2, calls := w1.calls ++ [Call.Decrypt { CiphertextBlob := decodedKey }] }
      match d.1 with
      | Except.error err => (([], some err), w2)
      | Except.ok result =>
        ((result.Plaintext, none),
          { env := crypter.keyCache.Set loadedSecret.EncryptedDataKey result.Plaintext w2.env,
            calls := w2.calls ++
              [Call.CacheSet loadedSecret.EncryptedDataKey result.Plaintext] })

/-- The method `kmsCrypter.EncryptSecret`. -/
def kmsCrypter.EncryptSecret {ω : Type} (pasta : cryptopasta.Package ω)
    (crypter : kmsCrypter ω) (secretRecord : dao.SecretRecord) (secret : GoString)
    (w : World ω) : EncryptOutcome × World ω :=
  let g := crypter.generateDataKey w
  match g.1 with
  | Except.error err => ({ record := secretRecord, ret := none, err := some err }, g.2)
  | Except.ok result =>
    let e := encrypt pasta secret result.Plaintext g.2.env
    let w1 : World ω := { g.2 with env := e.2 }
    match e.1.2 with
    | some err => ({ record := secretRecord, ret := none, err := some err }, w1)
    | none =>
      let stored : dao.SecretRecord :=
        { secretRecord with
          EncryptedData := base64Encode e.1.1,
          EncryptedDataKey := base64Encode result.CiphertextBlob }
      ({ record := stored, ret := some stored, err := none }, w1)

/-- The method `kmsCrypter.DecryptSecret`. -/
def kmsCrypter.DecryptSecret {ω : Type} (pasta : cryptopasta.Package ω)
    (crypter : kmsCrypter ω) (secretRecord : dao.SecretRecord) (w : World ω) :
    (Option GoString × Option Error) × World ω :=
  let f := crypter.fetchDataKey secretRecord w
  match f.1.2 with
  | some err => ((none, some err), f.2)
  | none =>
    match base64Decode secretRecord.EncryptedData with
    | (_, some err) => ((none, some err), f.2)
    | (decodedData, none) =>
      match decrypt pasta decodedData f.1.1 with
      | (_, some err) => ((none, some err), f.2)
      | (decryptedData, none) => ((some decryptedData, none), f.2)

/-- The function `NewCrypter`: the KMS crypter as a `Crypter`. -/
def NewCrypter {ω : Type} (pasta : cryptopasta.Package ω) (kmsClient : kms.Client ω)
    (keyCache : cache.Cache ω) (appName : GoString) : Crypter (World ω) where
  EncryptSecret :=
    kmsCrypter.EncryptSecret pasta
      { kmsClient := kmsClient, keyCache := keyCache, appName := appName }
  DecryptSecret :=
    kmsCrypter.DecryptSecret pasta
      { kmsClient := kmsClient, keyCache := keyCache, appName := appName }

/-- The KMS crypter of the tests: the reversing key service, the map cache and the
checksum stand-in for cryptopasta, for the application "myapp". -/
def testCrypter : kmsCrypter (List (GoString × List Byte)) :=
  { kmsClient := kms.reversingClient _, keyCache := cache.mapCache, appName := str "myapp" }

end crypt

/-! ## modules/store -/

namespace store

/-- A call made by the store to one of its two collaborators. -/
inductive Call where
  | GetLatestVersion (name : GoString)
  | GetSecretRecord (name : GoString) (serial : Int)
  | PutSecretRecord (record : dao.SecretRecord)
  | RevokeSecretRecord (name : GoString) (serial : Int)
  | EncryptSecret (record : dao.SecretRecord) (secret : GoString)
  | DecryptSecret (record : dao.SecretRecord)
  deriving DecidableEq, Repr

/-- The Go struct `store`: a gateway and a crypter. -/
structure store (σ κ : Type) where
  dao : dao.DAO σ
  crypter : crypt.Crypter κ

/-- The state the store runs against: the gateway's, the crypter's, and the log
of the calls made so far (oldest first). -/
structure World (σ κ : Type) where
  dao : σ
  crypter : κ
  calls : List Call

variable {σ κ : Type}

/-- The call `s.dao.GetLatestVersion(name)`. -/
def callGetLatestVersion (s : store σ κ) (name : GoString) (w : World σ κ) :
    (Option dao.SecretRecord × Option Error) × World σ κ :=
  let r := s.dao.GetLatestVersion name w.dao
  (r.1, { w with dao := r.2, calls := w.calls ++ [Call.GetLatestVersion name] })

/-- The call `s.dao.GetSecretRecord(name, serial)`. -/
def callGetSecretRecord (s : store σ κ) (name : GoString) (serial : Int) (w : World σ κ) :
    (Option dao.SecretRecord × Option Error) × World σ κ :=
  let r := s.dao.GetSecretRecord name serial w.dao
  (r.1, { w with dao := r.2, calls := w.calls ++ [Call.GetSecretRecord name serial] })

/-- The call `s.dao.PutSecretRecord(record)`. -/
def callPutSecretRecord (s : store σ κ) (record : dao.SecretRecord) (w : World σ κ) :
    Option Error × World σ κ :=
  let r := s.dao.PutSecretRecord record w.dao
  (r.1, { w with dao := r.2, calls := w.calls ++ [Call.PutSecretRecord record] })

/-- The call `s.dao.RevokeSecretRecord(name, serial)`. -/
def callRevokeSecretRecord (s : store σ κ) (name : GoString) (serial : Int) (w : World σ κ) :
    Option Error × World σ κ :=
  let r := s.dao.RevokeSecretRecord name serial w.dao
  (r.1, { w with dao := r.2, calls := w.calls ++ [Call.RevokeSecretRecord name serial] })

/-- The call `s.crypter.EncryptSecret(record, secret)`. -/
def callEncryptSecret (s : store σ κ) (record : dao.SecretRecord) (secret : GoString)
    (w : World σ κ) : crypt.EncryptOutcome × World σ κ :=
  let r := s.crypter.EncryptSecret record secret w.crypter
  (r.1, { w with crypter := r.2, calls := w.calls ++ [Call.EncryptSecret record secret] })

/-- The call `s.crypter.DecryptSecret(record)`. -/
def callDecryptSecret (s : store σ κ) (record : dao.SecretRecord) (w : World σ κ) :
    (Option GoString × Option Error) × World σ κ :=
  let r := s.crypter.DecryptSecret record w.crypter
  (r.1, { w with crypter := r.2, calls := w.calls ++ [Call.DecryptSecret record] })

/-- Lines 65-91 of `store.Get`: what follows the lookup, given the values the
function-level variables `loadedSecret` and `err` hold at that point. -/
def Get.afterLookup (s : store σ κ) (name : GoString) (loadedSecret : Option dao.SecretRecord)
    (err : Option Error) (w : World σ κ) : (Option api.SecretRecord × Option Error) × World σ κ :=
  match err with
  | some e => ((none, some e), w)
  | none =>
    match loadedSecret with
    | none => ((none, some (Errorf (str "Secret with name '") name (str "' not found"))), w)
    | some loaded =>
      let secretRecord : api.SecretRecord :=
        { Name := loaded.Name, Serial := loaded.Serial, Payload := [], Active := loaded.Active }
      if !loaded.Active then ((some secretRecord, none), w)
      else
        let d := callDecryptSecret s loaded w
        match d.1.2 with
        | some e => ((none, some e), d.2)
        | none =>
          -- `aws.StringValue`: the empty string for a nil pointer
          ((some { secretRecord with Payload := d.1.1.getD [] }, none), d.2)

/-- The method `store.Get(name, serial)`.

In the `else` branch the statement `serialInt, err := strconv.Atoi(serial)` declares
a new `err`, local to that block; the assignment
`loadedSecret, err = s.dao.GetSecretRecord(...)` that follows writes this inner
variable. The function-level `err` tested on line 65 is therefore still `nil`
whenever the exact-serial branch was taken. -/
def Get (s : store σ κ) (name serial : GoString) (w : World σ κ) :
    (Option api.SecretRecord × Option Error) × World σ κ :=
  if serial = [] then
    let r := callGetLatestVersion s name w
    Get.afterLookup s name r.1.1 r.1.2 r.2
  else
    match strconv.Atoi serial with
    | (_, some e) => ((none, some e), w)
    | (serialInt, none) =>
      let r := callGetSecretRecord s name (wrapInt64 serialInt) w
      Get.afterLookup s name r.1.1 none r.2

/-- The method `store.Revoke(name, serial)`. -/
def Revoke (s : store σ κ) (name serial : GoString) (w : World σ κ) :
    Option Error × World σ κ :=
  match strconv.Atoi serial with
  | (_, some e) => (some e, w)
  | (serialInt, none) => callRevokeSecretRecord s name (wrapInt64 serialInt) w

/-- Lines 110-112 of `store.Save`: the caller's view after
`if latestSecret != nil { passedSecret.Serial = latestSecret.Serial + 1 }`. -/
def Save.setSerial (passedSecret : api.SecretRecord) (latestSecret : Option dao.SecretRecord) :
    api.SecretRecord :=
  match latestSecret with
  | some latest => { passedSecret with Serial := wrapInt64 (latest.Serial + 1) }
  | none => passedSecret

/-- Lines 114-118 of `store.Save`: the new `dao.SecretRecord`, its encrypted fields
still empty. -/
def Save.newSecret (passedSecret : api.SecretRecord) : dao.SecretRecord :=
  { Name := passedSecret.Name, Serial := passedSecret.Serial, EncryptedData := [],
    EncryptedDataKey := [], Active := passedSecret.Active }

/-- The method `store.Save(passedSecret)`. The view returned on the last line is
the caller's own object, whose `Serial` the function has overwritten when a latest
version exists. -/
def Save (s : store σ κ) (passedSecret : api.SecretRecord) (w : World σ κ) :
    (Option api.SecretRecord × Option Error) × World σ κ :=
  let l := callGetLatestVersion s passedSecret.Name w
  match l.1.2 with
  | some e => ((none, some e), l.2)
  | none =>
    let passedSecret := Save.setSerial passedSecret l.1.1
    let newSecret := Save.newSecret passedSecret
    let e := callEncryptSecret s newSecret passedSecret.Payload l.2
    match e.1.err with
    | some err => ((none, some err), e.2)
    | none =>
      let p := callPutSecretRecord s e.1.record e.2
      ((some passedSecret, p.1), p.2)

/-- The store over the in-memory gateway and the identity crypter. -/
def inMemoryStore : store (List dao.SecretRecord) Unit :=
  { dao := dao.inMemoryDAO, crypter := crypt.identityCrypter }

/-- One step of a run of saves for one name, interleaved with revocations: a save of a
payload with the view the front ends build, or a revocation of (name, serial string). -/
inductive Step where
  | save (payload : GoString)
  | revoke (name : GoString) (serial : GoString)
  deriving DecidableEq, Repr

/-- A run of steps against the in-memory gateway, for the saves of `name`: every save is
`Save` of `{name, Serial 1, payload, Active true}` (as `doCreate` and `postSecret` build
it) and must succeed; every revocation must name the serial of a record that exists at
that point and must succeed. The result is the list of the serials the saves returned,
in order, and the final state; `none` when a step does not meet these conditions. -/
def runSteps (s : store (List dao.SecretRecord) κ) (name : GoString) :
    List Step → World (List dao.SecretRecord) κ →
      Option (List Int × World (List dao.SecretRecord) κ)
  | [], w => some ([], w)
  | Step.save payload :: rest, w =>
    match Save s { Name := name, Serial := 1, Payload := payload, Active := true } w with
    | ((some v, none), w2) =>
      match runSteps s name rest w2 with
      | some r => some (v.Serial :: r.1, r.2)
      | none => none
    | _ => none
  | Step.revoke rname serial :: rest, w =>
    match strconv.Atoi serial with
    | (n, none) =>
      if w.dao.any (fun r => r.hasKey rname n) then
        match Revoke s rname serial w with
        | (none, w2) => runSteps s name rest w2
        | _ => none
      else none
    | _ => none

/-- A call of one of the three operations of the store. -/
inductive Request where
  | Save (view : api.SecretRecord)
  | Get (name : GoString) (serial : GoString)
  | Revoke (name : GoString) (serial : GoString)
  deriving DecidableEq, Repr

/-- The state a call leaves behind (whatever it returned). -/
def handle (s : store σ κ) : Request → World σ κ → World σ κ
  | Request.Save view, w => (Save s view w).2
  | Request.Get name serial, w => (Get s name serial w).2
  | Request.Revoke name serial, w => (Revoke s name serial w).2

/-- The state a sequence of calls leaves behind. -/
def handleAll (s : store σ κ) : List Request → World σ κ → World σ κ
  | [], w => w
  | r :: rest, w => handleAll s rest (handle s r w)

/-- No `Save` of the sequence is made at a moment when the latest serial of its name is
the largest `int64` (or no `int64` at all): the next serial exists. -/
def SerialsHaveRoom (s : store (List dao.SecretRecord) κ) :
    List Request → World (List dao.SecretRecord) κ → Prop
  | [], _ => True
  | Request.Save view :: rest, w =>
    (∀ b, dao.latest view.Name w.dao = some b → InInt64 b.Serial ∧ b.Serial ≠ maxInt64) ∧
      SerialsHaveRoom s rest (handle s (Request.Save view) w)
  | Request.Get name serial :: rest, w =>
    SerialsHaveRoom s rest (handle s (Request.Get name serial) w)
  | Request.Revoke name serial :: rest, w =>
    SerialsHaveRoom s rest (handle s (Request.Revoke name serial) w)

/-- The control state of a `Save` call that runs in two steps: not yet started; past
the read of line 106, holding the latest record it was given; returned. -/
inductive Save.Proc where
  | start (passedSecret : api.SecretRecord)
  | read (passedSecret : api.SecretRecord) (latestSecret : Option dao.SecretRecord)
  | done (ret : Option api.SecretRecord) (err : Option Error)
  deriving DecidableEq, Repr

/-- One step of a `Save` call. From `start`: lines 106-109, the read of the latest
version. From `read`: lines 110-126, the serial, the new record, its encryption and
the insert. -/
def Save.step (s : store σ κ) : Save.Proc → World σ κ → Save.Proc × World σ κ
  | Save.Proc.start passedSecret, w =>
    let l := callGetLatestVersion s passedSecret.Name w
    match l.1.2 with
    | some e => (Save.Proc.done none (some e), l.2)
    | none => (Save.Proc.read passedSecret l.1.1, l.2)
  | Save.Proc.read passedSecret latestSecret, w =>
    let passedSecret := Save.setSerial passedSecret latestSecret
    let newSecret := Save.newSecret passedSecret
    let e := callEncryptSecret s newSecret passedSecret.Payload w
    match e.1.err with
    | some err => (Save.Proc.done none (some err), e.2)
    | none =>
      let p := callPutSecretRecord s e.1.record e.2
      (Save.Proc.done (some passedSecret) p.1, p.2)
  | Save.Proc.done ret err, w => (Save.Proc.done ret err, w)

/-- Two `Save` calls in flight against one world, run by a schedule: at each entry the
first call (`false`) or the second call (`true`) takes one step. -/
def Save.interleave (s : store σ κ) :
    List Bool → Save.Proc × Save.Proc → World σ κ → (Save.Proc × Save.Proc) × World σ κ
  | [], ps, w => (ps, w)
  | false :: rest, ps, w =>
    Save.interleave s rest ((Save.step s ps.1 w).1, ps.2) (Save.step s ps.1 w).2
  | true :: rest, ps, w =>
    Save.interleave s rest (ps.1, (Save.step s ps.2 w).1) (Save.step s ps.2 w).2

end store

end EcsSecrets

namespace EcsSecrets

/-! ## Theorems: the store against arbitrary collaborators -/

namespace store

variable {σ κ : Type}

theorem wrapInt64_of_inInt64 {i : Int} (h : InInt64 i) : wrapInt64 i = i := by
  unfold InInt64 minInt64 maxInt64 at h
  unfold wrapInt64
  omega

theorem wrapInt64_succ {i : Int} (h : InInt64 i) (hmax : i ≠ maxInt64) :
    wrapInt64 (i + 1) = i + 1 := by
  unfold InInt64 minInt64 maxInt64 at h
  unfold maxInt64 at hmax
  unfold wrapInt64
  omega

/-- What `Save` does once the lookup has returned without error, spelled out on
the results of the three collaborator calls. -/
theorem Save_of_lookup_ok (s : store σ κ) (view : api.SecretRecord) (w : World σ κ)
    (latest : Option dao.SecretRecord)
    (hl : (s.dao.GetLatestVersion view.Name w.dao).1 = (latest, none))
    (hok : (Save s view w).1.2 = none) :
    (Save s view w).1.1 = some (Save.setSerial view latest) ∧
    (Save s view w).2.calls = w.calls ++
      [Call.GetLatestVersion view.Name,
       Call.EncryptSecret (Save.newSecret (Save.setSerial view latest))
         (Save.setSerial view latest).Payload,
       Call.PutSecretRecord (s.crypter.EncryptSecret (Save.newSecret (Save.setSerial view latest))
         (Save.setSerial view latest).Payload w.crypter).1.record] := by
  have h1 : (s.dao.GetLatestVersion view.Name w.dao).1.1 = latest := by rw [hl]
  have h2 : (s.dao.GetLatestVersion view.Name w.dao).1.2 = none := by rw [hl]
  unfold Save at hok ⊢
  simp only [callGetLatestVersion, callEncryptSecret, callPutSecretRecord, h1, h2] at hok ⊢
  split at hok
  · simp at hok
  · rename_i he
    simp only [he]
    simp

theorem Atoi_inInt64 {s : GoString} {n : Int} (h : strconv.Atoi s = (n, none)) : InInt64 n := by
  unfold strconv.Atoi at h
  unfold InInt64 minInt64 maxInt64
  split at h
  · simp at h
  · simp only at h
    repeat' split at h
    all_goals first
      | (simp at h; done)
      | (simp only [Prod.mk.injEq, and_true] at h; omega)

/-- The serial `Get` and `Revoke` hand to the gateway is the integer `Atoi` parsed. -/
theorem wrapInt64_Atoi {s : GoString} {n : Int} (h : strconv.Atoi s = (n, none)) :
    wrapInt64 n = n :=
  wrapInt64_of_inInt64 (Atoi_inInt64 h)

/-- `Get` with an empty serial is the latest-version lookup followed by lines 65-91. -/
theorem Get_latest_eq (s : store σ κ) (name : GoString) (w : World σ κ) :
    Get s name [] w =
      Get.afterLookup s name (callGetLatestVersion s name w).1.1
        (callGetLatestVersion s name w).1.2 (callGetLatestVersion s name w).2 := by
  simp [Get]

/-- `Get` with a serial that parses to `n` is the exact lookup followed by lines
65-91 run with the function-level `err` still nil. -/
theorem Get_exact_eq (s : store σ κ) (name serial : GoString) (n : Int) (w : World σ κ)
    (hne : serial ≠ []) (hn : strconv.Atoi serial = (n, none)) :
    Get s name serial w =
      Get.afterLookup s name (callGetSecretRecord s name n w).1.1 none
        (callGetSecretRecord s name n w).2 := by
  simp [Get, hne, hn, wrapInt64_Atoi hn]

/-- Lines 65-91 on an active record that decrypts. -/
theorem afterLookup_active (s : store σ κ) (name : GoString) (r : dao.SecretRecord)
    (w : World σ κ) (p : GoString) (hact : r.Active = true)
    (hdec : (s.crypter.DecryptSecret r w.crypter).1 = (some p, none)) :
    Get.afterLookup s name (some r) none w =
      ((some { Name := r.Name, Serial := r.Serial, Payload := p, Active := true }, none),
       { w with crypter := (s.crypter.DecryptSecret r w.crypter).2,
                calls := w.calls ++ [Call.DecryptSecret r] }) := by
  have h1 : (s.crypter.DecryptSecret r w.crypter).1.1 = some p := by rw [hdec]
  have h2 : (s.crypter.DecryptSecret r w.crypter).1.2 = none := by rw [hdec]
  simp [Get.afterLookup, callDecryptSecret, hact, h1, h2]

/-- Lines 65-91 on an inactive record: the crypter is not consulted. -/
theorem afterLookup_inactive (s : store σ κ) (name : GoString) (r : dao.SecretRecord)
    (w : World σ κ) (hact : r.Active = false) :
    Get.afterLookup s name (some r) none w =
      ((some { Name := r.Name, Serial := r.Serial, Payload := [], Active := false }, none), w) := by
  simp [Get.afterLookup, hact]

/-- Lines 65-91 add nothing but `DecryptSecret` calls to the log. -/
theorem afterLookup_calls (s : store σ κ) (name : GoString) (l : Option dao.SecretRecord)
    (err : Option Error) (w : World σ κ) :
    ∃ rest, (Get.afterLookup s name l err w).2.calls = w.calls ++ rest ∧
      ∀ c ∈ rest, ∃ r, c = Call.DecryptSecret r := by
  unfold Get.afterLookup
  cases err with
  | some e => exact ⟨[], by simp⟩
  | none =>
    cases l with
    | none => exact ⟨[], by simp⟩
    | some loaded =>
      by_cases hact : loaded.Active = true
      · refine ⟨[Call.DecryptSecret loaded], ?_, by simp⟩
        simp only [hact, Bool.not_true, Bool.false_eq_true, if_false]
        split <;> simp [callDecryptSecret]
      · exact ⟨[], by simp [hact]⟩

/-- C1 (counterexample): the gateway has no record for "bar", the view carries serial 5;
`Save` succeeds, inserts a record with serial 5 and returns a view with serial 5. -/
theorem Save_first_version_keeps_caller_serial :
    (dao.inMemoryDAO.GetLatestVersion (str "bar") []).1 = (none, none) ∧
    (Save inMemoryStore
        { Name := str "bar", Serial := 5, Payload := str "foobar", Active := true }
        ⟨[], (), []⟩).1 =
      (some { Name := str "bar", Serial := 5, Payload := str "foobar", Active := true }, none) ∧
    (Save inMemoryStore
        { Name := str "bar", Serial := 5, Payload := str "foobar", Active := true }
        ⟨[], (), []⟩).2.dao =
      [{ Name := str "bar", Serial := 5, EncryptedData := str "foobar", EncryptedDataKey := [],
         Active := true }] := by
  decide

/-- C1 (amended): when `GetLatestVersion(view.Name)` reports no record and no error and
the crypter leaves the record's key fields alone, a successful `Save` inserts a record
that carries the serial of the caller's view and returns the view unchanged; for a view
with serial 1, as the front ends build it, that serial is 1. -/
theorem Save_first_version (s : store σ κ) (view : api.SecretRecord) (w : World σ κ)
    (hnone : (s.dao.GetLatestVersion view.Name w.dao).1 = (none, none))
    (hkeeps : s.crypter.KeepsKey)
    (hok : (Save s view w).1.2 = none) :
    (Save s view w).1.1 = some view ∧
    (∃ record, record.Serial = view.Serial ∧
      (Save s view w).2.calls = w.calls ++
        [Call.GetLatestVersion view.Name,
         Call.EncryptSecret (Save.newSecret view) view.Payload,
         Call.PutSecretRecord record]) ∧
    (view.Serial = 1 → ∃ v, (Save s view w).1.1 = some v ∧ v.Serial = 1) := by
  have h := Save_of_lookup_ok s view w none hnone hok
  simp only [Save.setSerial] at h
  refine ⟨h.1, ⟨_, ?_, h.2⟩, fun h1 => ⟨view, h.1, h1⟩⟩
  exact (hkeeps (Save.newSecret view) view.Payload w.crypter).2.1

theorem identityCrypter_keepsKey : crypt.identityCrypter.KeepsKey := by
  intro r secret k
  simp [crypt.identityCrypter]

/-- C1 (witness): the amended statement at the view of `TestSaveNoLatestVersion`. -/
theorem Save_first_version_witness :
    (Save inMemoryStore
        { Name := str "bar", Serial := 1, Payload := str "foobar", Active := true }
        ⟨[], (), []⟩).1.1 =
      some { Name := str "bar", Serial := 1, Payload := str "foobar", Active := true } :=
  (Save_first_version inMemoryStore
    { Name := str "bar", Serial := 1, Payload := str "foobar", Active := true }
    ⟨[], (), []⟩ (by decide) identityCrypter_keepsKey (by decide)).1

/-- C3: with an empty serial `Get` reads with `GetLatestVersion(name)` and makes no
`GetSecretRecord` call; with a serial that parses to the integer `n` it reads with
`GetSecretRecord(name, n)` and makes no `GetLatestVersion` call (in both cases every
further call is a `DecryptSecret`); and when the record read is active and
`DecryptSecret` yields `p`, `Get` returns no error and the view with the record's name
and serial, active, and payload `p`. -/
theorem Get_reads_by_strategy (s : store σ κ) (name serial : GoString) (w : World σ κ) :
    (serial = [] →
      (∃ rest, (Get s name serial w).2.calls = w.calls ++ Call.GetLatestVersion name :: rest ∧
        ∀ c ∈ rest, ∃ r, c = Call.DecryptSecret r) ∧
      ∀ (r : dao.SecretRecord) (p : GoString),
        (s.dao.GetLatestVersion name w.dao).1 = (some r, none) → r.Active = true →
        (s.crypter.DecryptSecret r w.crypter).1 = (some p, none) →
        (Get s name serial w).1 =
          (some { Name := r.Name, Serial := r.Serial, Payload := p, Active := true }, none)) ∧
    (∀ n : Int, serial ≠ [] → strconv.Atoi serial = (n, none) →
      (∃ rest, (Get s name serial w).2.calls = w.calls ++ Call.GetSecretRecord name n :: rest ∧
        ∀ c ∈ rest, ∃ r, c = Call.DecryptSecret r) ∧
      ∀ (r : dao.SecretRecord) (p : GoString),
        (s.dao.GetSecretRecord name n w.dao).1 = (some r, none) → r.Active = true →
        (s.crypter.DecryptSecret r w.crypter).1 = (some p, none) →
        (Get s name serial w).1 =
          (some { Name := r.Name, Serial := r.Serial, Payload := p, Active := true }, none)) := by
  constructor
  · intro hs
    subst hs
    rw [Get_latest_eq]
    constructor
    · obtain ⟨rest, h1, h2⟩ := afterLookup_calls s name (callGetLatestVersion s name w).1.1
        (callGetLatestVersion s name w).1.2 (callGetLatestVersion s name w).2
      exact ⟨rest, by simpa [callGetLatestVersion] using h1, h2⟩
    · intro r p hr hact hdec
      have h1 : (callGetLatestVersion s name w).1 = (some r, none) := by
        simpa [callGetLatestVersion] using hr
      rw [h1, afterLookup_active s name r _ p hact (by simpa [callGetLatestVersion] using hdec)]
  · intro n hne hn
    rw [Get_exact_eq s name serial n w hne hn]
    constructor
    · obtain ⟨rest, h1, h2⟩ := afterLookup_calls s name (callGetSecretRecord s name n w).1.1
        none (callGetSecretRecord s name n w).2
      exact ⟨rest, by simpa [callGetSecretRecord] using h1, h2⟩
    · intro r p hr hact hdec
      have h1 : (callGetSecretRecord s name n w).1.1 = some r := by
        simp [callGetSecretRecord, hr]
      rw [h1, afterLookup_active s name r _ p hact (by simpa [callGetSecretRecord] using hdec)]

/-- C3 (witness): `TestGetNoSerial` and `TestGet` over the in-memory gateway: an active
record "foo"/1 whose payload decrypts to "foobar", read with "" and with "1". -/
theorem Get_reads_by_strategy_witness :
    (Get inMemoryStore (str "foo") []
      ⟨[{ Name := str "foo", Serial := 1, EncryptedData := str "foobar",
          EncryptedDataKey := [], Active := true }], (), []⟩).1 =
      (some { Name := str "foo", Serial := 1, Payload := str "foobar", Active := true }, none) ∧
    (Get inMemoryStore (str "foo") (str "1")
      ⟨[{ Name := str "foo", Serial := 1, EncryptedData := str "foobar",
          EncryptedDataKey := [], Active := true }], (), []⟩).1 =
      (some { Name := str "foo", Serial := 1, Payload := str "foobar", Active := true }, none) :=
  ⟨((Get_reads_by_strategy inMemoryStore (str "foo") []
      ⟨[{ Name := str "foo", Serial := 1, EncryptedData := str "foobar",
          EncryptedDataKey := [], Active := true }], (), []⟩).1 rfl).2
      { Name := str "foo", Serial := 1, EncryptedData := str "foobar",
        EncryptedDataKey := [], Active := true }
      (str "foobar") (by decide) (by decide) (by decide),
   ((Get_reads_by_strategy inMemoryStore (str "foo") (str "1")
      ⟨[{ Name := str "foo", Serial := 1, EncryptedData := str "foobar",
          EncryptedDataKey := [], Active := true }], (), []⟩).2 1 (by decide) (by decide)).2
      { Name := str "foo", Serial := 1, EncryptedData := str "foobar",
        EncryptedDataKey := [], Active := true }
      (str "foobar") (by decide) (by decide) (by decide)⟩

/-- C4: when the gateway call `Get` makes for (name, serial) returns an inactive record,
whatever its encrypted fields, `Get` returns no error and the view with the record's
name and serial, `Active = false` and an empty payload; the gateway read is the only
call it makes, so `DecryptSecret` is never called and the crypter state is untouched. -/
theorem Get_inactive (s : store σ κ) (name serial : GoString) (w : World σ κ)
    (r : dao.SecretRecord) (hinactive : r.Active = false)
    (hread : (serial = [] ∧ (s.dao.GetLatestVersion name w.dao).1 = (some r, none)) ∨
      (∃ n : Int, serial ≠ [] ∧ strconv.Atoi serial = (n, none) ∧
        (s.dao.GetSecretRecord name n w.dao).1 = (some r, none))) :
    (Get s name serial w).1 =
      (some { Name := r.Name, Serial := r.Serial, Payload := [], Active := false }, none) ∧
    (Get s name serial w).2.crypter = w.crypter ∧
    ((Get s name serial w).2.calls = w.calls ++ [Call.GetLatestVersion name] ∨
      ∃ n : Int, (Get s name serial w).2.calls = w.calls ++ [Call.GetSecretRecord name n]) ∧
    ∀ c ∈ (Get s name serial w).2.calls, (∃ x, c = Call.DecryptSecret x) → c ∈ w.calls := by
  rcases hread with ⟨hs, hr⟩ | ⟨n, hne, hn, hr⟩
  · subst hs
    have h1 : (callGetLatestVersion s name w).1 = (some r, none) := by
      simpa [callGetLatestVersion] using hr
    rw [Get_latest_eq, h1, afterLookup_inactive s name r _ hinactive]
    refine ⟨rfl, by simp [callGetLatestVersion], Or.inl (by simp [callGetLatestVersion]), ?_⟩
    intro c hc hx
    obtain ⟨x, rfl⟩ := hx
    simpa [callGetLatestVersion] using hc
  · have h1 : (callGetSecretRecord s name n w).1.1 = some r := by
      simp [callGetSecretRecord, hr]
    rw [Get_exact_eq s name serial n w hne hn, h1, afterLookup_inactive s name r _ hinactive]
    refine ⟨rfl, by simp [callGetSecretRecord], Or.inr ⟨n, by simp [callGetSecretRecord]⟩, ?_⟩
    intro c hc hx
    obtain ⟨x, rfl⟩ := hx
    simpa [callGetSecretRecord] using hc

/-- C4 (witness): `TestGetInactiveSecret`: the latest record of "foo" is inactive and has
`EncryptedData` "foobar"; the view returned has an empty payload. -/
theorem Get_inactive_witness :
    (Get inMemoryStore (str "foo") []
      ⟨[{ Name := str "foo", Serial := 1, EncryptedData := str "foobar",
          EncryptedDataKey := [], Active := false }], (), []⟩).1 =
      (some { Name := str "foo", Serial := 1, Payload := [], Active := false }, none) :=
  (Get_inactive inMemoryStore (str "foo") []
    ⟨[{ Name := str "foo", Serial := 1, EncryptedData := str "foobar",
        EncryptedDataKey := [], Active := false }], (), []⟩
    { Name := str "foo", Serial := 1, EncryptedData := str "foobar", EncryptedDataKey := [],
      Active := false }
    rfl (Or.inl ⟨rfl, by decide⟩)).1

/-- C9: `Save` returns no error exactly when the latest-version lookup, `EncryptSecret`
and `PutSecretRecord` all return no error; when the lookup fails `Save` returns that
error and no view after the lookup alone, and when `EncryptSecret` fails it returns
that error and no view after the lookup and the `EncryptSecret` call; in both cases
`PutSecretRecord` is not called and the gateway is as the lookup left it. -/
theorem Save_all_or_nothing (s : store σ κ) (view : api.SecretRecord) (w : World σ κ) :
    let l := s.dao.GetLatestVersion view.Name w.dao
    let v := Save.setSerial view l.1.1
    let e := s.crypter.EncryptSecret (Save.newSecret v) v.Payload w.crypter
    let p := s.dao.PutSecretRecord e.1.record l.2
    ((Save s view w).1.2 = none ↔ l.1.2 = none ∧ e.1.err = none ∧ p.1 = none) ∧
    (∀ err, l.1.2 = some err →
      (Save s view w).1 = (none, some err) ∧
      (Save s view w).2.calls = w.calls ++ [Call.GetLatestVersion view.Name] ∧
      (Save s view w).2.dao = l.2) ∧
    (∀ err, l.1.2 = none → e.1.err = some err →
      (Save s view w).1 = (none, some err) ∧
      (Save s view w).2.calls = w.calls ++
        [Call.GetLatestVersion view.Name, Call.EncryptSecret (Save.newSecret v) v.Payload] ∧
      (Save s view w).2.dao = l.2) := by
  intro l v e p
  cases hl : l.1.2 with
  | some err0 =>
    have hl2 : (s.dao.GetLatestVersion view.Name w.dao).1.2 = some err0 := hl
    refine ⟨?_, ?_, ?_⟩
    · simp [Save, callGetLatestVersion, hl2]
    · intro err herr
      cases herr
      simp [Save, callGetLatestVersion, hl2, l]
    · intro err h
      cases h
  | none =>
    have hl2 : (s.dao.GetLatestVersion view.Name w.dao).1.2 = none := hl
    cases he : e.1.err with
    | some err1 =>
      have he2 : (s.crypter.EncryptSecret
          (Save.newSecret (Save.setSerial view (s.dao.GetLatestVersion view.Name w.dao).1.1))
          (Save.setSerial view (s.dao.GetLatestVersion view.Name w.dao).1.1).Payload
          w.crypter).1.err = some err1 := he
      refine ⟨?_, ?_, ?_⟩
      · simp [Save, callGetLatestVersion, callEncryptSecret, hl2, he2]
      · intro err h
        cases h
      · intro err _ herr
        cases herr
        simp [Save, callGetLatestVersion, callEncryptSecret, hl2, he2, l, v]
    | none =>
      have he2 : (s.crypter.EncryptSecret
          (Save.newSecret (Save.setSerial view (s.dao.GetLatestVersion view.Name w.dao).1.1))
          (Save.setSerial view (s.dao.GetLatestVersion view.Name w.dao).1.1).Payload
          w.crypter).1.err = none := he
      refine ⟨?_, ?_, ?_⟩
      · simp [Save, callGetLatestVersion, callEncryptSecret, callPutSecretRecord, hl2, he2,
          p, e, v, l]
      · intro err h
        cases h
      · intro err _ h
        cases h

/-- C9 (witness): `TestSaveOnEncryptError`: no latest version, `EncryptSecret` fails;
`Save` returns that error and no view, and the gateway still holds nothing. -/
theorem Save_all_or_nothing_witness :
    (Save { dao := dao.inMemoryDAO,
            crypter := crypt.failingCrypter (Error.errorString (str "what is the point")) }
        { Name := str "bar", Serial := 1, Payload := str "foobar", Active := true }
        ⟨[], (), []⟩).1 = (none, some (Error.errorString (str "what is the point"))) ∧
    (Save { dao := dao.inMemoryDAO,
            crypter := crypt.failingCrypter (Error.errorString (str "what is the point")) }
        { Name := str "bar", Serial := 1, Payload := str "foobar", Active := true }
        ⟨[], (), []⟩).2.dao = [] :=
  ⟨((Save_all_or_nothing
      { dao := dao.inMemoryDAO,
        crypter := crypt.failingCrypter (Error.errorString (str "what is the point")) }
      { Name := str "bar", Serial := 1, Payload := str "foobar", Active := true }
      ⟨[], (), []⟩).2.2 (Error.errorString (str "what is the point")) rfl rfl).1,
   ((Save_all_or_nothing
      { dao := dao.inMemoryDAO,
        crypter := crypt.failingCrypter (Error.errorString (str "what is the point")) }
      { Name := str "bar", Serial := 1, Payload := str "foobar", Active := true }
      ⟨[], (), []⟩).2.2 (Error.errorString (str "what is the point")) rfl rfl).2.2⟩

/-- The latest strategy returns the gateway's error itself, and calls no crypter. -/
theorem Get_latest_gateway_error (s : store σ κ) (name : GoString) (w : World σ κ)
    (l : Option dao.SecretRecord) (e : Error)
    (hfail : (s.dao.GetLatestVersion name w.dao).1 = (l, some e)) :
    (Get s name [] w).1 = (none, some e) ∧
    (Get s name [] w).2.calls = w.calls ++ [Call.GetLatestVersion name] ∧
    (Get s name [] w).2.crypter = w.crypter := by
  have h1 : (callGetLatestVersion s name w).1 = (l, some e) := by
    simpa [callGetLatestVersion] using hfail
  rw [Get_latest_eq, h1]
  simp [Get.afterLookup, callGetLatestVersion]

/-- The exact strategy drops the gateway's error: when `GetSecretRecord` fails with `e`
and returns no record, `Get` answers with its own not-found error. -/
theorem Get_exact_gateway_error (s : store σ κ) (name serial : GoString) (n : Int)
    (w : World σ κ) (e : Error) (hne : serial ≠ []) (hn : strconv.Atoi serial = (n, none))
    (hfail : (s.dao.GetSecretRecord name n w.dao).1 = (none, some e)) :
    (Get s name serial w).1 =
      (none, some (Errorf (str "Secret with name '") name (str "' not found"))) ∧
    (Get s name serial w).2.calls = w.calls ++ [Call.GetSecretRecord name n] ∧
    (Get s name serial w).2.crypter = w.crypter := by
  have h1 : (callGetSecretRecord s name n w).1.1 = none := by
    simp [callGetSecretRecord, hfail]
  rw [Get_exact_eq s name serial n w hne hn, h1]
  simp [Get.afterLookup, callGetSecretRecord]

/-- C10 (the code at the failing input): the gateway fails every call with the error
"come back in a thousand years". `Get("foo", "")` returns that error; `Get("foo", "1")`
returns the different error "Secret with name 'foo' not found". -/
theorem Get_exact_serial_masks_gateway_error :
    (Get { dao := dao.failingDAO (Error.errorString (str "come back in a thousand years")),
           crypter := crypt.identityCrypter }
        (str "foo") (str "") ⟨(), (), []⟩).1 =
      (none, some (Error.errorString (str "come back in a thousand years"))) ∧
    (Get { dao := dao.failingDAO (Error.errorString (str "come back in a thousand years")),
           crypter := crypt.identityCrypter }
        (str "foo") (str "1") ⟨(), (), []⟩).1 =
      (none, some (Error.errorString (str "Secret with name 'foo' not found"))) ∧
    (Get { dao := dao.failingDAO (Error.errorString (str "come back in a thousand years")),
           crypter := crypt.identityCrypter }
        (str "foo") (str "1") ⟨(), (), []⟩).2.calls = [Call.GetSecretRecord (str "foo") 1] ∧
    Error.errorString (str "Secret with name 'foo' not found") ≠
      Error.errorString (str "come back in a thousand years") := by
  decide

/-! ## Theorems: decimal serial strings -/

theorem parseDigits_append (acc : Nat) (xs : List Byte) (c : Byte) :
    strconv.parseDigits acc (xs ++ [c]) =
      (strconv.parseDigits acc xs).bind
        (fun a => if 48 ≤ c.val ∧ c.val ≤ 57 then some (a * 10 + (c.val - 48)) else none) := by
  induction xs generalizing acc with
  | nil => simp [strconv.parseDigits]
  | cons x xs ih =>
    simp only [List.cons_append, strconv.parseDigits]
    split
    · exact ih _
    · rfl

theorem byte_val_of_lt {n : Nat} (h : n < 256) : (byte n).val = n := by
  simp [byte, Nat.mod_eq_of_lt h]

theorem parseDigits_formatBits (fuel n : Nat) (h : n ≤ fuel) :
    strconv.parseDigits 0 (strconv.formatBits fuel n) = some n := by
  induction fuel generalizing n with
  | zero =>
    have h0 : n = 0 := by omega
    subst h0
    decide
  | succ fuel ih =>
    unfold strconv.formatBits
    split
    · rename_i hlt
      have hb : (byte (48 + n)).val = 48 + n := byte_val_of_lt (by omega)
      simp only [strconv.parseDigits, hb]
      rw [if_pos (by omega)]
      congr 1
      omega
    · rename_i hge
      have hb : (byte (48 + n % 10)).val = 48 + n % 10 := byte_val_of_lt (by omega)
      rw [parseDigits_append, ih (n / 10) (by omega), hb]
      simp only [Option.some_bind]
      rw [if_pos (by omega)]
      congr 1
      omega

theorem formatBits_head (fuel n : Nat) :
    ∃ c cs, strconv.formatBits fuel n = c :: cs ∧ 48 ≤ c.val ∧ c.val ≤ 57 := by
  induction fuel generalizing n with
  | zero =>
    refine ⟨_, [], rfl, ?_⟩
    rw [byte_val_of_lt (by omega)]
    omega
  | succ fuel ih =>
    unfold strconv.formatBits
    split
    · refine ⟨_, [], rfl, ?_⟩
      rw [byte_val_of_lt (by omega)]
      omega
    · obtain ⟨c, cs, hc, hd⟩ := ih (n / 10)
      exact ⟨c, cs ++ [byte (48 + n % 10)], by rw [hc]; rfl, hd⟩

/-- `strconv.Atoi` reads back what `strconv.FormatInt` writes, for every `int64`. -/
theorem Atoi_FormatInt (i : Int) (h : InInt64 i) :
    strconv.Atoi (strconv.FormatInt i) = (i, none) := by
  unfold InInt64 minInt64 maxInt64 at h
  unfold strconv.FormatInt
  by_cases hneg : i < 0
  · rw [if_pos hneg]
    obtain ⟨c, cs, hc, _⟩ := formatBits_head i.natAbs i.natAbs
    have hp := parseDigits_formatBits i.natAbs i.natAbs (le_refl _)
    have h45 : (byte 45).val = 45 := by decide
    unfold strconv.Atoi
    simp only [h45, true_or, if_true]
    rw [if_neg (by rw [hc]; simp), hp]
    simp only
    rw [if_pos (by omega)]
    congr 1
    omega
  · rw [if_neg hneg]
    obtain ⟨c, cs, hc, hd⟩ := formatBits_head i.toNat i.toNat
    have hp := parseDigits_formatBits i.toNat i.toNat (le_refl _)
    unfold strconv.Atoi
    rw [hc] at hp ⊢
    simp only
    have hsign : ¬ (c.val = 45 ∨ c.val = 43) := by omega
    rw [if_neg hsign, if_neg (by simp), hp]
    simp only
    rw [if_neg (by omega), if_pos (by omega)]
    congr 1
    omega

theorem FormatInt_ne_nil (i : Int) : strconv.FormatInt i ≠ [] := by
  unfold strconv.FormatInt
  split
  · simp
  · obtain ⟨c, cs, hc, _⟩ := formatBits_head i.toNat i.toNat
    rw [hc]
    simp

/-! ## Theorems: the store over the in-memory gateway -/

theorem latest_spec (name : GoString) (t : List dao.SecretRecord) :
    match dao.latest name t with
    | none => ∀ x ∈ t, x.Name ≠ name
    | some b => b ∈ t ∧ b.Name = name ∧ ∀ x ∈ t, x.Name = name → x.Serial ≤ b.Serial := by
  induction t with
  | nil => simp [dao.latest]
  | cons r rs ih =>
    unfold dao.latest
    cases hl : dao.latest name rs with
    | none =>
      rw [hl] at ih
      simp only at ih ⊢
      by_cases hr : r.Name = name
      · rw [if_pos hr]
        refine ⟨by simp, hr, ?_⟩
        intro x hx hxn
        rcases List.mem_cons.mp hx with rfl | hx
        · exact le_refl _
        · exact absurd hxn (ih x hx)
      · rw [if_neg hr]
        intro x hx
        rcases List.mem_cons.mp hx with rfl | hx
        · exact hr
        · exact ih x hx
    | some b =>
      rw [hl] at ih
      simp only at ih ⊢
      obtain ⟨hb, hbn, hmax⟩ := ih
      by_cases hr : r.Name = name ∧ b.Serial < r.Serial
      · rw [if_pos hr]
        refine ⟨by simp, hr.1, ?_⟩
        intro x hx hxn
        rcases List.mem_cons.mp hx with rfl | hx
        · exact le_refl _
        · exact le_trans (hmax x hx hxn) (le_of_lt hr.2)
      · rw [if_neg hr]
        refine ⟨List.mem_cons_of_mem _ hb, hbn, ?_⟩
        intro x hx hxn
        rcases List.mem_cons.mp hx with rfl | hx
        · by_contra hlt
          exact hr ⟨hxn, by omega⟩
        · exact hmax x hx hxn

theorem hasKey_iff (r : dao.SecretRecord) (name : GoString) (serial : Int) :
    r.hasKey name serial = true ↔ r.Name = name ∧ r.Serial = serial := by
  simp [dao.SecretRecord.hasKey]

/-- What a successful `Save` over the in-memory gateway returns and leaves in the table. -/
theorem Save_inMemory (c : crypt.Crypter κ) (view : api.SecretRecord)
    (w : World (List dao.SecretRecord) κ)
    (hok : (Save { dao := dao.inMemoryDAO, crypter := c } view w).1.2 = none) :
    (Save { dao := dao.inMemoryDAO, crypter := c } view w).1.1 =
      some (Save.setSerial view (dao.latest view.Name w.dao)) ∧
    (c.EncryptSecret (Save.newSecret (Save.setSerial view (dao.latest view.Name w.dao)))
      (Save.setSerial view (dao.latest view.Name w.dao)).Payload w.crypter).1.err = none ∧
    (Save { dao := dao.inMemoryDAO, crypter := c } view w).2.dao =
      (c.EncryptSecret (Save.newSecret (Save.setSerial view (dao.latest view.Name w.dao)))
          (Save.setSerial view (dao.latest view.Name w.dao)).Payload w.crypter).1.record ::
        w.dao.filter (fun r => !r.hasKey
          (c.EncryptSecret (Save.newSecret (Save.setSerial view (dao.latest view.Name w.dao)))
            (Save.setSerial view (dao.latest view.Name w.dao)).Payload w.crypter).1.record.Name
          (c.EncryptSecret (Save.newSecret (Save.setSerial view (dao.latest view.Name w.dao)))
            (Save.setSerial view (dao.latest view.Name w.dao)).Payload w.crypter).1.record.Serial) ∧
    (Save { dao := dao.inMemoryDAO, crypter := c } view w).2.crypter =
      (c.EncryptSecret (Save.newSecret (Save.setSerial view (dao.latest view.Name w.dao)))
        (Save.setSerial view (dao.latest view.Name w.dao)).Payload w.crypter).2 := by
  unfold Save at hok ⊢
  simp only [callGetLatestVersion, callEncryptSecret, callPutSecretRecord, dao.inMemoryDAO]
    at hok ⊢
  split at hok
  · simp at hok
  · rename_i he
    simp only [he]
    simp

theorem setSerial_Payload (view : api.SecretRecord) (l : Option dao.SecretRecord) :
    (Save.setSerial view l).Payload = view.Payload := by
  cases l <;> rfl

theorem setSerial_Name (view : api.SecretRecord) (l : Option dao.SecretRecord) :
    (Save.setSerial view l).Name = view.Name := by
  cases l <;> rfl

theorem setSerial_Active (view : api.SecretRecord) (l : Option dao.SecretRecord) :
    (Save.setSerial view l).Active = view.Active := by
  cases l <;> rfl

/-- What `Revoke` does to the in-memory gateway when the record exists. -/
theorem Revoke_inMemory (c : crypt.Crypter κ) (name : GoString) (n : Int)
    (w : World (List dao.SecretRecord) κ) (r : dao.SecretRecord) (hin : InInt64 n)
    (hexists : w.dao.find? (fun x => x.hasKey name n) = some r) :
    Revoke { dao := dao.inMemoryDAO, crypter := c } name (strconv.FormatInt n) w =
      (none, { w with
        dao := w.dao.map (fun x => if x.hasKey name n then { x with Active := false } else x),
        calls := w.calls ++ [Call.RevokeSecretRecord name n] }) := by
  have hany : w.dao.any (fun x => x.hasKey name n) = true := by
    rw [List.any_eq_true]
    have hkey : r.hasKey name n = true :=
      @List.find?_some _ (fun x : dao.SecretRecord => x.hasKey name n) _ _ hexists
    exact ⟨r, List.mem_of_find?_eq_some hexists, hkey⟩
  unfold Revoke
  rw [Atoi_FormatInt n hin]
  simp only [callRevokeSecretRecord, dao.inMemoryDAO, wrapInt64_of_inInt64 hin, hany, if_true]

/-- Deactivating the records with a key does not change which record has which key. -/
theorem find_after_revoke (t : List dao.SecretRecord) (name : GoString) (n : Int)
    (name2 : GoString) (n2 : Int) :
    (t.map (fun x => if x.hasKey name n then { x with Active := false } else x)).find?
        (fun x => x.hasKey name2 n2) =
      (t.find? (fun x => x.hasKey name2 n2)).map
        (fun x => if x.hasKey name n then { x with Active := false } else x) := by
  rw [List.find?_map]
  congr 2
  funext x
  simp only [Function.comp]
  split <;> rfl

/-- C6: `Revoke` never removes a record. Over the in-memory gateway, when a record with
key (name, s) exists and `Revoke(name, decimal string of s)` succeeds, the table has
as many records as before and still holds that record, now inactive; a following
`Get(name, decimal string of s)` returns no error and the view with serial `s`,
`Active = false` and payload "", and its only call is the gateway read: no
`DecryptSecret` call is made and the crypter state is untouched. -/
theorem Revoke_keeps_record (c : crypt.Crypter κ) (name : GoString) (s : Int)
    (w w2 : World (List dao.SecretRecord) κ) (r : dao.SecretRecord) (hin : InInt64 s)
    (hexists : w.dao.find? (fun x => x.hasKey name s) = some r)
    (hrevoke : Revoke { dao := dao.inMemoryDAO, crypter := c } name (strconv.FormatInt s) w =
      (none, w2)) :
    w2.dao.length = w.dao.length ∧
    w2.dao.find? (fun x => x.hasKey name s) = some { r with Active := false } ∧
    ∀ (k : κ) (calls : List Call),
      Get { dao := dao.inMemoryDAO, crypter := c } name (strconv.FormatInt s)
          ⟨w2.dao, k, calls⟩ =
        ((some { Name := name, Serial := s, Payload := [], Active := false }, none),
          ⟨w2.dao, k, calls ++ [Call.GetSecretRecord name s]⟩) := by
  rw [Revoke_inMemory c name s w r hin hexists] at hrevoke
  have hw2 : w2.dao =
      w.dao.map (fun x => if x.hasKey name s then { x with Active := false } else x) := by
    cases hrevoke
    rfl
  have hkey : r.hasKey name s = true :=
    @List.find?_some _ (fun x : dao.SecretRecord => x.hasKey name s) _ _ hexists
  have hfind : w2.dao.find? (fun x => x.hasKey name s) = some { r with Active := false } := by
    rw [hw2, find_after_revoke, hexists]
    simp [hkey]
  refine ⟨by rw [hw2, List.length_map], hfind, ?_⟩
  intro k calls
  obtain ⟨hrn, hrs⟩ := (hasKey_iff _ _ _).mp hkey
  rw [Get_exact_eq _ name _ s _ (FormatInt_ne_nil s) (Atoi_FormatInt s hin)]
  have hcall : callGetSecretRecord { dao := dao.inMemoryDAO, crypter := c } name s
      ⟨w2.dao, k, calls⟩ =
      ((some { r with Active := false }, none),
        ⟨w2.dao, k, calls ++ [Call.GetSecretRecord name s]⟩) := by
    simp [callGetSecretRecord, dao.inMemoryDAO, hfind]
  rw [hcall, afterLookup_inactive _ name _ _ rfl]
  simp [hrn, hrs]

/-- C6 (witness): the end of the scenario of the specification: "db" has versions 1 and
2, version 1 is revoked and read back. -/
theorem Revoke_keeps_record_witness :
    Get inMemoryStore (str "db") (strconv.FormatInt 1)
      ⟨[{ Name := str "db", Serial := 2, EncryptedData := str "pw2", EncryptedDataKey := [],
          Active := true },
        { Name := str "db", Serial := 1, EncryptedData := str "pw1", EncryptedDataKey := [],
          Active := false }], (), []⟩ =
      ((some { Name := str "db", Serial := 1, Payload := [], Active := false }, none),
        ⟨[{ Name := str "db", Serial := 2, EncryptedData := str "pw2", EncryptedDataKey := [],
            Active := true },
          { Name := str "db", Serial := 1, EncryptedData := str "pw1", EncryptedDataKey := [],
            Active := false }], (), [] ++ [Call.GetSecretRecord (str "db") 1]⟩) :=
  (Revoke_keeps_record crypt.identityCrypter (str "db") 1
    ⟨[{ Name := str "db", Serial := 2, EncryptedData := str "pw2", EncryptedDataKey := [],
        Active := true },
      { Name := str "db", Serial := 1, EncryptedData := str "pw1", EncryptedDataKey := [],
        Active := true }], (), []⟩
    ⟨[{ Name := str "db", Serial := 2, EncryptedData := str "pw2", EncryptedDataKey := [],
        Active := true },
      { Name := str "db", Serial := 1, EncryptedData := str "pw1", EncryptedDataKey := [],
        Active := false }], (), [Call.RevokeSecretRecord (str "db") 1]⟩
    { Name := str "db", Serial := 1, EncryptedData := str "pw1", EncryptedDataKey := [],
      Active := true }
    (by decide) (by decide) rfl).2.2 () []

end store

/-! ## Theorems: base64 -/

namespace base64

theorem decodeMap_encodeChar_fin :
    ∀ n : Fin 64, decodeMap (encodeChar n.val) = some n.val ∧ (encodeChar n.val).val ≠ 61 ∧
      (encodeChar n.val).val ≠ 10 ∧ (encodeChar n.val).val ≠ 13 := by
  decide

theorem decodeMap_encodeChar {n : Nat} (h : n < 64) : decodeMap (encodeChar n) = some n :=
  (decodeMap_encodeChar_fin ⟨n, h⟩).1

theorem encodeChar_ne_pad {n : Nat} (h : n < 64) : (encodeChar n).val ≠ 61 :=
  (decodeMap_encodeChar_fin ⟨n, h⟩).2.1

theorem encodeChar_ne_newline {n : Nat} (h : n < 64) :
    (encodeChar n).val ≠ 10 ∧ (encodeChar n).val ≠ 13 :=
  (decodeMap_encodeChar_fin ⟨n, h⟩).2.2

theorem byte_val (a : Byte) : byte a.val = a := by
  apply Fin.ext
  simp [byte, Nat.mod_eq_of_lt a.isLt]

theorem byte_eq_of_val {n : Nat} {a : Byte} (h : n = a.val) : byte n = a := by
  rw [h]
  exact byte_val a

/-- The quantum loop reads back what `EncodeToString` writes. -/
theorem decodeQuanta_EncodeToString (bs : List Byte) :
    decodeQuanta (EncodeToString bs) = some bs := by
  induction bs using EncodeToString.induct with
  | case1 => rfl
  | case2 a =>
    have ha := a.isLt
    simp only [EncodeToString, decodeQuanta]
    rw [decodeMap_encodeChar (by omega), decodeMap_encodeChar (by omega)]
    have h61 : (byte 61).val = 61 := by decide
    simp only [h61, true_and, if_true]
    congr 2
    exact byte_eq_of_val (by omega)
  | case3 a b =>
    have ha := a.isLt
    have hb := b.isLt
    simp only [EncodeToString, decodeQuanta]
    rw [decodeMap_encodeChar (by omega), decodeMap_encodeChar (by omega)]
    have h61 : (byte 61).val = 61 := by decide
    simp only [h61, if_true]
    rw [if_neg (encodeChar_ne_pad (by omega)), decodeMap_encodeChar (by omega)]
    simp only [if_true]
    congr 2
    · exact byte_eq_of_val (by omega)
    · congr 1
      exact byte_eq_of_val (by omega)
  | case4 a b c rest ih =>
    have ha := a.isLt
    have hb := b.isLt
    have hc := c.isLt
    simp only [EncodeToString, decodeQuanta]
    rw [decodeMap_encodeChar (by omega), decodeMap_encodeChar (by omega)]
    simp only
    rw [if_neg (encodeChar_ne_pad (by omega)), decodeMap_encodeChar (by omega)]
    simp only
    rw [if_neg (encodeChar_ne_pad (by omega)), decodeMap_encodeChar (by omega), ih]
    simp only
    congr 2
    · exact byte_eq_of_val (by omega)
    · congr 1
      · exact byte_eq_of_val (by omega)
      · congr 1
        exact byte_eq_of_val (by omega)

theorem EncodeToString_no_newline (bs : List Byte) :
    ∀ c ∈ EncodeToString bs, (!(decide (c.val = 10) || decide (c.val = 13))) = true := by
  have h61 : (!(decide ((byte 61).val = 10) || decide ((byte 61).val = 13))) = true := by decide
  have henc : ∀ n, n < 64 →
      (!(decide ((encodeChar n).val = 10) || decide ((encodeChar n).val = 13))) = true := by
    intro n hn
    have := encodeChar_ne_newline hn
    simp [this.1, this.2]
  induction bs using EncodeToString.induct with
  | case1 => simp [EncodeToString]
  | case2 a =>
    have ha := a.isLt
    intro c hc
    simp only [EncodeToString, List.mem_cons, List.mem_singleton, List.not_mem_nil, or_false]
      at hc
    rcases hc with rfl | rfl | rfl | rfl
    · exact henc _ (by omega)
    · exact henc _ (by omega)
    · exact h61
    · exact h61
  | case3 a b =>
    have ha := a.isLt
    have hb := b.isLt
    intro c hc
    simp only [EncodeToString, List.mem_cons, List.mem_singleton, List.not_mem_nil, or_false]
      at hc
    rcases hc with rfl | rfl | rfl | rfl
    · exact henc _ (by omega)
    · exact henc _ (by omega)
    · exact henc _ (by omega)
    · exact h61
  | case4 a b c rest ih =>
    have ha := a.isLt
    have hb := b.isLt
    have hc := c.isLt
    intro x hx
    simp only [EncodeToString, List.mem_cons] at hx
    rcases hx with rfl | rfl | rfl | rfl | hx
    · exact henc _ (by omega)
    · exact henc _ (by omega)
    · exact henc _ (by omega)
    · exact henc _ (by omega)
    · exact ih x hx

/-- `DecodeString` inverts `EncodeToString`. -/
theorem DecodeString_EncodeToString (bs : List Byte) :
    DecodeString (EncodeToString bs) = (bs, none) := by
  unfold DecodeString
  rw [List.filter_eq_self.mpr (EncodeToString_no_newline bs), decodeQuanta_EncodeToString]

theorem encodeChar_injective_fin :
    ∀ m n : Fin 64, encodeChar m.val = encodeChar n.val → m = n := by
  decide

theorem encodeChar_ne {m n : Nat} (hm : m < 64) (hn : n < 64) (h : m ≠ n) :
    encodeChar m ≠ encodeChar n := by
  intro he
  have := encodeChar_injective_fin ⟨m, hm⟩ ⟨n, hn⟩ he
  exact h (Fin.mk.inj_iff.mp this)

/-- The text with the padding bit set decodes to the same bytes. -/
theorem decodeQuanta_encodeWithPaddingBit (bs : List Byte) :
    decodeQuanta (encodeWithPaddingBit bs) = some bs := by
  induction bs using encodeWithPaddingBit.induct with
  | case1 => rfl
  | case2 a =>
    have ha := a.isLt
    simp only [encodeWithPaddingBit, decodeQuanta]
    rw [decodeMap_encodeChar (by omega), decodeMap_encodeChar (by omega)]
    have h61 : (byte 61).val = 61 := by decide
    simp only [h61, true_and, if_true]
    congr 2
    exact byte_eq_of_val (by omega)
  | case3 a b =>
    have ha := a.isLt
    have hb := b.isLt
    simp only [encodeWithPaddingBit, decodeQuanta]
    rw [decodeMap_encodeChar (by omega), decodeMap_encodeChar (by omega)]
    have h61 : (byte 61).val = 61 := by decide
    simp only [h61, if_true]
    rw [if_neg (encodeChar_ne_pad (by omega)), decodeMap_encodeChar (by omega)]
    simp only [if_true]
    congr 2
    · exact byte_eq_of_val (by omega)
    · congr 1
      exact byte_eq_of_val (by omega)
  | case4 a b c rest ih =>
    have ha := a.isLt
    have hb := b.isLt
    have hc := c.isLt
    simp only [encodeWithPaddingBit, decodeQuanta]
    rw [decodeMap_encodeChar (by omega), decodeMap_encodeChar (by omega)]
    simp only
    rw [if_neg (encodeChar_ne_pad (by omega)), decodeMap_encodeChar (by omega)]
    simp only
    rw [if_neg (encodeChar_ne_pad (by omega)), decodeMap_encodeChar (by omega), ih]
    simp only
    congr 2
    · exact byte_eq_of_val (by omega)
    · congr 1
      · exact byte_eq_of_val (by omega)
      · congr 1
        exact byte_eq_of_val (by omega)

theorem encodeWithPaddingBit_no_newline (bs : List Byte) :
    ∀ c ∈ encodeWithPaddingBit bs, (!(decide (c.val = 10) || decide (c.val = 13))) = true := by
  have h61 : (!(decide ((byte 61).val = 10) || decide ((byte 61).val = 13))) = true := by decide
  have henc : ∀ n, n < 64 →
      (!(decide ((encodeChar n).val = 10) || decide ((encodeChar n).val = 13))) = true := by
    intro n hn
    have := encodeChar_ne_newline hn
    simp [this.1, this.2]
  induction bs using encodeWithPaddingBit.induct with
  | case1 => simp [encodeWithPaddingBit]
  | case2 a =>
    have ha := a.isLt
    intro c hc
    simp only [encodeWithPaddingBit, List.mem_cons, List.mem_singleton, List.not_mem_nil,
      or_false] at hc
    rcases hc with rfl | rfl | rfl | rfl
    · exact henc _ (by omega)
    · exact henc _ (by omega)
    · exact h61
    · exact h61
  | case3 a b =>
    have ha := a.isLt
    have hb := b.isLt
    intro c hc
    simp only [encodeWithPaddingBit, List.mem_cons, List.mem_singleton, List.not_mem_nil,
      or_false] at hc
    rcases hc with rfl | rfl | rfl | rfl
    · exact henc _ (by omega)
    · exact henc _ (by omega)
    · exact henc _ (by omega)
    · exact h61
  | case4 a b c rest ih =>
    have ha := a.isLt
    have hb := b.isLt
    have hc := c.isLt
    intro x hx
    simp only [encodeWithPaddingBit, List.mem_cons] at hx
    rcases hx with rfl | rfl | rfl | rfl | hx
    · exact henc _ (by omega)
    · exact henc _ (by omega)
    · exact henc _ (by omega)
    · exact henc _ (by omega)
    · exact ih x hx

/-- `DecodeString` is not injective on the texts of one padded blob: the text with the
padding bit set decodes to the bytes too. -/
theorem DecodeString_encodeWithPaddingBit (bs : List Byte) :
    DecodeString (encodeWithPaddingBit bs) = (bs, none) := by
  unfold DecodeString
  rw [List.filter_eq_self.mpr (encodeWithPaddingBit_no_newline bs),
    decodeQuanta_encodeWithPaddingBit]

/-- When the number of bytes is no multiple of three, the text with the padding bit set
and the text `EncodeToString` writes differ in exactly one character. -/
theorem encodeWithPaddingBit_one_char (bs : List Byte) (h : bs.length % 3 ≠ 0) :
    ∃ (pre post : GoString) (c c2 : Byte), c ≠ c2 ∧
      EncodeToString bs = pre ++ c :: post ∧ encodeWithPaddingBit bs = pre ++ c2 :: post := by
  induction bs using EncodeToString.induct with
  | case1 => simp at h
  | case2 a =>
    have ha := a.isLt
    exact ⟨[encodeChar (a.val / 4)], [byte 61, byte 61], _, _,
      encodeChar_ne (by omega) (by omega) (by omega), rfl, rfl⟩
  | case3 a b =>
    have ha := a.isLt
    have hb := b.isLt
    exact ⟨[encodeChar (a.val / 4), encodeChar (a.val % 4 * 16 + b.val / 16)], [byte 61], _, _,
      encodeChar_ne (by omega) (by omega) (by omega), rfl, rfl⟩
  | case4 a b c rest ih =>
    have hrest : rest.length % 3 ≠ 0 := by
      simp only [List.length_cons] at h
      omega
    obtain ⟨pre, post, x, y, hxy, h1, h2⟩ := ih hrest
    refine ⟨encodeChar (a.val / 4) :: encodeChar (a.val % 4 * 16 + b.val / 16) ::
      encodeChar (b.val % 16 * 4 + c.val / 64) :: encodeChar (c.val % 64) :: pre, post, x, y,
      hxy, ?_, ?_⟩
    · simp only [EncodeToString, h1, List.cons_append]
    · simp only [encodeWithPaddingBit, h2, List.cons_append]

end base64

/-! ## Theorems: the KMS crypter -/

namespace crypt

variable {ω : Type}

theorem base64Decode_base64Encode (bs : List Byte) : base64Decode (base64Encode bs) = (bs, none) :=
  base64.DecodeString_EncodeToString bs

/-- A successful `EncryptSecret`, spelled out: the data key has at least 32 bytes,
cryptopasta sealed the payload under its first 32 bytes, and the record holds the two
base64 encodings. -/
theorem EncryptSecret_ok (pasta : cryptopasta.Package ω) (crypter : kmsCrypter ω)
    (record : dao.SecretRecord) (secret : GoString) (w : World ω)
    (key : kms.GenerateDataKeyOutput)
    (hgen : (crypter.kmsClient.GenerateDataKey
      { KeySpec := defaultKeySpec, KeyId := kms.GetCMKAlias crypter.appName } w.env).1 =
        Except.ok key)
    (henc : (kmsCrypter.EncryptSecret pasta crypter record secret w).1.err = none) :
    32 ≤ key.Plaintext.length ∧
    ∃ (blob : List Byte) (e : ω),
      (pasta.Encrypt secret (key.Plaintext.take 32) e).1 = (blob, none) ∧
      (kmsCrypter.EncryptSecret pasta crypter record secret w).1.record =
        { record with EncryptedData := base64Encode blob,
                      EncryptedDataKey := base64Encode key.CiphertextBlob } := by
  unfold kmsCrypter.EncryptSecret at henc ⊢
  simp only [kmsCrypter.generateDataKey, hgen] at henc ⊢
  unfold encrypt at henc ⊢
  unfold getCryptoKey at henc ⊢
  by_cases hlen : key.Plaintext.length < 32
  · simp [hlen] at henc
  · simp only [hlen, if_false] at henc ⊢
    refine ⟨by omega, ?_⟩
    cases hp : (pasta.Encrypt secret (List.take 32 key.Plaintext)
        (crypter.kmsClient.GenerateDataKey
          { KeySpec := defaultKeySpec, KeyId := kms.GetCMKAlias crypter.appName } w.env).2).1.2 with
    | some err => simp [hp] at henc
    | none =>
      refine ⟨_, _, Prod.ext rfl hp, ?_⟩
      simp [hp]

/-- `fetchDataKey` when the key of the record is in the cache, or is not and KMS
unwraps it. -/
theorem fetchDataKey_resolves (crypter : kmsCrypter ω) (r : dao.SecretRecord) (w : World ω)
    (wrapped plain : List Byte) (hr : r.EncryptedDataKey = base64Encode wrapped)
    (hkey : (crypter.keyCache.Get (base64Encode wrapped) w.env).1 = some plain ∨
      ((crypter.keyCache.Get (base64Encode wrapped) w.env).1 = none ∧
        (crypter.kmsClient.Decrypt { CiphertextBlob := wrapped }
          (crypter.keyCache.Get (base64Encode wrapped) w.env).2).1 =
            Except.ok { Plaintext := plain })) :
    (crypter.fetchDataKey r w).1 = (plain, none) := by
  unfold kmsCrypter.fetchDataKey
  rw [hr]
  rcases hkey with hhit | ⟨hmiss, hkms⟩
  · simp [hhit]
  · simp [hmiss, base64Decode_base64Encode, hkms]

/-- `DecryptSecret` once the data key is resolved: it fails when `EncryptedData` is no
base64 or cryptopasta rejects the decoded blob, and returns what cryptopasta opens. -/
theorem DecryptSecret_of_key (pasta : cryptopasta.Package ω) (crypter : kmsCrypter ω)
    (r : dao.SecretRecord) (w : World ω) (plain : List Byte)
    (hfetch : (crypter.fetchDataKey r w).1 = (plain, none)) (hlen : 32 ≤ plain.length) :
    (kmsCrypter.DecryptSecret pasta crypter r w).1 =
      match (base64Decode r.EncryptedData).2 with
      | some err => (none, some err)
      | none =>
        match (pasta.Decrypt (base64Decode r.EncryptedData).1 (plain.take 32)).2 with
        | some err => (none, some (Errorf (str "Error decrypting secret: ") err.Error []))
        | none => (some (pasta.Decrypt (base64Decode r.EncryptedData).1 (plain.take 32)).1, none) := by
  have h1 : (crypter.fetchDataKey r w).1.1 = plain := by rw [hfetch]
  have h2 : (crypter.fetchDataKey r w).1.2 = none := by rw [hfetch]
  have hk : getCryptoKey plain = Except.ok (plain.take 32) := by
    unfold getCryptoKey
    rw [if_neg (by omega)]
  unfold kmsCrypter.DecryptSecret
  simp only [h1, h2]
  cases hd : base64Decode r.EncryptedData with
  | mk blob derr =>
    cases derr with
    | some err => rfl
    | none =>
      simp only [decrypt, hk]
      cases hp : (pasta.Decrypt blob (List.take 32 plain)).2 with
      | some err => rfl
      | none => rfl

/-- `fetchDataKey` does not read `EncryptedData`. -/
theorem fetchDataKey_EncryptedData (crypter : kmsCrypter ω) (r : dao.SecretRecord)
    (altered : GoString) (w : World ω) :
    crypter.fetchDataKey { r with EncryptedData := altered } w = crypter.fetchDataKey r w := rfl

/-- C7: round-trip law. When `GenerateDataKey` returns (plaintext key, wrapped key),
cryptopasta opens what it seals, and the wrapped key resolves to the same plaintext key
when the record is decrypted (the cache holds it under the wrapped key, or the cache
misses and KMS `Decrypt` of the wrapped key returns it), `DecryptSecret` applied to the
record a successful `EncryptSecret(record, payload)` produced returns exactly `payload`. -/
theorem EncryptSecret_DecryptSecret_round_trip (pasta : cryptopasta.Package ω)
    (hcorrect : pasta.Correct) (crypter : kmsCrypter ω) (record : dao.SecretRecord)
    (payload : GoString) (w w2 : World ω) (key : kms.GenerateDataKeyOutput)
    (hgen : (crypter.kmsClient.GenerateDataKey
      { KeySpec := defaultKeySpec, KeyId := kms.GetCMKAlias crypter.appName } w.env).1 =
        Except.ok key)
    (henc : (kmsCrypter.EncryptSecret pasta crypter record payload w).1.err = none)
    (hkey : (crypter.keyCache.Get (base64Encode key.CiphertextBlob) w2.env).1 =
        some key.Plaintext ∨
      ((crypter.keyCache.Get (base64Encode key.CiphertextBlob) w2.env).1 = none ∧
        (crypter.kmsClient.Decrypt { CiphertextBlob := key.CiphertextBlob }
          (crypter.keyCache.Get (base64Encode key.CiphertextBlob) w2.env).2).1 =
            Except.ok { Plaintext := key.Plaintext })) :
    (kmsCrypter.DecryptSecret pasta crypter
      (kmsCrypter.EncryptSecret pasta crypter record payload w).1.record w2).1 =
      (some payload, none) := by
  obtain ⟨hlen, blob, e, hseal, hrec⟩ := EncryptSecret_ok pasta crypter record payload w key hgen henc
  have hfetch := fetchDataKey_resolves crypter
    (kmsCrypter.EncryptSecret pasta crypter record payload w).1.record w2
    key.CiphertextBlob key.Plaintext (by rw [hrec]) hkey
  rw [DecryptSecret_of_key pasta crypter _ w2 key.Plaintext hfetch hlen, hrec]
  simp only [base64Decode_base64Encode]
  have hopen := hcorrect payload (key.Plaintext.take 32) e
    (by rw [List.length_take]; omega) (by rw [hseal])
  rw [hseal] at hopen
  simp only at hopen
  rw [hopen]

theorem checksumTag_length (key nonce body : List Byte) :
    (cryptopasta.checksumTag key nonce body).length = 16 := by
  simp [cryptopasta.checksumTag]

/-- The checksum stand-in honours the contract of the package. -/
theorem checksumSeal_correct (ω : Type) : (cryptopasta.checksumSeal ω).Correct := by
  intro plaintext key e _ _
  simp only [cryptopasta.checksumSeal]
  have hlen : (List.replicate 12 (byte 0) ++ plaintext ++
      cryptopasta.checksumTag key (List.replicate 12 (byte 0)) plaintext).length =
      plaintext.length + 28 := by
    simp only [List.length_append, List.length_replicate, checksumTag_length]
    omega
  have h1 : (List.replicate 12 (byte 0) ++ plaintext ++
      cryptopasta.checksumTag key (List.replicate 12 (byte 0)) plaintext).take 12 =
      List.replicate 12 (byte 0) := by
    rw [List.append_assoc]
    exact List.take_left' (by simp)
  have h2 : ((List.replicate 12 (byte 0) ++ plaintext ++
      cryptopasta.checksumTag key (List.replicate 12 (byte 0)) plaintext).drop 12).take
        plaintext.length = plaintext := by
    rw [List.append_assoc, List.drop_left' (by simp)]
    exact List.take_left' rfl
  have h3 : (List.replicate 12 (byte 0) ++ plaintext ++
      cryptopasta.checksumTag key (List.replicate 12 (byte 0)) plaintext).drop
        (plaintext.length + 12) =
      cryptopasta.checksumTag key (List.replicate 12 (byte 0)) plaintext := by
    exact List.drop_left' (by simp only [List.length_append, List.length_replicate]; omega)
  rw [hlen]
  have e1 : plaintext.length + 28 - 16 = plaintext.length + 12 := by omega
  have e2 : plaintext.length + 28 - 28 = plaintext.length := by omega
  rw [if_neg (by omega), e1, e2, h1, h2, h3]
  simp

/-- C7 (witness): "pw1" sealed and opened by the test crypter, the key cache empty. -/
theorem EncryptSecret_DecryptSecret_round_trip_witness :
    (kmsCrypter.DecryptSecret (cryptopasta.checksumSeal _) testCrypter
      (kmsCrypter.EncryptSecret (cryptopasta.checksumSeal _) testCrypter
        { Name := str "db", Serial := 1, EncryptedData := [], EncryptedDataKey := [],
          Active := true }
        (str "pw1") ⟨[], []⟩).1.record ⟨[], []⟩).1 = (some (str "pw1"), none) :=
  EncryptSecret_DecryptSecret_round_trip (cryptopasta.checksumSeal _) (checksumSeal_correct _)
    testCrypter
    { Name := str "db", Serial := 1, EncryptedData := [], EncryptedDataKey := [],
      Active := true }
    (str "pw1") ⟨[], []⟩ ⟨[], []⟩
    { Plaintext := str "super-awesome-aes-key-so-secure?",
      CiphertextBlob := (str "super-awesome-aes-key-so-secure?").reverse }
    rfl (by decide) (Or.inr ⟨rfl, rfl⟩)

/-- `DecryptSecret` sees `EncryptedData` through `base64Decode` only: two texts that
decode alike decrypt alike, whatever the cipher. -/
theorem DecryptSecret_congr_decode (pasta : cryptopasta.Package ω) (crypter : kmsCrypter ω)
    (r : dao.SecretRecord) (altered : GoString) (w : World ω)
    (h : base64Decode altered = base64Decode r.EncryptedData) :
    kmsCrypter.DecryptSecret pasta crypter { r with EncryptedData := altered } w =
      kmsCrypter.DecryptSecret pasta crypter r w := by
  unfold kmsCrypter.DecryptSecret
  simp only [fetchDataKey_EncryptedData, h]

/-- Whatever the cipher and the key service: a record produced by `EncryptSecret`
whose blob has a number of bytes that is no multiple of three has a text that differs
from its `EncryptedData` in exactly one character and decrypts to the same result. -/
theorem DecryptSecret_padding_bit (pasta : cryptopasta.Package ω) (crypter : kmsCrypter ω)
    (r : dao.SecretRecord) (blob : List Byte) (w : World ω)
    (hr : r.EncryptedData = base64Encode blob) (hlen : blob.length % 3 ≠ 0) :
    (∃ (pre post : GoString) (c c2 : Byte), c ≠ c2 ∧ r.EncryptedData = pre ++ c :: post ∧
      base64.encodeWithPaddingBit blob = pre ++ c2 :: post) ∧
    kmsCrypter.DecryptSecret pasta crypter
        { r with EncryptedData := base64.encodeWithPaddingBit blob } w =
      kmsCrypter.DecryptSecret pasta crypter r w := by
  constructor
  · rw [hr]
    exact base64.encodeWithPaddingBit_one_char blob hlen
  · apply DecryptSecret_congr_decode
    rw [hr, base64Decode_base64Encode]
    exact base64.DecodeString_encodeWithPaddingBit blob

/-- The KMS crypter writes nothing but the two encrypted fields: it meets the
assumption the store theorems make on their crypter. -/
theorem NewCrypter_keepsKey (pasta : cryptopasta.Package ω) (kmsClient : kms.Client ω)
    (keyCache : cache.Cache ω) (appName : GoString) :
    (NewCrypter pasta kmsClient keyCache appName).KeepsKey := by
  intro r secret k
  simp only [NewCrypter, kmsCrypter.EncryptSecret]
  split
  · exact ⟨rfl, rfl, rfl⟩
  · split
    · exact ⟨rfl, rfl, rfl⟩
    · exact ⟨rfl, rfl, rfl⟩

/-- C19: for every record, payload and application name `app`, whatever the outcome, the
calls `EncryptSecret` makes to its collaborators are exactly one `GenerateDataKey` call
with key spec "AES_256" and key id "alias/ECSSecretsMaskerKey-" followed by `app`: the
log gains no KMS `Decrypt` call and no cache `Get` or `Set`. -/
theorem EncryptSecret_calls (pasta : cryptopasta.Package ω) (kmsClient : kms.Client ω)
    (keyCache : cache.Cache ω) (app : GoString) (record : dao.SecretRecord)
    (payload : GoString) (w : World ω) :
    ((NewCrypter pasta kmsClient keyCache app).EncryptSecret record payload w).2.calls =
      w.calls ++ [Call.GenerateDataKey
        { KeySpec := str "AES_256", KeyId := str "alias/ECSSecretsMaskerKey-" ++ app }] ∧
    ∀ c ∈ ((NewCrypter pasta kmsClient keyCache app).EncryptSecret record payload w).2.calls,
      c ∈ w.calls ∨ ∃ input, c = Call.GenerateDataKey input := by
  have hcalls : ((NewCrypter pasta kmsClient keyCache app).EncryptSecret record payload w).2.calls =
      w.calls ++ [Call.GenerateDataKey
        { KeySpec := str "AES_256", KeyId := str "alias/ECSSecretsMaskerKey-" ++ app }] := by
    simp only [NewCrypter, kmsCrypter.EncryptSecret, kmsCrypter.generateDataKey, defaultKeySpec,
      kms.GetCMKAlias]
    split
    · rfl
    · split <;> rfl
  refine ⟨hcalls, ?_⟩
  intro c hc
  rw [hcalls, List.mem_append, List.mem_singleton] at hc
  rcases hc with hc | hc
  · exact Or.inl hc
  · exact Or.inr ⟨_, hc⟩

/-- C20: when `GenerateDataKey` returns (plaintext key, wrapped key) and `encrypt` of the
payload under the plaintext key yields the blob `c`, `EncryptSecret` returns no error and
the record with `EncryptedData` the standard base64 encoding of `c`, `EncryptedDataKey`
the standard base64 encoding of the wrapped key, and `Name`, `Serial` and `Active` as
they were; the record is a function of the record passed in, `c` and the wrapped key:
no field holds the plaintext key. -/
theorem EncryptSecret_sets_fields (pasta : cryptopasta.Package ω) (crypter : kmsCrypter ω)
    (record : dao.SecretRecord) (payload : GoString) (w : World ω)
    (key : kms.GenerateDataKeyOutput) (c : List Byte)
    (hgen : (crypter.kmsClient.GenerateDataKey
      { KeySpec := defaultKeySpec, KeyId := kms.GetCMKAlias crypter.appName } w.env).1 =
        Except.ok key)
    (hseal : (encrypt pasta payload key.Plaintext
      (crypter.kmsClient.GenerateDataKey
        { KeySpec := defaultKeySpec, KeyId := kms.GetCMKAlias crypter.appName } w.env).2).1 =
        (c, none)) :
    (kmsCrypter.EncryptSecret pasta crypter record payload w).1 =
      { record :=
          { Name := record.Name, Serial := record.Serial,
            EncryptedData := base64.EncodeToString c,
            EncryptedDataKey := base64.EncodeToString key.CiphertextBlob,
            Active := record.Active },
        ret := some
          { Name := record.Name, Serial := record.Serial,
            EncryptedData := base64.EncodeToString c,
            EncryptedDataKey := base64.EncodeToString key.CiphertextBlob,
            Active := record.Active },
        err := none } := by
  have h1 : (encrypt pasta payload key.Plaintext
      (crypter.kmsClient.GenerateDataKey
        { KeySpec := defaultKeySpec, KeyId := kms.GetCMKAlias crypter.appName } w.env).2).1.1 =
      c := by rw [hseal]
  have h2 : (encrypt pasta payload key.Plaintext
      (crypter.kmsClient.GenerateDataKey
        { KeySpec := defaultKeySpec, KeyId := kms.GetCMKAlias crypter.appName } w.env).2).1.2 =
      none := by rw [hseal]
  simp only [kmsCrypter.EncryptSecret, kmsCrypter.generateDataKey, hgen, h1, h2, base64Encode]

/-- C20 (witness): the test crypter on "pw1": the blob is the zero nonce, "pw1" and the
tag, the wrapped key is the reversed key. -/
theorem EncryptSecret_sets_fields_witness :
    (kmsCrypter.EncryptSecret (cryptopasta.checksumSeal _) testCrypter
      { Name := str "db", Serial := 1, EncryptedData := [], EncryptedDataKey := [],
        Active := true }
      (str "pw1") ⟨[], []⟩).1 =
      { record :=
          { Name := str "db", Serial := 1,
            EncryptedData := base64.EncodeToString
              (List.replicate 12 (byte 0) ++ str "pw1" ++ List.replicate 16 (byte 67)),
            EncryptedDataKey := base64.EncodeToString
              (str "super-awesome-aes-key-so-secure?").reverse,
            Active := true },
        ret := some
          { Name := str "db", Serial := 1,
            EncryptedData := base64.EncodeToString
              (List.replicate 12 (byte 0) ++ str "pw1" ++ List.replicate 16 (byte 67)),
            EncryptedDataKey := base64.EncodeToString
              (str "super-awesome-aes-key-so-secure?").reverse,
            Active := true },
        err := none } :=
  EncryptSecret_sets_fields (cryptopasta.checksumSeal _) testCrypter
    { Name := str "db", Serial := 1, EncryptedData := [], EncryptedDataKey := [],
      Active := true }
    (str "pw1") ⟨[], []⟩
    { Plaintext := str "super-awesome-aes-key-so-secure?",
      CiphertextBlob := (str "super-awesome-aes-key-so-secure?").reverse }
    (List.replicate 12 (byte 0) ++ str "pw1" ++ List.replicate 16 (byte 67))
    rfl (by decide)

end crypt

/-! ## Theorems: the store, continued -/

namespace store

variable {σ κ : Type}

/-- Lines 65-91 on a nil record and a nil error: the not-found error, and nothing else. -/
theorem afterLookup_nil (s : store σ κ) (name : GoString) (w : World σ κ) :
    Get.afterLookup s name none none w =
      ((none, some (Errorf (str "Secret with name '") name (str "' not found"))), w) := rfl

/-- Lines 65-91 on an active record whose decryption fails. -/
theorem afterLookup_decrypt_error (s : store σ κ) (name : GoString) (r : dao.SecretRecord)
    (w : World σ κ) (e : Error) (hact : r.Active = true)
    (hdec : (s.crypter.DecryptSecret r w.crypter).1.2 = some e) :
    Get.afterLookup s name (some r) none w =
      ((none, some e),
       { w with crypter := (s.crypter.DecryptSecret r w.crypter).2,
                calls := w.calls ++ [Call.DecryptSecret r] }) := by
  simp [Get.afterLookup, callDecryptSecret, hact, hdec]

/-- C11: for either resolution strategy, when the gateway call `Get` makes reports no
record and no error, `Get` fails with the error "Secret with name '<name>' not found",
returns no view, and the gateway read is its only call: the crypter is not called and
its state is untouched. -/
theorem Get_not_found (s : store σ κ) (name serial : GoString) (w : World σ κ)
    (hread : (serial = [] ∧ (s.dao.GetLatestVersion name w.dao).1 = (none, none)) ∨
      (∃ n : Int, serial ≠ [] ∧ strconv.Atoi serial = (n, none) ∧
        (s.dao.GetSecretRecord name n w.dao).1 = (none, none))) :
    (Get s name serial w).1 =
      (none, some (Errorf (str "Secret with name '") name (str "' not found"))) ∧
    (Get s name serial w).2.crypter = w.crypter ∧
    ((Get s name serial w).2.calls = w.calls ++ [Call.GetLatestVersion name] ∨
      ∃ n : Int, (Get s name serial w).2.calls = w.calls ++ [Call.GetSecretRecord name n]) := by
  rcases hread with ⟨hs, hr⟩ | ⟨n, hne, hn, hr⟩
  · subst hs
    have h1 : (callGetLatestVersion s name w).1 = (none, none) := by
      simpa [callGetLatestVersion] using hr
    rw [Get_latest_eq, h1, afterLookup_nil]
    exact ⟨rfl, rfl, Or.inl rfl⟩
  · have h1 : (callGetSecretRecord s name n w).1.1 = none := by
      simp [callGetSecretRecord, hr]
    rw [Get_exact_eq s name serial n w hne hn, h1, afterLookup_nil]
    exact ⟨rfl, rfl, Or.inr ⟨n, rfl⟩⟩

/-- C11 (witness): `TestGetSecretDoesNotExist` over the empty in-memory gateway. -/
theorem Get_not_found_witness :
    (Get inMemoryStore (str "foo") [] ⟨[], (), []⟩).1 =
      (none, some (Errorf (str "Secret with name '") (str "foo") (str "' not found"))) :=
  (Get_not_found inMemoryStore (str "foo") [] ⟨[], (), []⟩ (Or.inl ⟨rfl, rfl⟩)).1

/-- C12: for either resolution strategy, when the gateway returns an active record and
`DecryptSecret` of that record fails with the error `e` (whatever string it returns
along with it), `Get` returns no view and the error `e`. -/
theorem Get_decrypt_error (s : store σ κ) (name serial : GoString) (w : World σ κ)
    (r : dao.SecretRecord) (e : Error) (hactive : r.Active = true)
    (hread : (serial = [] ∧ (s.dao.GetLatestVersion name w.dao).1 = (some r, none)) ∨
      (∃ n : Int, serial ≠ [] ∧ strconv.Atoi serial = (n, none) ∧
        (s.dao.GetSecretRecord name n w.dao).1 = (some r, none)))
    (hdec : (s.crypter.DecryptSecret r w.crypter).1.2 = some e) :
    (Get s name serial w).1 = (none, some e) := by
  rcases hread with ⟨hs, hr⟩ | ⟨n, hne, hn, hr⟩
  · subst hs
    have h1 : (callGetLatestVersion s name w).1 = (some r, none) := by
      simpa [callGetLatestVersion] using hr
    rw [Get_latest_eq, h1, afterLookup_decrypt_error s name r _ e hactive
      (by simpa [callGetLatestVersion] using hdec)]
  · have h1 : (callGetSecretRecord s name n w).1.1 = some r := by
      simp [callGetSecretRecord, hr]
    rw [Get_exact_eq s name serial n w hne hn, h1, afterLookup_decrypt_error s name r _ e hactive
      (by simpa [callGetSecretRecord] using hdec)]

/-- C12 (witness): `TestGetDecryptSecretError`: an active latest record and a crypter
whose `DecryptSecret` fails with "denied". -/
theorem Get_decrypt_error_witness :
    (Get { dao := dao.inMemoryDAO,
           crypter := crypt.failingCrypter (Error.errorString (str "denied")) }
      (str "bar") []
      ⟨[{ Name := str "bar", Serial := 1, EncryptedData := [], EncryptedDataKey := [],
          Active := true }], (), []⟩).1 = (none, some (Error.errorString (str "denied"))) :=
  Get_decrypt_error
    { dao := dao.inMemoryDAO,
      crypter := crypt.failingCrypter (Error.errorString (str "denied")) }
    (str "bar") []
    ⟨[{ Name := str "bar", Serial := 1, EncryptedData := [], EncryptedDataKey := [],
        Active := true }], (), []⟩
    { Name := str "bar", Serial := 1, EncryptedData := [], EncryptedDataKey := [],
      Active := true }
    (Error.errorString (str "denied")) rfl (Or.inl ⟨rfl, by decide⟩) rfl

theorem parseDigits_none_of_not_all (acc : Nat) (ds : List Byte)
    (h : ds.all (fun d => decide (48 ≤ d.val ∧ d.val ≤ 57)) = false) :
    strconv.parseDigits acc ds = none := by
  induction ds generalizing acc with
  | nil => simp at h
  | cons d ds ih =>
    unfold strconv.parseDigits
    by_cases hd : 48 ≤ d.val ∧ d.val ≤ 57
    · rw [if_pos hd]
      apply ih
      simpa [hd] using h
    · rw [if_neg hd]

/-- A text that is not written as a decimal integer is refused by `Atoi`. -/
theorem Atoi_error_of_not_decimal (serial : GoString)
    (h : strconv.isDecimalInteger serial = false) : (strconv.Atoi serial).2 ≠ none := by
  unfold strconv.isDecimalInteger at h
  unfold strconv.Atoi
  cases serial with
  | nil => simp
  | cons c rest =>
    simp only at h ⊢
    by_cases hempty : (if c.val = 45 ∨ c.val = 43 then rest else c :: rest) = []
    · rw [if_pos hempty]
      simp
    · rw [if_neg hempty]
      have hall : (if c.val = 45 ∨ c.val = 43 then rest else c :: rest).all
          (fun d => decide (48 ≤ d.val ∧ d.val ≤ 57)) = false := by
        have hne : (if c.val = 45 ∨ c.val = 43 then rest else c :: rest).isEmpty = false := by
          cases hl : (if c.val = 45 ∨ c.val = 43 then rest else c :: rest) with
          | nil => exact absurd hl hempty
          | cons _ _ => rfl
        rw [hne] at h
        simpa using h
      rw [parseDigits_none_of_not_all 0 _ hall]
      simp

/-- `Revoke` and (on a non-empty serial) `Get` when `Atoi` fails: the error of `Atoi`, and
the state as it was. -/
theorem Atoi_error_returned (s : store σ κ) (name serial : GoString) (w : World σ κ)
    (e : Error) (h : (strconv.Atoi serial).2 = some e) :
    Revoke s name serial w = (some e, w) ∧
    (serial ≠ [] → Get s name serial w = ((none, some e), w)) := by
  cases ha : strconv.Atoi serial with
  | mk v err =>
    rw [ha] at h
    simp only at h
    subst h
    constructor
    · simp [Revoke, ha]
    · intro hne
      simp [Get, hne, ha]

/-- C13: malformed serials are rejected before any collaborator is called. For every
serial string that is not written as a decimal integer (and, more generally, for every
string `strconv.Atoi` refuses, such as a number beyond `int64`), `Revoke` returns an
error and leaves the state and the call log as they were, and when the string is not
empty `Get` returns that error and no view, and leaves the state and the call log as
they were. -/
theorem malformed_serial_rejected (s : store σ κ) (name serial : GoString) (w : World σ κ) :
    (strconv.isDecimalInteger serial = false →
      ∃ e, Revoke s name serial w = (some e, w) ∧
        (serial ≠ [] → Get s name serial w = ((none, some e), w))) ∧
    (∀ e, (strconv.Atoi serial).2 = some e →
      Revoke s name serial w = (some e, w) ∧
        (serial ≠ [] → Get s name serial w = ((none, some e), w))) := by
  constructor
  · intro h
    have hne := Atoi_error_of_not_decimal serial h
    cases he : (strconv.Atoi serial).2 with
    | none => exact absurd he hne
    | some e => exact ⟨e, Atoi_error_returned s name serial w e he⟩
  · intro e he
    exact Atoi_error_returned s name serial w e he

/-- C13 (witness): the serial "1a" is refused by `Revoke` and by `Get`, and the gateway
that would fail every call is never reached. -/
theorem malformed_serial_rejected_witness :
    ∃ e, Revoke { dao := dao.failingDAO (Error.errorString (str "unreachable")),
                  crypter := crypt.identityCrypter }
        (str "foo") (str "1a") ⟨(), (), []⟩ = (some e, ⟨(), (), []⟩) ∧
      (str "1a" ≠ [] →
        Get { dao := dao.failingDAO (Error.errorString (str "unreachable")),
              crypter := crypt.identityCrypter }
          (str "foo") (str "1a") ⟨(), (), []⟩ = ((none, some e), ⟨(), (), []⟩)) :=
  (malformed_serial_rejected
    { dao := dao.failingDAO (Error.errorString (str "unreachable")),
      crypter := crypt.identityCrypter }
    (str "foo") (str "1a") ⟨(), (), []⟩).1 (by decide)

/-- C14: for every serial string that parses to the integer `n`, `Revoke` makes the one
call `RevokeSecretRecord(name, n)` and returns what that call returns; the crypter state
is untouched and no other call is logged. -/
theorem Revoke_calls_gateway_once (s : store σ κ) (name serial : GoString) (n : Int)
    (w : World σ κ) (hn : strconv.Atoi serial = (n, none)) :
    (Revoke s name serial w).1 = (s.dao.RevokeSecretRecord name n w.dao).1 ∧
    (Revoke s name serial w).2.dao = (s.dao.RevokeSecretRecord name n w.dao).2 ∧
    (Revoke s name serial w).2.crypter = w.crypter ∧
    (Revoke s name serial w).2.calls = w.calls ++ [Call.RevokeSecretRecord name n] := by
  simp [Revoke, hn, wrapInt64_Atoi hn, callRevokeSecretRecord]

/-- C14 (witness): `TestRevoke`: `Revoke("foo", "1")` over the in-memory gateway. -/
theorem Revoke_calls_gateway_once_witness :
    (Revoke inMemoryStore (str "foo") (str "1") ⟨[], (), []⟩).2.calls =
      [] ++ [Call.RevokeSecretRecord (str "foo") 1] :=
  (Revoke_calls_gateway_once inMemoryStore (str "foo") (str "1") 1 ⟨[], (), []⟩
    (by decide)).2.2.2

/-- The calls of `Save` once the lookup has returned without error: the lookup, the
`EncryptSecret` call on the new record, and a `PutSecretRecord` call on the record the
crypter left, if `EncryptSecret` returned no error. -/
theorem Save_calls_of_lookup_ok (s : store σ κ) (view : api.SecretRecord) (w : World σ κ)
    (latest : Option dao.SecretRecord)
    (hl : (s.dao.GetLatestVersion view.Name w.dao).1 = (latest, none)) :
    (Save s view w).2.calls = w.calls ++
        [Call.GetLatestVersion view.Name,
         Call.EncryptSecret (Save.newSecret (Save.setSerial view latest)) view.Payload] ∨
    (Save s view w).2.calls = w.calls ++
        [Call.GetLatestVersion view.Name,
         Call.EncryptSecret (Save.newSecret (Save.setSerial view latest)) view.Payload,
         Call.PutSecretRecord (s.crypter.EncryptSecret
           (Save.newSecret (Save.setSerial view latest)) view.Payload w.crypter).1.record] := by
  have h1 : (s.dao.GetLatestVersion view.Name w.dao).1.1 = latest := by rw [hl]
  have h2 : (s.dao.GetLatestVersion view.Name w.dao).1.2 = none := by rw [hl]
  unfold Save
  simp only [callGetLatestVersion, callEncryptSecret, callPutSecretRecord, h1, h2,
    setSerial_Payload]
  split
  · left
    simp
  · right
    simp

/-- C17 (counterexample): `Save` of a view whose active flag is false, into the empty
in-memory gateway: the record handed to `EncryptSecret` and the record handed to
`PutSecretRecord` both have `Active = false`, and so has the record stored. -/
theorem Save_keeps_inactive_flag :
    (Save inMemoryStore
        { Name := str "bar", Serial := 1, Payload := str "foobar", Active := false }
        ⟨[], (), []⟩).2.calls =
      [Call.GetLatestVersion (str "bar"),
       Call.EncryptSecret
         { Name := str "bar", Serial := 1, EncryptedData := [], EncryptedDataKey := [],
           Active := false }
         (str "foobar"),
       Call.PutSecretRecord
         { Name := str "bar", Serial := 1, EncryptedData := str "foobar",
           EncryptedDataKey := [], Active := false }] ∧
    (Save inMemoryStore
        { Name := str "bar", Serial := 1, Payload := str "foobar", Active := false }
        ⟨[], (), []⟩).2.dao =
      [{ Name := str "bar", Serial := 1, EncryptedData := str "foobar",
         EncryptedDataKey := [], Active := false }] := by
  decide

/-- C17 (amended): for every view, when the lookup returns without error, the record
`Save` hands to `EncryptSecret` carries the active flag of the view, and so does the
record it hands to `PutSecretRecord` when the crypter leaves the key fields alone; the
flag is true for a view whose flag is true, as the views built by the front ends. -/
theorem Save_copies_active_flag (s : store σ κ) (view : api.SecretRecord) (w : World σ κ)
    (latest : Option dao.SecretRecord) (hkeeps : s.crypter.KeepsKey)
    (hl : (s.dao.GetLatestVersion view.Name w.dao).1 = (latest, none)) :
    ∃ (r : dao.SecretRecord) (rest : List Call),
      (Save s view w).2.calls =
        w.calls ++ Call.GetLatestVersion view.Name :: Call.EncryptSecret r view.Payload :: rest ∧
      r.Active = view.Active ∧
      (rest = [] ∨ ∃ p, rest = [Call.PutSecretRecord p] ∧ p.Active = view.Active) ∧
      (view.Active = true → r.Active = true) := by
  have hact : (Save.newSecret (Save.setSerial view latest)).Active = view.Active :=
    setSerial_Active view latest
  rcases Save_calls_of_lookup_ok s view w latest hl with h | h
  · exact ⟨_, [], h, hact, Or.inl rfl, fun hv => hact.trans hv⟩
  · refine ⟨_, _, h, hact, Or.inr ⟨_, rfl, ?_⟩, fun hv => hact.trans hv⟩
    exact (hkeeps _ _ _).2.2.trans hact

/-- C17 (witness): `TestSave`: the view is active, and so is the record encrypted. -/
theorem Save_copies_active_flag_witness :
    ∃ (r : dao.SecretRecord) (rest : List Call),
      (Save inMemoryStore
          { Name := str "bar", Serial := 1, Payload := str "foobar", Active := true }
          ⟨[], (), []⟩).2.calls =
        [] ++ Call.GetLatestVersion (str "bar") :: Call.EncryptSecret r (str "foobar") :: rest ∧
      r.Active = true ∧
      (rest = [] ∨ ∃ p, rest = [Call.PutSecretRecord p] ∧ p.Active = true) ∧
      (true = true → r.Active = true) :=
  Save_copies_active_flag inMemoryStore
    { Name := str "bar", Serial := 1, Payload := str "foobar", Active := true }
    ⟨[], (), []⟩ none identityCrypter_keepsKey rfl

/-- C18: on success `Save` returns the caller's view with its name, payload and active
flag unchanged and with the serial of the record inserted (the crypter leaving the key
fields alone); its calls are, in this order, one `GetLatestVersion`, one `EncryptSecret`
and one `PutSecretRecord`: no `GetSecretRecord` call and no gateway read after the
insert. -/
theorem Save_returns_view (s : store σ κ) (view : api.SecretRecord) (w : World σ κ)
    (hkeeps : s.crypter.KeepsKey) (hok : (Save s view w).1.2 = none) :
    ∃ (v : api.SecretRecord) (record : dao.SecretRecord),
      (Save s view w).1.1 = some v ∧
      v.Name = view.Name ∧ v.Payload = view.Payload ∧ v.Active = view.Active ∧
      v.Serial = record.Serial ∧
      (Save s view w).2.calls = w.calls ++
        [Call.GetLatestVersion view.Name, Call.EncryptSecret (Save.newSecret v) view.Payload,
         Call.PutSecretRecord record] := by
  cases hl : (s.dao.GetLatestVersion view.Name w.dao).1 with
  | mk latest lerr =>
    cases lerr with
    | some e =>
      have h2 : (s.dao.GetLatestVersion view.Name w.dao).1.2 = some e := by rw [hl]
      simp [Save, callGetLatestVersion, h2] at hok
    | none =>
      obtain ⟨hv, hc⟩ := Save_of_lookup_ok s view w latest hl hok
      rw [setSerial_Payload] at hc
      refine ⟨_, _, hv, setSerial_Name view latest, setSerial_Payload view latest,
        setSerial_Active view latest, ?_, hc⟩
      exact ((hkeeps (Save.newSecret (Save.setSerial view latest)) view.Payload
        w.crypter).2.1).symm

/-- C18 (witness): `TestSave`: the view comes back with serial 2 and its other fields
as they were. -/
theorem Save_returns_view_witness :
    ∃ (v : api.SecretRecord) (record : dao.SecretRecord),
      (Save inMemoryStore
          { Name := str "bar", Serial := 1, Payload := str "foobar", Active := true }
          ⟨[{ Name := str "bar", Serial := 1, EncryptedData := [], EncryptedDataKey := [],
              Active := true }], (), []⟩).1.1 = some v ∧
      v.Name = str "bar" ∧ v.Payload = str "foobar" ∧ v.Active = true ∧
      v.Serial = record.Serial ∧
      (Save inMemoryStore
          { Name := str "bar", Serial := 1, Payload := str "foobar", Active := true }
          ⟨[{ Name := str "bar", Serial := 1, EncryptedData := [], EncryptedDataKey := [],
              Active := true }], (), []⟩).2.calls = [] ++
        [Call.GetLatestVersion (str "bar"), Call.EncryptSecret (Save.newSecret v) (str "foobar"),
         Call.PutSecretRecord record] :=
  Save_returns_view inMemoryStore
    { Name := str "bar", Serial := 1, Payload := str "foobar", Active := true }
    ⟨[{ Name := str "bar", Serial := 1, EncryptedData := [], EncryptedDataKey := [],
        Active := true }], (), []⟩
    identityCrypter_keepsKey (by decide)

/-! ### Gapless serials -/

theorem serials_mem (k : Nat) (x : Int) :
    x ∈ (List.map (fun i : Nat => (i : Int)) (List.range' 1 k)).reverse ↔
      ∃ i : Nat, 1 ≤ i ∧ i ≤ k ∧ x = (i : Int) := by
  simp only [List.mem_reverse, List.mem_map, List.mem_range'_1]
  constructor
  · rintro ⟨i, ⟨h1, h2⟩, rfl⟩
    exact ⟨i, h1, by omega, rfl⟩
  · rintro ⟨i, h1, h2, rfl⟩
    exact ⟨i, ⟨h1, by omega⟩, rfl⟩

theorem serials_succ (k : Nat) :
    (List.map (fun i : Nat => (i : Int)) (List.range' 1 (k + 1))).reverse =
      ((k : Int) + 1) :: (List.map (fun i : Nat => (i : Int)) (List.range' 1 k)).reverse := by
  rw [List.range'_1_concat, List.map_append, List.reverse_append]
  simp only [List.map_cons, List.map_nil, List.reverse_cons, List.reverse_nil, List.nil_append,
    List.singleton_append, List.cons.injEq, and_true]
  push_cast
  omega

theorem serialsOf_mem (name : GoString) (t : List dao.SecretRecord) (x : Int) :
    x ∈ dao.serialsOf name t ↔ ∃ r ∈ t, r.Name = name ∧ r.Serial = x := by
  simp only [dao.serialsOf, List.mem_map, List.mem_filter, decide_eq_true_eq]
  constructor
  · rintro ⟨r, ⟨h1, h2⟩, h3⟩
    exact ⟨r, h1, h2, h3⟩
  · rintro ⟨r, h1, h2, h3⟩
    exact ⟨r, ⟨h1, h2⟩, h3⟩

theorem serialsOf_cons (name : GoString) (r : dao.SecretRecord) (t : List dao.SecretRecord)
    (h : r.Name = name) : dao.serialsOf name (r :: t) = r.Serial :: dao.serialsOf name t := by
  simp [dao.serialsOf, List.filter_cons, h]

/-- Deactivating records changes no name and no serial. -/
theorem serialsOf_deactivate (name : GoString) (t : List dao.SecretRecord) (rname : GoString)
    (n : Int) :
    dao.serialsOf name
        (t.map (fun x => if x.hasKey rname n then { x with Active := false } else x)) =
      dao.serialsOf name t := by
  induction t with
  | nil => rfl
  | cons x xs ih =>
    simp only [dao.serialsOf, List.map_cons, List.filter_cons] at ih ⊢
    by_cases hk : x.hasKey rname n = true
    · simp only [hk, if_true]
      by_cases hn : x.Name = name
      · simp only [hn, decide_True, if_true, List.map_cons, ih]
      · simp only [hn, decide_False, Bool.false_eq_true, if_false, ih]
    · simp only [hk, Bool.false_eq_true, if_false]
      by_cases hn : x.Name = name
      · simp only [hn, decide_True, if_true, List.map_cons, ih]
      · simp only [hn, decide_False, Bool.false_eq_true, if_false, ih]

/-- The latest record of a name whose stored serials are `k, ..., 1`. -/
theorem latest_of_serials (name : GoString) (t : List dao.SecretRecord) (k : Nat)
    (h : dao.serialsOf name t = (List.map (fun i : Nat => (i : Int)) (List.range' 1 k)).reverse) :
    match dao.latest name t with
    | none => k = 0
    | some b => 1 ≤ k ∧ b.Serial = (k : Int) := by
  have hspec := latest_spec name t
  cases hl : dao.latest name t with
  | none =>
    rw [hl] at hspec
    simp only at hspec ⊢
    by_contra hk
    have hmem : ((k : Nat) : Int) ∈ dao.serialsOf name t := by
      rw [h, serials_mem]
      exact ⟨k, by omega, le_refl _, rfl⟩
    obtain ⟨r, hr, hrn, _⟩ := (serialsOf_mem name t _).mp hmem
    exact hspec r hr hrn
  | some b =>
    rw [hl] at hspec
    simp only at hspec ⊢
    obtain ⟨hb, hbn, hmax⟩ := hspec
    have hbmem : b.Serial ∈ dao.serialsOf name t := (serialsOf_mem name t _).mpr ⟨b, hb, hbn, rfl⟩
    rw [h, serials_mem] at hbmem
    obtain ⟨i, hi1, hi2, hbi⟩ := hbmem
    have hkmem : ((k : Nat) : Int) ∈ dao.serialsOf name t := by
      rw [h, serials_mem]
      exact ⟨k, by omega, le_refl _, rfl⟩
    obtain ⟨r, hr, hrn, hrs⟩ := (serialsOf_mem name t _).mp hkmem
    have := hmax r hr hrn
    refine ⟨by omega, ?_⟩
    omega

/-- What a successful `Save` over the in-memory gateway stores, with a crypter that keeps
the key fields, when the latest serial of the name leaves room for a next one: a record
with a key that was not in the table, which becomes the latest of its name. -/
theorem Save_inMemory_keys (c : crypt.Crypter κ) (hkeeps : c.KeepsKey)
    (view : api.SecretRecord) (w : World (List dao.SecretRecord) κ)
    (hroom : ∀ b, dao.latest view.Name w.dao = some b → InInt64 b.Serial ∧ b.Serial ≠ maxInt64)
    (hok : (Save { dao := dao.inMemoryDAO, crypter := c } view w).1.2 = none) :
    ∃ rec : dao.SecretRecord,
      (Save { dao := dao.inMemoryDAO, crypter := c } view w).1.1 =
        some { view with Serial := rec.Serial } ∧
      (Save { dao := dao.inMemoryDAO, crypter := c } view w).2.dao = rec :: w.dao ∧
      rec.Name = view.Name ∧ rec.Active = view.Active ∧
      rec.Serial = (match dao.latest view.Name w.dao with
        | none => view.Serial
        | some b => b.Serial + 1) ∧
      (∀ x ∈ w.dao, x.hasKey rec.Name rec.Serial = false) := by
  obtain ⟨hv, _, hd, _⟩ := Save_inMemory c view w hok
  have hspec := latest_spec view.Name w.dao
  obtain ⟨hn, hs, ha⟩ := hkeeps
    (Save.newSecret (Save.setSerial view (dao.latest view.Name w.dao)))
    (Save.setSerial view (dao.latest view.Name w.dao)).Payload w.crypter
  simp only [setSerial_Payload] at hd hn hs ha
  replace hn := hn.trans (setSerial_Name view _)
  replace ha := ha.trans (setSerial_Active view _)
  replace hs : _ = (Save.setSerial view (dao.latest view.Name w.dao)).Serial := hs
  have hser : (Save.setSerial view (dao.latest view.Name w.dao)).Serial =
      (match dao.latest view.Name w.dao with
        | none => view.Serial
        | some b => b.Serial + 1) := by
    cases hl : dao.latest view.Name w.dao with
    | none => rfl
    | some b =>
      obtain ⟨h1, h2⟩ := hroom b hl
      simp only [Save.setSerial]
      exact wrapInt64_succ h1 h2
  have hfresh : ∀ x ∈ w.dao, x.hasKey
      (c.EncryptSecret (Save.newSecret (Save.setSerial view (dao.latest view.Name w.dao)))
        view.Payload w.crypter).1.record.Name
      (c.EncryptSecret (Save.newSecret (Save.setSerial view (dao.latest view.Name w.dao)))
        view.Payload w.crypter).1.record.Serial = false := by
    intro x hx
    rw [Bool.eq_false_iff]
    intro hk
    obtain ⟨hxn, hxs⟩ := (hasKey_iff _ _ _).mp hk
    rw [hn] at hxn
    rw [hs, hser] at hxs
    cases hl : dao.latest view.Name w.dao with
    | none =>
      rw [hl] at hspec
      exact hspec x hx hxn
    | some b =>
      rw [hl] at hspec hxs
      have hle := hspec.2.2 x hx hxn
      have hxs2 : x.Serial = b.Serial + 1 := hxs
      omega
  refine ⟨_, ?_, ?_, hn, ha, hs.trans hser, hfresh⟩
  · rw [hv, hs]
    cases dao.latest view.Name w.dao <;> rfl
  · rw [hd]
    congr 1
    rw [List.filter_eq_self]
    intro x hx
    rw [hfresh x hx]
    rfl

/-- `Revoke` over the in-memory gateway with a serial that parses and names an existing
record: every record with that key is deactivated, nothing else changes. -/
theorem Revoke_inMemory_existing (c : crypt.Crypter κ) (name serial : GoString) (n : Int)
    (w : World (List dao.SecretRecord) κ) (hn : strconv.Atoi serial = (n, none))
    (hany : w.dao.any (fun x => x.hasKey name n) = true) :
    Revoke { dao := dao.inMemoryDAO, crypter := c } name serial w =
      (none, { w with
        dao := w.dao.map (fun x => if x.hasKey name n then { x with Active := false } else x),
        calls := w.calls ++ [Call.RevokeSecretRecord name n] }) := by
  unfold Revoke
  rw [hn]
  simp only [callRevokeSecretRecord, dao.inMemoryDAO, wrapInt64_Atoi hn, hany, if_true]

/-- One save of a run: the table holds the serials `k, ..., 1` of the name and `k` is
below the largest `int64`; the save is assigned `k + 1` and the table then holds
`k + 1, ..., 1`. -/
theorem Save_next_in_run (c : crypt.Crypter κ) (hkeeps : c.KeepsKey) (name payload : GoString)
    (w w2 : World (List dao.SecretRecord) κ) (v : api.SecretRecord) (k : Nat)
    (hk : (k : Int) < maxInt64)
    (hinv : dao.serialsOf name w.dao =
      (List.map (fun i : Nat => (i : Int)) (List.range' 1 k)).reverse)
    (hsave : Save { dao := dao.inMemoryDAO, crypter := c }
      { Name := name, Serial := 1, Payload := payload, Active := true } w =
        ((some v, none), w2)) :
    v.Serial = (k : Int) + 1 ∧
    dao.serialsOf name w2.dao =
      (List.map (fun i : Nat => (i : Int)) (List.range' 1 (k + 1))).reverse := by
  have hlat := latest_of_serials name w.dao k hinv
  have hroom : ∀ b, dao.latest name w.dao = some b → InInt64 b.Serial ∧ b.Serial ≠ maxInt64 := by
    intro b hb
    rw [hb] at hlat
    simp only at hlat
    unfold InInt64 minInt64
    unfold maxInt64 at hk ⊢
    omega
  have hok : (Save { dao := dao.inMemoryDAO, crypter := c }
      { Name := name, Serial := 1, Payload := payload, Active := true } w).1.2 = none := by
    rw [hsave]
  obtain ⟨rec, hv, hd, hn, _, hs, _⟩ := Save_inMemory_keys c hkeeps _ w hroom hok
  rw [hsave] at hv hd
  simp only [Option.some.injEq] at hv hd
  have hrs : rec.Serial = (k : Int) + 1 := by
    rw [hs]
    cases hl : dao.latest name w.dao with
    | none =>
      rw [hl] at hlat
      simp only at hlat ⊢
      subst hlat
      rfl
    | some b =>
      rw [hl] at hlat
      simp only at hlat
      show b.Serial + 1 = (k : Int) + 1
      omega
  constructor
  · rw [hv]
    exact hrs
  · rw [hd, serialsOf_cons name rec w.dao hn, hinv, serials_succ, hrs]

/-- A run of saves and revocations, from a table that holds the serials `k, ..., 1` of
the name: the saves are assigned `k + 1, k + 2, ...` in order and the table ends with
the serials `k + m, ..., 1`, for `m` saves, as long as `k + m` is an `int64`. -/
theorem runSteps_gapless (c : crypt.Crypter κ) (hkeeps : c.KeepsKey) (name : GoString)
    (steps : List Step) :
    ∀ (w w2 : World (List dao.SecretRecord) κ) (k : Nat) (serials : List Int),
      dao.serialsOf name w.dao =
        (List.map (fun i : Nat => (i : Int)) (List.range' 1 k)).reverse →
      runSteps { dao := dao.inMemoryDAO, crypter := c } name steps w = some (serials, w2) →
      ((k + serials.length : Nat) : Int) ≤ maxInt64 →
      serials = List.map (fun i : Nat => (i : Int)) (List.range' (k + 1) serials.length) ∧
      dao.serialsOf name w2.dao =
        (List.map (fun i : Nat => (i : Int)) (List.range' 1 (k + serials.length))).reverse := by
  induction steps with
  | nil =>
    intro w w2 k serials hinv hrun _
    simp only [runSteps, Option.some.injEq, Prod.mk.injEq] at hrun
    obtain ⟨rfl, rfl⟩ := hrun
    exact ⟨rfl, hinv⟩
  | cons step rest ih =>
    intro w w2 k serials hinv hrun hbound
    cases step with
    | save payload =>
      simp only [runSteps] at hrun
      split at hrun
      · rename_i v w1 hsave
        split at hrun
        · rename_i r hrest
          simp only [Option.some.injEq, Prod.mk.injEq] at hrun
          obtain ⟨rfl, rfl⟩ := hrun
          simp only [List.length_cons] at hbound ⊢
          have hk : (k : Int) < maxInt64 := by
            have : ((k + (r.1.length + 1) : Nat) : Int) = (k : Int) + (r.1.length : Int) + 1 := by
              push_cast
              omega
            omega
          obtain ⟨hv, hinv1⟩ := Save_next_in_run c hkeeps name payload w w1 v k hk hinv hsave
          have hr : runSteps { dao := dao.inMemoryDAO, crypter := c } name rest w1 =
              some (r.1, r.2) := hrest
          obtain ⟨h1, h2⟩ := ih w1 r.2 (k + 1) r.1 hinv1 hr
            (by
              have : k + 1 + r.1.length = k + (r.1.length + 1) := by omega
              rw [this]
              exact hbound)
          constructor
          · rw [List.range'_succ, List.map_cons, hv]
            congr 1
          · have : k + (r.1.length + 1) = k + 1 + r.1.length := by omega
            rw [this]
            exact h2
        · simp at hrun
      · simp at hrun
    | revoke rname serial =>
      simp only [runSteps] at hrun
      split at hrun
      · rename_i n hn
        split at hrun
        · rename_i hany
          rw [Revoke_inMemory_existing c rname serial n w hn hany] at hrun
          simp only at hrun
          exact ih _ w2 k serials (by rw [serialsOf_deactivate]; exact hinv) hrun hbound
        · simp at hrun
      · simp at hrun

/-- A run returns one serial for each of its saves. -/
theorem runSteps_length (s : store (List dao.SecretRecord) κ) (name : GoString)
    (steps : List Step) :
    ∀ (w w2 : World (List dao.SecretRecord) κ) (serials : List Int),
      runSteps s name steps w = some (serials, w2) →
      serials.length =
        (steps.filter (fun st => match st with
          | Step.save _ => true
          | Step.revoke _ _ => false)).length := by
  induction steps with
  | nil =>
    intro w w2 serials hrun
    simp only [runSteps, Option.some.injEq, Prod.mk.injEq] at hrun
    rw [← hrun.1]
    rfl
  | cons step rest ih =>
    intro w w2 serials hrun
    cases step with
    | save payload =>
      simp only [runSteps] at hrun
      split at hrun
      · split at hrun
        · rename_i r hrest
          simp only [Option.some.injEq, Prod.mk.injEq] at hrun
          obtain ⟨rfl, rfl⟩ := hrun
          have hr : runSteps s name rest _ = some (r.1, r.2) := hrest
          simp only [List.filter_cons, List.length_cons, if_true]
          rw [ih _ _ _ hr]
        · simp at hrun
      · simp at hrun
    | revoke rname serial =>
      simp only [runSteps] at hrun
      split at hrun
      · split at hrun
        · split at hrun
          · simp only [List.filter_cons, Bool.false_eq_true, if_false]
            exact ih _ _ _ hrun
          · simp at hrun
        · simp at hrun
      · simp at hrun

/-- C15: gapless serials. Over the in-memory gateway, from a table with no record of the
name, and with a crypter that keeps the key fields: in every run of successful saves of
the name with views as the front ends build them (serial 1, active), interleaved in any
way with successful revocations of serials that exist when they are revoked, the saves
are assigned the serials 1, 2, ..., n in that order (n the number of saves, an `int64`),
and afterwards the serials stored for the name are exactly n, ..., 1, newest first, the
latest being n. -/
theorem Save_serials_gapless (c : crypt.Crypter κ) (hkeeps : c.KeepsKey) (name : GoString)
    (steps : List Step) (w w2 : World (List dao.SecretRecord) κ) (serials : List Int)
    (hnone : ∀ r ∈ w.dao, r.Name ≠ name)
    (hrun : runSteps { dao := dao.inMemoryDAO, crypter := c } name steps w =
      some (serials, w2))
    (hbound : (serials.length : Int) ≤ maxInt64) :
    serials.length =
      (steps.filter (fun st => match st with
        | Step.save _ => true
        | Step.revoke _ _ => false)).length ∧
    serials = List.map (fun i : Nat => (i : Int)) (List.range' 1 serials.length) ∧
    dao.serialsOf name w2.dao = serials.reverse ∧
    (serials ≠ [] →
      ∃ r, dao.latest name w2.dao = some r ∧ r.Serial = (serials.length : Int)) := by
  have hinv : dao.serialsOf name w.dao =
      (List.map (fun i : Nat => (i : Int)) (List.range' 1 0)).reverse := by
    simp only [List.range'_zero, List.map_nil, List.reverse_nil, dao.serialsOf,
      List.map_eq_nil_iff, List.filter_eq_nil_iff, decide_eq_true_eq]
    exact hnone
  obtain ⟨h1, h2⟩ := runSteps_gapless c hkeeps name steps w w2 0 serials hinv hrun
    (by simpa using hbound)
  simp only [Nat.zero_add] at h1 h2
  refine ⟨runSteps_length _ name steps w w2 serials hrun, h1, ?_, ?_⟩
  · rw [h2]
    congr 1
    exact h1.symm
  · intro hne
    have hlat := latest_of_serials name w2.dao serials.length h2
    cases hl : dao.latest name w2.dao with
    | none =>
      rw [hl] at hlat
      simp only at hlat
      exact absurd (List.length_eq_zero.mp hlat) hne
    | some b =>
      rw [hl] at hlat
      exact ⟨b, rfl, hlat.2⟩

/-- C15 (witness): three saves under "db" with a revocation of serial 1 in between, over
the empty in-memory gateway: the serials are 1, 2, 3 and the table holds 3, 2, 1. -/
theorem Save_serials_gapless_witness :
    [1, 2, 3] = List.map (fun i : Nat => (i : Int)) (List.range' 1 ([1, 2, 3] : List Int).length) ∧
    dao.serialsOf (str "db")
      (handleAll inMemoryStore
        [Request.Save { Name := str "db", Serial := 1, Payload := str "a", Active := true },
         Request.Save { Name := str "db", Serial := 1, Payload := str "b", Active := true },
         Request.Revoke (str "db") (str "1"),
         Request.Save { Name := str "db", Serial := 1, Payload := str "c", Active := true }]
        ⟨[], (), []⟩).dao = ([1, 2, 3] : List Int).reverse :=
  let h := Save_serials_gapless crypt.identityCrypter identityCrypter_keepsKey (str "db")
    [Step.save (str "a"), Step.save (str "b"), Step.revoke (str "db") (str "1"),
     Step.save (str "c")]
    ⟨[], (), []⟩
    (handleAll inMemoryStore
      [Request.Save { Name := str "db", Serial := 1, Payload := str "a", Active := true },
       Request.Save { Name := str "db", Serial := 1, Payload := str "b", Active := true },
       Request.Revoke (str "db") (str "1"),
       Request.Save { Name := str "db", Serial := 1, Payload := str "c", Active := true }]
      ⟨[], (), []⟩)
    [1, 2, 3] (by simp) rfl (by decide)
  ⟨h.2.1, h.2.2.1⟩

/-! ### Revocation is monotonic -/

/-- Lines 65-91 of `Get` leave the gateway state alone. -/
theorem afterLookup_dao (s : store σ κ) (name : GoString) (l : Option dao.SecretRecord)
    (err : Option Error) (w : World σ κ) : (Get.afterLookup s name l err w).2.dao = w.dao := by
  unfold Get.afterLookup
  cases err with
  | some e => rfl
  | none =>
    cases l with
    | none => rfl
    | some loaded =>
      simp only [callDecryptSecret]
      split
      · rfl
      · split <;> rfl

/-- `Get` does not write to the in-memory gateway. -/
theorem Get_inMemory_dao (c : crypt.Crypter κ) (name serial : GoString)
    (w : World (List dao.SecretRecord) κ) :
    (Get { dao := dao.inMemoryDAO, crypter := c } name serial w).2.dao = w.dao := by
  unfold Get
  split
  · rw [afterLookup_dao]
    simp [callGetLatestVersion, dao.inMemoryDAO]
  · split
    · rfl
    · rw [afterLookup_dao]
      simp only [callGetSecretRecord, dao.inMemoryDAO]
      split <;> rfl

/-- A `Save` that returns an error has not written to the in-memory gateway. -/
theorem Save_inMemory_failed (c : crypt.Crypter κ) (view : api.SecretRecord)
    (w : World (List dao.SecretRecord) κ)
    (hfail : (Save { dao := dao.inMemoryDAO, crypter := c } view w).1.2 ≠ none) :
    (Save { dao := dao.inMemoryDAO, crypter := c } view w).2.dao = w.dao := by
  unfold Save at hfail ⊢
  simp only [callGetLatestVersion, callEncryptSecret, callPutSecretRecord, dao.inMemoryDAO]
    at hfail ⊢
  split at hfail
  · rfl
  · simp at hfail

/-- A record found inactive is found inactive after a `Revoke`, whatever its arguments. -/
theorem Revoke_keeps_inactive (c : crypt.Crypter κ) (rname rserial : GoString)
    (w : World (List dao.SecretRecord) κ) (name : GoString) (serial : Int)
    (r : dao.SecretRecord)
    (hfind : w.dao.find? (fun x => x.hasKey name serial) = some r) (hinactive : r.Active = false) :
    ∃ r2, (Revoke { dao := dao.inMemoryDAO, crypter := c } rname rserial w).2.dao.find?
        (fun x => x.hasKey name serial) = some r2 ∧ r2.Active = false := by
  cases ha : strconv.Atoi rserial with
  | mk n err =>
    cases err with
    | some e =>
      have : Revoke { dao := dao.inMemoryDAO, crypter := c } rname rserial w = (some e, w) := by
        simp [Revoke, ha]
      rw [this]
      exact ⟨r, hfind, hinactive⟩
    | none =>
      by_cases hany : w.dao.any (fun x => x.hasKey rname n) = true
      · rw [Revoke_inMemory_existing c rname rserial n w ha hany]
        simp only
        rw [find_after_revoke, hfind]
        simp only [Option.map_some']
        refine ⟨_, rfl, ?_⟩
        split
        · rfl
        · exact hinactive
      · have hrev : (Revoke { dao := dao.inMemoryDAO, crypter := c } rname rserial w).2.dao =
            { Name := rname, Serial := n, EncryptedData := [], EncryptedDataKey := [],
              Active := false } :: w.dao := by
          unfold Revoke
          rw [ha]
          simp only [callRevokeSecretRecord, dao.inMemoryDAO, wrapInt64_Atoi ha, hany,
            Bool.false_eq_true, if_false]
        rw [hrev, List.find?_cons]
        split
        · exact ⟨_, rfl, rfl⟩
        · exact ⟨r, hfind, hinactive⟩

/-- A record found inactive is found inactive after a `Save`, when the crypter keeps the
key fields and the latest serial of the name saved leaves room for a next one. -/
theorem Save_keeps_inactive (c : crypt.Crypter κ) (hkeeps : c.KeepsKey)
    (view : api.SecretRecord) (w : World (List dao.SecretRecord) κ)
    (hroom : ∀ b, dao.latest view.Name w.dao = some b → InInt64 b.Serial ∧ b.Serial ≠ maxInt64)
    (name : GoString) (serial : Int) (r : dao.SecretRecord)
    (hfind : w.dao.find? (fun x => x.hasKey name serial) = some r) :
    (Save { dao := dao.inMemoryDAO, crypter := c } view w).2.dao.find?
        (fun x => x.hasKey name serial) = some r := by
  cases hok : (Save { dao := dao.inMemoryDAO, crypter := c } view w).1.2 with
  | some e =>
    rw [Save_inMemory_failed c view w (by rw [hok]; simp)]
    exact hfind
  | none =>
    obtain ⟨rec, _, hd, _, _, _, hfresh⟩ := Save_inMemory_keys c hkeeps view w hroom hok
    rw [hd, List.find?_cons]
    have hr : r ∈ w.dao := List.mem_of_find?_eq_some hfind
    have hrk : r.hasKey name serial = true :=
      @List.find?_some _ (fun x : dao.SecretRecord => x.hasKey name serial) _ _ hfind
    have hrec : rec.hasKey name serial = false := by
      rw [Bool.eq_false_iff]
      intro hk
      obtain ⟨h1, h2⟩ := (hasKey_iff _ _ _).mp hk
      have := hfresh r hr
      rw [h1, h2, hrk] at this
      cases this
    rw [hrec]
    exact hfind

/-- One call keeps an inactive record inactive. -/
theorem handle_keeps_inactive (c : crypt.Crypter κ) (hkeeps : c.KeepsKey) (req : Request)
    (w : World (List dao.SecretRecord) κ)
    (hroom : SerialsHaveRoom { dao := dao.inMemoryDAO, crypter := c } [req] w)
    (name : GoString) (serial : Int) (r : dao.SecretRecord)
    (hfind : w.dao.find? (fun x => x.hasKey name serial) = some r) (hinactive : r.Active = false) :
    ∃ r2, (handle { dao := dao.inMemoryDAO, crypter := c } req w).dao.find?
        (fun x => x.hasKey name serial) = some r2 ∧ r2.Active = false := by
  cases req with
  | Save view =>
    exact ⟨r, Save_keeps_inactive c hkeeps view w hroom.1 name serial r hfind, hinactive⟩
  | Get gname gserial =>
    simp only [handle, Get_inMemory_dao]
    exact ⟨r, hfind, hinactive⟩
  | Revoke rname rserial =>
    exact Revoke_keeps_inactive c rname rserial w name serial r hfind hinactive

/-- A sequence of calls keeps an inactive record inactive. -/
theorem handleAll_keeps_inactive (c : crypt.Crypter κ) (hkeeps : c.KeepsKey)
    (reqs : List Request) :
    ∀ (w : World (List dao.SecretRecord) κ),
      SerialsHaveRoom { dao := dao.inMemoryDAO, crypter := c } reqs w →
      ∀ (name : GoString) (serial : Int) (r : dao.SecretRecord),
        w.dao.find? (fun x => x.hasKey name serial) = some r → r.Active = false →
        ∃ r2, (handleAll { dao := dao.inMemoryDAO, crypter := c } reqs w).dao.find?
          (fun x => x.hasKey name serial) = some r2 ∧ r2.Active = false := by
  induction reqs with
  | nil =>
    intro w _ name serial r hfind hinactive
    exact ⟨r, hfind, hinactive⟩
  | cons req rest ih =>
    intro w hroom name serial r hfind hinactive
    have hone : SerialsHaveRoom { dao := dao.inMemoryDAO, crypter := c } [req] w := by
      cases req with
      | Save view => exact ⟨hroom.1, trivial⟩
      | Get gname gserial => trivial
      | Revoke rname rserial => trivial
    have hrest : SerialsHaveRoom { dao := dao.inMemoryDAO, crypter := c } rest
        (handle { dao := dao.inMemoryDAO, crypter := c } req w) := by
      cases req with
      | Save view => exact hroom.2
      | Get gname gserial => exact hroom
      | Revoke rname rserial => exact hroom
    obtain ⟨r1, hf1, hi1⟩ := handle_keeps_inactive c hkeeps req w hone name serial r hfind hinactive
    exact ih _ hrest name serial r1 hf1 hi1

/-- C16 (counterexample): over the in-memory gateway, after `Save` of a view for "db"
with serial 9223372036854775807, `Save` of a second view for "db" (assigned the serial
-9223372036854775808) and `Revoke("db", "-9223372036854775808")`, the record
("db", -9223372036854775808) is inactive and holds "b"; a third `Save` for "db" is
assigned that serial again and overwrites the record, which is active and holds "c". -/
theorem Save_reactivates_after_wrap :
    (handleAll inMemoryStore
      [Request.Save { Name := str "db", Serial := 9223372036854775807, Payload := str "a",
                      Active := true },
       Request.Save { Name := str "db", Serial := 1, Payload := str "b", Active := true },
       Request.Revoke (str "db") (str "-9223372036854775808")]
      ⟨[], (), []⟩).dao.find? (fun x => x.hasKey (str "db") (-9223372036854775808)) =
      some { Name := str "db", Serial := -9223372036854775808, EncryptedData := str "b",
             EncryptedDataKey := [], Active := false } ∧
    (handleAll inMemoryStore
      [Request.Save { Name := str "db", Serial := 9223372036854775807, Payload := str "a",
                      Active := true },
       Request.Save { Name := str "db", Serial := 1, Payload := str "b", Active := true },
       Request.Revoke (str "db") (str "-9223372036854775808"),
       Request.Save { Name := str "db", Serial := 1, Payload := str "c", Active := true }]
      ⟨[], (), []⟩).dao.find? (fun x => x.hasKey (str "db") (-9223372036854775808)) =
      some { Name := str "db", Serial := -9223372036854775808, EncryptedData := str "c",
             EncryptedDataKey := [], Active := true } := by
  decide

/-- C16 (amended): revocation is monotonic as long as serials have room. Over the
in-memory gateway, whose put is unconditional, with a crypter that keeps the key fields:
for every sequence of `Save`, `Get` and `Revoke` calls (any views, any serial strings) in
which no `Save` is made while the latest serial of its name is the largest `int64`, a
record that is inactive before the sequence (after some call) is still there and
inactive after it (after every later call); and a successful `Save` made while the
latest serial of its name has room adds a record whose key no record of the table had,
and leaves the rest of the table as it was. -/
theorem revocation_monotonic (c : crypt.Crypter κ) (hkeeps : c.KeepsKey) :
    (∀ (reqs : List Request) (w : World (List dao.SecretRecord) κ),
      SerialsHaveRoom { dao := dao.inMemoryDAO, crypter := c } reqs w →
      ∀ (name : GoString) (serial : Int) (r : dao.SecretRecord),
        w.dao.find? (fun x => x.hasKey name serial) = some r → r.Active = false →
        ∃ r2, (handleAll { dao := dao.inMemoryDAO, crypter := c } reqs w).dao.find?
          (fun x => x.hasKey name serial) = some r2 ∧ r2.Active = false) ∧
    (∀ (view : api.SecretRecord) (w : World (List dao.SecretRecord) κ),
      (∀ b, dao.latest view.Name w.dao = some b → InInt64 b.Serial ∧ b.Serial ≠ maxInt64) →
      (Save { dao := dao.inMemoryDAO, crypter := c } view w).1.2 = none →
      ∃ rec : dao.SecretRecord,
        (Save { dao := dao.inMemoryDAO, crypter := c } view w).2.dao = rec :: w.dao ∧
        ∀ x ∈ w.dao, ¬ (x.Name = rec.Name ∧ x.Serial = rec.Serial)) := by
  constructor
  · intro reqs w hroom name serial r hfind hinactive
    exact handleAll_keeps_inactive c hkeeps reqs w hroom name serial r hfind hinactive
  · intro view w hroom hok
    obtain ⟨rec, _, hd, _, _, _, hfresh⟩ := Save_inMemory_keys c hkeeps view w hroom hok
    refine ⟨rec, hd, ?_⟩
    intro x hx hkey
    have := hfresh x hx
    rw [Bool.eq_false_iff] at this
    exact this ((hasKey_iff _ _ _).mpr hkey)

/-- C16 (witness): "db" has versions 1 and 2, version 1 revoked; after a further `Save`,
a `Get` and a `Revoke` of version 2, version 1 is still found and inactive. -/
theorem revocation_monotonic_witness :
    ∃ r2, (handleAll inMemoryStore
        [Request.Save { Name := str "db", Serial := 1, Payload := str "pw3", Active := true },
         Request.Get (str "db") (str "1"),
         Request.Revoke (str "db") (str "2")]
        ⟨[{ Name := str "db", Serial := 2, EncryptedData := str "pw2", EncryptedDataKey := [],
            Active := true },
          { Name := str "db", Serial := 1, EncryptedData := str "pw1", EncryptedDataKey := [],
            Active := false }], (), []⟩).dao.find?
          (fun x => x.hasKey (str "db") 1) = some r2 ∧ r2.Active = false :=
  (revocation_monotonic crypt.identityCrypter identityCrypter_keepsKey).1
    [Request.Save { Name := str "db", Serial := 1, Payload := str "pw3", Active := true },
     Request.Get (str "db") (str "1"),
     Request.Revoke (str "db") (str "2")]
    ⟨[{ Name := str "db", Serial := 2, EncryptedData := str "pw2", EncryptedDataKey := [],
        Active := true },
      { Name := str "db", Serial := 1, EncryptedData := str "pw1", EncryptedDataKey := [],
        Active := false }], (), []⟩
    ⟨by
      intro b hb
      have hb2 : b = ({ Name := str "db", Serial := 2, EncryptedData := str "pw2",
                        EncryptedDataKey := [], Active := true } : dao.SecretRecord) := by
        have : dao.latest (str "db")
            [{ Name := str "db", Serial := 2, EncryptedData := str "pw2",
               EncryptedDataKey := [], Active := true },
             { Name := str "db", Serial := 1, EncryptedData := str "pw1",
               EncryptedDataKey := [], Active := false }] =
            some { Name := str "db", Serial := 2, EncryptedData := str "pw2",
                   EncryptedDataKey := [], Active := true } := by decide
        rw [this] at hb
        exact (Option.some.inj hb).symm
      subst hb2
      decide, trivial⟩
    (str "db") 1
    { Name := str "db", Serial := 1, EncryptedData := str "pw1", EncryptedDataKey := [],
      Active := false }
    (by decide) rfl

end store

namespace base64

set_option maxRecDepth 100000 in
theorem isAlphabet_fin :
    ∀ c : Byte, isAlphabet c = (decodeMap c).isSome ∧ (c.val = 61 → decodeMap c = none) := by
  decide

theorem isAlphabet_eq (c : Byte) : isAlphabet c = (decodeMap c).isSome := (isAlphabet_fin c).1

theorem decodeMap_pad {c : Byte} (h : c.val = 61) : decodeMap c = none := (isAlphabet_fin c).2 h

/-- The quantum loop accepts exactly the texts in the form of the standard. -/
theorem decodeQuanta_isSome :
    ∀ (n : Nat) (t : List Byte), t.length ≤ n → (decodeQuanta t).isSome = isStdQuanta t := by
  intro n
  induction n with
  | zero =>
    intro t ht
    have : t = [] := List.length_eq_zero.mp (by omega)
    subst this
    rfl
  | succ n ih =>
    intro t ht
    match t, ht with
    | [], _ => rfl
    | [a], _ => rfl
    | [a, b], _ => rfl
    | [a, b, c], _ => rfl
    | a :: b :: c :: d :: rest, ht =>
      have hrest : (decodeQuanta rest).isSome = isStdQuanta rest :=
        ih rest (by simp only [List.length_cons] at ht; omega)
      simp only [decodeQuanta, isStdQuanta, isAlphabet_eq]
      cases ha : decodeMap a with
      | none => simp
      | some x =>
        cases hb : decodeMap b with
        | none => simp
        | some y =>
          by_cases hc : c.val = 61
          · simp only [hc, decodeMap_pad hc, if_true]
            by_cases hd : d.val = 61
            · by_cases hr : rest = []
              · simp [hd, hr]
              · simp [hd, hr]
            · by_cases hr : rest = []
              · simp [hd, hr]
              · simp [hd, hr]
          · simp only [hc, if_false]
            cases hcm : decodeMap c with
            | none => simp
            | some z =>
              by_cases hd : d.val = 61
              · by_cases hr : rest = []
                · simp [hd, hr]
                · simp [hd, hr, decodeMap_pad hd]
              · cases hdm : decodeMap d with
                | none => simp [hd]
                | some u =>
                  by_cases hr : rest = []
                  · subst hr
                    simp [hd, decodeQuanta]
                  · simp only [hd, if_false, hr]
                    rw [← hrest]
                    cases decodeQuanta rest <;> simp

/-- The decoder of `StdEncoding` returns no error exactly on valid standard base64 text
(line breaks aside). -/
theorem DecodeString_ok_iff (s : GoString) : (DecodeString s).2 = none ↔ isStdText s = true := by
  unfold DecodeString isStdText
  rw [← decodeQuanta_isSome _ _ (Nat.le_refl _)]
  cases decodeQuanta (s.filter (fun c => !(decide (c.val = 10) || decide (c.val = 13)))) <;> simp

end base64

/-! ## Theorems: the KMS crypter, continued -/

namespace crypt

variable {ω : Type}

/-- The world `DecryptSecret` leaves is the one `fetchDataKey` left: the rest of the
method calls no collaborator. -/
theorem DecryptSecret_world (pasta : cryptopasta.Package ω) (crypter : kmsCrypter ω)
    (r : dao.SecretRecord) (w : World ω) :
    (kmsCrypter.DecryptSecret pasta crypter r w).2 = (crypter.fetchDataKey r w).2 := by
  unfold kmsCrypter.DecryptSecret
  dsimp only
  repeat' split
  all_goals rfl

/-- An error of `fetchDataKey` is the result of `DecryptSecret`. -/
theorem DecryptSecret_fetch_error (pasta : cryptopasta.Package ω) (crypter : kmsCrypter ω)
    (r : dao.SecretRecord) (w : World ω) (e : Error)
    (hfetch : (crypter.fetchDataKey r w).1.2 = some e) :
    (kmsCrypter.DecryptSecret pasta crypter r w).1 = (none, some e) := by
  unfold kmsCrypter.DecryptSecret
  simp only [hfetch]

/-- A `DecryptSecret` that returns no error has obtained the data key. -/
theorem DecryptSecret_ok_fetch (pasta : cryptopasta.Package ω) (crypter : kmsCrypter ω)
    (r : dao.SecretRecord) (w : World ω)
    (hok : (kmsCrypter.DecryptSecret pasta crypter r w).1.2 = none) :
    (crypter.fetchDataKey r w).1.2 = none := by
  cases hf : (crypter.fetchDataKey r w).1.2 with
  | none => rfl
  | some e =>
    rw [DecryptSecret_fetch_error pasta crypter r w e hf] at hok
    cases hok

/-- With the data key `k` fetched, `DecryptSecret` decodes `EncryptedData` and opens the
blob with `k` (lines 82-93). -/
theorem DecryptSecret_with_key (pasta : cryptopasta.Package ω) (crypter : kmsCrypter ω)
    (r : dao.SecretRecord) (w : World ω) (k : List Byte)
    (hfetch : (crypter.fetchDataKey r w).1 = (k, none)) :
    (kmsCrypter.DecryptSecret pasta crypter r w).1 =
      match (base64Decode r.EncryptedData).2 with
      | some err => (none, some err)
      | none =>
        match (decrypt pasta (base64Decode r.EncryptedData).1 k).2 with
        | some err => (none, some err)
        | none => (some (decrypt pasta (base64Decode r.EncryptedData).1 k).1, none) := by
  have h1 : (crypter.fetchDataKey r w).1.1 = k := by rw [hfetch]
  have h2 : (crypter.fetchDataKey r w).1.2 = none := by rw [hfetch]
  unfold kmsCrypter.DecryptSecret
  simp only [h1, h2]
  cases hd : base64Decode r.EncryptedData with
  | mk blob derr =>
    cases derr with
    | some err => rfl
    | none =>
      simp only
      cases hp : decrypt pasta blob k with
      | mk opened perr =>
        cases perr with
        | some err => rfl
        | none => rfl

/-- `fetchDataKey` on a cache hit: the cached key, and the cache `Get` as only call. -/
theorem fetchDataKey_hit (crypter : kmsCrypter ω) (r : dao.SecretRecord) (w : World ω)
    (k : List Byte) (hhit : (crypter.keyCache.Get r.EncryptedDataKey w.env).1 = some k) :
    crypter.fetchDataKey r w =
      ((k, none), { env := (crypter.keyCache.Get r.EncryptedDataKey w.env).2,
                    calls := w.calls ++ [Call.CacheGet r.EncryptedDataKey] }) := by
  unfold kmsCrypter.fetchDataKey
  simp only [hhit]

/-- `fetchDataKey` on a cache miss with a wrapped key that KMS unwraps. -/
theorem fetchDataKey_miss_ok (crypter : kmsCrypter ω) (r : dao.SecretRecord) (w : World ω)
    (wrapped k : List Byte)
    (hmiss : (crypter.keyCache.Get r.EncryptedDataKey w.env).1 = none)
    (hvalid : base64Decode r.EncryptedDataKey = (wrapped, none))
    (hkms : (crypter.kmsClient.Decrypt { CiphertextBlob := wrapped }
      (crypter.keyCache.Get r.EncryptedDataKey w.env).2).1 = Except.ok { Plaintext := k }) :
    crypter.fetchDataKey r w =
      ((k, none),
        { env := crypter.keyCache.Set r.EncryptedDataKey k
            (crypter.kmsClient.Decrypt { CiphertextBlob := wrapped }
              (crypter.keyCache.Get r.EncryptedDataKey w.env).2).2,
          calls := w.calls ++ [Call.CacheGet r.EncryptedDataKey] ++
            [Call.Decrypt { CiphertextBlob := wrapped }] ++
            [Call.CacheSet r.EncryptedDataKey k] }) := by
  unfold kmsCrypter.fetchDataKey
  simp only [hmiss, hvalid, hkms]

/-- `fetchDataKey` on a cache miss with a wrapped key that KMS refuses. -/
theorem fetchDataKey_miss_error (crypter : kmsCrypter ω) (r : dao.SecretRecord) (w : World ω)
    (wrapped : List Byte) (e : Error)
    (hmiss : (crypter.keyCache.Get r.EncryptedDataKey w.env).1 = none)
    (hvalid : base64Decode r.EncryptedDataKey = (wrapped, none))
    (hkms : (crypter.kmsClient.Decrypt { CiphertextBlob := wrapped }
      (crypter.keyCache.Get r.EncryptedDataKey w.env).2).1 = Except.error e) :
    crypter.fetchDataKey r w =
      (([], some e),
        { env := (crypter.kmsClient.Decrypt { CiphertextBlob := wrapped }
            (crypter.keyCache.Get r.EncryptedDataKey w.env).2).2,
          calls := w.calls ++ [Call.CacheGet r.EncryptedDataKey] ++
            [Call.Decrypt { CiphertextBlob := wrapped }] }) := by
  unfold kmsCrypter.fetchDataKey
  simp only [hmiss, hvalid, hkms]

/-- `fetchDataKey` on a cache miss with a wrapped key that is no base64. -/
theorem fetchDataKey_miss_malformed (crypter : kmsCrypter ω) (r : dao.SecretRecord)
    (w : World ω) (e : Error)
    (hmiss : (crypter.keyCache.Get r.EncryptedDataKey w.env).1 = none)
    (hbad : (base64Decode r.EncryptedDataKey).2 = some e) :
    crypter.fetchDataKey r w =
      (([], some e), { env := (crypter.keyCache.Get r.EncryptedDataKey w.env).2,
                       calls := w.calls ++ [Call.CacheGet r.EncryptedDataKey] }) := by
  unfold kmsCrypter.fetchDataKey
  simp only [hmiss]
  cases hd : base64Decode r.EncryptedDataKey with
  | mk decoded derr =>
    rw [hd] at hbad
    simp only at hbad
    subst hbad
    rfl

/-- The map cache shows a `Set` to the `Get` that follows. -/
theorem mapCache_setThenGet : cache.mapCache.SetThenGet := by
  intro key value e
  simp [cache.mapCache]

/-- C21: `EncryptSecret` returns the error and no record when `GenerateDataKey` fails
with it, and returns the error of `getCryptoKey` and no record when the plaintext data
key has fewer than 32 bytes; in both cases the record passed in is left as it was, its
`EncryptedData` and `EncryptedDataKey` included. -/
theorem EncryptSecret_fails_without_key (pasta : cryptopasta.Package ω) (crypter : kmsCrypter ω)
    (record : dao.SecretRecord) (payload : GoString) (w : World ω) :
    (∀ e, (crypter.kmsClient.GenerateDataKey
        { KeySpec := defaultKeySpec, KeyId := kms.GetCMKAlias crypter.appName } w.env).1 =
          Except.error e →
      (kmsCrypter.EncryptSecret pasta crypter record payload w).1 =
        { record := record, ret := none, err := some e }) ∧
    (∀ key, (crypter.kmsClient.GenerateDataKey
        { KeySpec := defaultKeySpec, KeyId := kms.GetCMKAlias crypter.appName } w.env).1 =
          Except.ok key →
      key.Plaintext.length < 32 →
      (kmsCrypter.EncryptSecret pasta crypter record payload w).1 =
        { record := record, ret := none,
          err := some (Errorf (str "Error reading data key: ")
            (if key.Plaintext = [] then str "EOF" else str "unexpected EOF") []) }) := by
  constructor
  · intro e hgen
    simp only [kmsCrypter.EncryptSecret, kmsCrypter.generateDataKey, hgen]
  · intro key hgen hshort
    simp only [kmsCrypter.EncryptSecret, kmsCrypter.generateDataKey, hgen, encrypt,
      getCryptoKey, hshort, if_true]

/-- C21 (witness): `TestEncryptSecretOnAESEncryptError`: the key service returns an
empty plaintext key, and `EncryptSecret` fails on reading the key. -/
theorem EncryptSecret_fails_without_key_witness :
    (kmsCrypter.EncryptSecret (cryptopasta.checksumSeal Unit)
      { kmsClient := kms.fixedKeyClient Unit { Plaintext := [], CiphertextBlob := [] },
        keyCache := { Get := fun _ u => (none, u), Set := fun _ _ u => u },
        appName := str "myapp" }
      { Name := str "db", Serial := 1, EncryptedData := str "old", EncryptedDataKey := str "key",
        Active := true }
      (str "mysecret") ⟨(), []⟩).1 =
      { record := { Name := str "db", Serial := 1, EncryptedData := str "old",
                    EncryptedDataKey := str "key", Active := true },
        ret := none,
        err := some (Errorf (str "Error reading data key: ")
          (if ([] : List Byte) = [] then str "EOF" else str "unexpected EOF") []) } :=
  (EncryptSecret_fails_without_key (cryptopasta.checksumSeal Unit)
    { kmsClient := kms.fixedKeyClient Unit { Plaintext := [], CiphertextBlob := [] },
      keyCache := { Get := fun _ u => (none, u), Set := fun _ _ u => u },
      appName := str "myapp" }
    { Name := str "db", Serial := 1, EncryptedData := str "old", EncryptedDataKey := str "key",
      Active := true }
    (str "mysecret") ⟨(), []⟩).2 { Plaintext := [], CiphertextBlob := [] } rfl (by decide)

/-- C24: on a cache miss, when the KMS `Decrypt` call (made with the decoded wrapped
key) fails with the error `e`, `DecryptSecret` returns no plaintext and the error `e`;
the calls it made are the cache `Get` and the KMS `Decrypt`, so no `Set` is made, and
the environment is the one those two calls left. -/
theorem DecryptSecret_kms_error (pasta : cryptopasta.Package ω) (crypter : kmsCrypter ω)
    (r : dao.SecretRecord) (w : World ω) (wrapped : List Byte) (e : Error)
    (hmiss : (crypter.keyCache.Get r.EncryptedDataKey w.env).1 = none)
    (hvalid : base64Decode r.EncryptedDataKey = (wrapped, none))
    (hkms : (crypter.kmsClient.Decrypt { CiphertextBlob := wrapped }
      (crypter.keyCache.Get r.EncryptedDataKey w.env).2).1 = Except.error e) :
    (kmsCrypter.DecryptSecret pasta crypter r w).1 = (none, some e) ∧
    (kmsCrypter.DecryptSecret pasta crypter r w).2.calls =
      w.calls ++ [Call.CacheGet r.EncryptedDataKey, Call.Decrypt { CiphertextBlob := wrapped }] ∧
    (kmsCrypter.DecryptSecret pasta crypter r w).2.env =
      (crypter.kmsClient.Decrypt { CiphertextBlob := wrapped }
        (crypter.keyCache.Get r.EncryptedDataKey w.env).2).2 ∧
    ∀ c ∈ (kmsCrypter.DecryptSecret pasta crypter r w).2.calls,
      c.isCacheSet = true → c ∈ w.calls := by
  have hf := fetchDataKey_miss_error crypter r w wrapped e hmiss hvalid hkms
  have hcalls : (kmsCrypter.DecryptSecret pasta crypter r w).2.calls =
      w.calls ++ [Call.CacheGet r.EncryptedDataKey,
        Call.Decrypt { CiphertextBlob := wrapped }] := by
    rw [DecryptSecret_world, hf]
    simp
  refine ⟨DecryptSecret_fetch_error pasta crypter r w e (by rw [hf]), hcalls, ?_, ?_⟩
  · rw [DecryptSecret_world, hf]
  · intro c hc hset
    rw [hcalls, List.mem_append] at hc
    rcases hc with hc | hc
    · exact hc
    · simp only [List.mem_cons, List.mem_singleton, List.not_mem_nil, or_false] at hc
      rcases hc with hc | hc <;> subst hc <;> cases hset

/-- C24 (witness): `TestDecryptSecretCacheMissOnKMSDecryptError` over the map cache,
empty: the error of KMS comes back and the cache is still empty. -/
theorem DecryptSecret_kms_error_witness :
    (kmsCrypter.DecryptSecret (cryptopasta.checksumSeal _)
      { kmsClient := kms.failingClient _
          (Error.errorString (str "world is not ready for this")),
        keyCache := cache.mapCache, appName := str "myapp" }
      { Name := str "db", Serial := 1,
        EncryptedData := base64Encode
          (List.replicate 12 (byte 0) ++ str "pw1" ++ List.replicate 16 (byte 67)),
        EncryptedDataKey := base64Encode (str "super-awesome-aes-key-so-secure?").reverse,
        Active := true }
      ⟨[], []⟩).1 = (none, some (Error.errorString (str "world is not ready for this"))) ∧
    (kmsCrypter.DecryptSecret (cryptopasta.checksumSeal _)
      { kmsClient := kms.failingClient _
          (Error.errorString (str "world is not ready for this")),
        keyCache := cache.mapCache, appName := str "myapp" }
      { Name := str "db", Serial := 1,
        EncryptedData := base64Encode
          (List.replicate 12 (byte 0) ++ str "pw1" ++ List.replicate 16 (byte 67)),
        EncryptedDataKey := base64Encode (str "super-awesome-aes-key-so-secure?").reverse,
        Active := true }
      ⟨[], []⟩).2.env = [] :=
  have h := DecryptSecret_kms_error (cryptopasta.checksumSeal _)
    { kmsClient := kms.failingClient _
        (Error.errorString (str "world is not ready for this")),
      keyCache := cache.mapCache, appName := str "myapp" }
    { Name := str "db", Serial := 1,
      EncryptedData := base64Encode
        (List.replicate 12 (byte 0) ++ str "pw1" ++ List.replicate 16 (byte 67)),
      EncryptedDataKey := base64Encode (str "super-awesome-aes-key-so-secure?").reverse,
      Active := true }
    ⟨[], []⟩ (str "super-awesome-aes-key-so-secure?").reverse
    (Error.errorString (str "world is not ready for this")) rfl
    (base64Decode_base64Encode _) rfl
  ⟨h.1, h.2.2.1⟩

/-- C25: cache effectiveness. With a key cache in which a `Set` is visible to the `Get`
of the same key that follows and which does not hold the wrapped key at the start, two
records with the same `EncryptedDataKey` decrypted one after the other, the first call
obtaining the data key: across both `DecryptSecret` calls the log gains the cache `Get`,
one KMS `Decrypt`, the cache `Set` and the cache `Get` of the second call, so exactly
one KMS `Decrypt` call is made, by the first. -/
theorem DecryptSecret_twice_one_unwrap (pasta : cryptopasta.Package ω) (crypter : kmsCrypter ω)
    (hmap : crypter.keyCache.SetThenGet) (r1 r2 : dao.SecretRecord) (w : World ω)
    (hshare : r1.EncryptedDataKey = r2.EncryptedDataKey)
    (hempty : (crypter.keyCache.Get r1.EncryptedDataKey w.env).1 = none)
    (hkey : (crypter.fetchDataKey r1 w).1.2 = none) :
    ∃ (wrapped k : List Byte),
      (kmsCrypter.DecryptSecret pasta crypter r2
        (kmsCrypter.DecryptSecret pasta crypter r1 w).2).2.calls =
        w.calls ++ [Call.CacheGet r1.EncryptedDataKey,
          Call.Decrypt { CiphertextBlob := wrapped }, Call.CacheSet r1.EncryptedDataKey k,
          Call.CacheGet r1.EncryptedDataKey] ∧
      List.countP Call.isDecrypt [Call.CacheGet r1.EncryptedDataKey,
          Call.Decrypt { CiphertextBlob := wrapped }, Call.CacheSet r1.EncryptedDataKey k,
          Call.CacheGet r1.EncryptedDataKey] = 1 ∧
      (kmsCrypter.DecryptSecret pasta crypter r1 w).2.calls =
        w.calls ++ [Call.CacheGet r1.EncryptedDataKey,
          Call.Decrypt { CiphertextBlob := wrapped }, Call.CacheSet r1.EncryptedDataKey k] := by
  cases hd : base64Decode r1.EncryptedDataKey with
  | mk wrapped derr =>
    cases derr with
    | some e =>
      have hf := fetchDataKey_miss_malformed crypter r1 w e hempty (by rw [hd])
      rw [hf] at hkey
      cases hkey
    | none =>
      cases hk : (crypter.kmsClient.Decrypt { CiphertextBlob := wrapped }
          (crypter.keyCache.Get r1.EncryptedDataKey w.env).2).1 with
      | error e =>
        have hf := fetchDataKey_miss_error crypter r1 w wrapped e hempty hd hk
        rw [hf] at hkey
        cases hkey
      | ok out =>
        have hf1 := fetchDataKey_miss_ok crypter r1 w wrapped out.Plaintext hempty hd hk
        have hhit : (crypter.keyCache.Get r2.EncryptedDataKey
            (crypter.fetchDataKey r1 w).2.env).1 = some out.Plaintext := by
          rw [hf1, ← hshare]
          exact hmap _ _ _
        have hf2 := fetchDataKey_hit crypter r2 (crypter.fetchDataKey r1 w).2 out.Plaintext hhit
        refine ⟨wrapped, out.Plaintext, ?_, rfl, ?_⟩
        · rw [DecryptSecret_world, DecryptSecret_world, hf2, ← hshare, hf1]
          simp
        · rw [DecryptSecret_world, hf1]
          simp

/-- C25 (witness): two records sealed under the same data key, decrypted by the test
crypter from an empty map cache: one KMS `Decrypt` in the four calls. -/
theorem DecryptSecret_twice_one_unwrap_witness :
    ∃ (wrapped k : List Byte),
      (kmsCrypter.DecryptSecret (cryptopasta.checksumSeal _) testCrypter
        { Name := str "db", Serial := 2,
          EncryptedData := base64Encode
            (List.replicate 12 (byte 0) ++ str "pw2" ++ List.replicate 16 (byte 68)),
          EncryptedDataKey := base64Encode (str "super-awesome-aes-key-so-secure?").reverse,
          Active := true }
        (kmsCrypter.DecryptSecret (cryptopasta.checksumSeal _) testCrypter
          { Name := str "db", Serial := 1,
            EncryptedData := base64Encode
              (List.replicate 12 (byte 0) ++ str "pw1" ++ List.replicate 16 (byte 67)),
            EncryptedDataKey := base64Encode (str "super-awesome-aes-key-so-secure?").reverse,
            Active := true }
          ⟨[], []⟩).2).2.calls =
        [] ++ [Call.CacheGet (base64Encode (str "super-awesome-aes-key-so-secure?").reverse),
          Call.Decrypt { CiphertextBlob := wrapped },
          Call.CacheSet (base64Encode (str "super-awesome-aes-key-so-secure?").reverse) k,
          Call.CacheGet (base64Encode (str "super-awesome-aes-key-so-secure?").reverse)] ∧
      List.countP Call.isDecrypt
        [Call.CacheGet (base64Encode (str "super-awesome-aes-key-so-secure?").reverse),
          Call.Decrypt { CiphertextBlob := wrapped },
          Call.CacheSet (base64Encode (str "super-awesome-aes-key-so-secure?").reverse) k,
          Call.CacheGet (base64Encode (str "super-awesome-aes-key-so-secure?").reverse)] = 1 ∧
      (kmsCrypter.DecryptSecret (cryptopasta.checksumSeal _) testCrypter
          { Name := str "db", Serial := 1,
            EncryptedData := base64Encode
              (List.replicate 12 (byte 0) ++ str "pw1" ++ List.replicate 16 (byte 67)),
            EncryptedDataKey := base64Encode (str "super-awesome-aes-key-so-secure?").reverse,
            Active := true }
          ⟨[], []⟩).2.calls =
        [] ++ [Call.CacheGet (base64Encode (str "super-awesome-aes-key-so-secure?").reverse),
          Call.Decrypt { CiphertextBlob := wrapped },
          Call.CacheSet (base64Encode (str "super-awesome-aes-key-so-secure?").reverse) k] :=
  DecryptSecret_twice_one_unwrap (cryptopasta.checksumSeal _) testCrypter mapCache_setThenGet
    { Name := str "db", Serial := 1,
      EncryptedData := base64Encode
        (List.replicate 12 (byte 0) ++ str "pw1" ++ List.replicate 16 (byte 67)),
      EncryptedDataKey := base64Encode (str "super-awesome-aes-key-so-secure?").reverse,
      Active := true }
    { Name := str "db", Serial := 2,
      EncryptedData := base64Encode
        (List.replicate 12 (byte 0) ++ str "pw2" ++ List.replicate 16 (byte 68)),
      EncryptedDataKey := base64Encode (str "super-awesome-aes-key-so-secure?").reverse,
      Active := true }
    ⟨[], []⟩ rfl rfl
    (by
      rw [fetchDataKey_miss_ok testCrypter _ ⟨[], []⟩
        (str "super-awesome-aes-key-so-secure?").reverse (str "super-awesome-aes-key-so-secure?")
        rfl (base64Decode_base64Encode _)
        (by simp [testCrypter, kms.reversingClient, cache.mapCache])])

/-- C26: `DecryptSecret` rejects a malformed blob. For every record whose
`EncryptedData` is not valid standard base64 text, and for every record that misses the
cache and whose `EncryptedDataKey` is not valid standard base64 text, `DecryptSecret`
returns an error and no plaintext. -/
theorem DecryptSecret_rejects_malformed (pasta : cryptopasta.Package ω) (crypter : kmsCrypter ω)
    (r : dao.SecretRecord) (w : World ω) :
    (base64.isStdText r.EncryptedData = false →
      (kmsCrypter.DecryptSecret pasta crypter r w).1.1 = none ∧
      (kmsCrypter.DecryptSecret pasta crypter r w).1.2 ≠ none) ∧
    ((crypter.keyCache.Get r.EncryptedDataKey w.env).1 = none →
      base64.isStdText r.EncryptedDataKey = false →
      (kmsCrypter.DecryptSecret pasta crypter r w).1.1 = none ∧
      (kmsCrypter.DecryptSecret pasta crypter r w).1.2 ≠ none) := by
  constructor
  · intro hbad
    have hd : (base64Decode r.EncryptedData).2 ≠ none := by
      intro h
      rw [(base64.DecodeString_ok_iff _).mp h] at hbad
      cases hbad
    cases hf : (crypter.fetchDataKey r w).1 with
    | mk k ferr =>
      cases ferr with
      | some e =>
        rw [DecryptSecret_fetch_error pasta crypter r w e (by rw [hf])]
        exact ⟨rfl, by simp⟩
      | none =>
        rw [DecryptSecret_with_key pasta crypter r w k hf]
        cases hde : (base64Decode r.EncryptedData).2 with
        | none => exact absurd hde hd
        | some e => exact ⟨rfl, by simp⟩
  · intro hmiss hbad
    have hd : (base64Decode r.EncryptedDataKey).2 ≠ none := by
      intro h
      rw [(base64.DecodeString_ok_iff _).mp h] at hbad
      cases hbad
    cases hde : (base64Decode r.EncryptedDataKey).2 with
    | none => exact absurd hde hd
    | some e =>
      have hf := fetchDataKey_miss_malformed crypter r w e hmiss hde
      rw [DecryptSecret_fetch_error pasta crypter r w e (by rw [hf])]
      exact ⟨rfl, by simp⟩

/-- C26 (witness): a record whose `EncryptedData` is "pw1", three characters and so no
base64 text, with its key in the cache: `DecryptSecret` returns an error. -/
theorem DecryptSecret_rejects_malformed_witness :
    (kmsCrypter.DecryptSecret (cryptopasta.checksumSeal _) testCrypter
      { Name := str "db", Serial := 1, EncryptedData := str "pw1",
        EncryptedDataKey := str "d3JhcHBlZA==", Active := true }
      ⟨[(str "d3JhcHBlZA==", str "super-awesome-aes-key-so-secure?")], []⟩).1.1 = none ∧
    (kmsCrypter.DecryptSecret (cryptopasta.checksumSeal _) testCrypter
      { Name := str "db", Serial := 1, EncryptedData := str "pw1",
        EncryptedDataKey := str "d3JhcHBlZA==", Active := true }
      ⟨[(str "d3JhcHBlZA==", str "super-awesome-aes-key-so-secure?")], []⟩).1.2 ≠ none :=
  (DecryptSecret_rejects_malformed (cryptopasta.checksumSeal _) testCrypter
    { Name := str "db", Serial := 1, EncryptedData := str "pw1",
      EncryptedDataKey := str "d3JhcHBlZA==", Active := true }
    ⟨[(str "d3JhcHBlZA==", str "super-awesome-aes-key-so-secure?")], []⟩).1 (by decide)

/-- C30: for every byte string of at least 32 bytes `getCryptoKey` succeeds and returns
its first 32 bytes, a key of 32 bytes, so two inputs that agree on their first 32 bytes
give the same key; for every byte string of fewer than 32 bytes it returns an error and
no key. -/
theorem getCryptoKey_first_32 (input : List Byte) :
    (32 ≤ input.length →
      getCryptoKey input = Except.ok (input.take 32) ∧ (input.take 32).length = 32) ∧
    (∀ other : List Byte, 32 ≤ input.length → 32 ≤ other.length →
      input.take 32 = other.take 32 → getCryptoKey input = getCryptoKey other) ∧
    (input.length < 32 → ∃ e, getCryptoKey input = Except.error e) := by
  have hok : ∀ l : List Byte, 32 ≤ l.length → getCryptoKey l = Except.ok (l.take 32) := by
    intro l hl
    unfold getCryptoKey
    rw [if_neg (by omega)]
  refine ⟨?_, ?_, ?_⟩
  · intro h
    refine ⟨hok input h, ?_⟩
    rw [List.length_take]
    omega
  · intro other h1 h2 heq
    rw [hok input h1, hok other h2, heq]
  · intro h
    unfold getCryptoKey
    rw [if_pos h]
    exact ⟨_, rfl⟩

/-- C30 (witness): `TestGetCryptoKey`: the 32-byte key of the tests is returned as it
is, and the key is 32 bytes long. -/
theorem getCryptoKey_first_32_witness :
    getCryptoKey (str "super-awesome-aes-key-so-secure?") =
        Except.ok ((str "super-awesome-aes-key-so-secure?").take 32) ∧
      ((str "super-awesome-aes-key-so-secure?").take 32).length = 32 :=
  (getCryptoKey_first_32 (str "super-awesome-aes-key-so-secure?")).1 (by decide)

end crypt

/-! ## Theorems: the gateway over the DynamoDB client -/

namespace dao

variable {δ : Type}

/-- C27: the gateway distinguishes absent from not found. `GetLatestVersion` returns no
record and no error when the query returns a nil result, or a result whose count is 0 (a
nil count included), whereas `GetSecretRecord` returns the error "Secret record not found
in the data store" and no record when `GetItem` returns a nil output, a nil item or an
item with no attribute; both return the error of the client and no record when the
client call fails, whatever output comes with the error. -/
theorem absent_is_not_an_error (pkg : dynamodbattribute.Package) (d : dao δ) (name : GoString)
    (serial : Int) (t : δ) :
    (∀ out, (d.dynamodbClient.Query (GetLatestVersion.input d name) t).1 = (out, none) →
      (out = none ∨ ∃ o, out = some o ∧ aws.Int64Value o.Count = 0) →
      dao.GetLatestVersion pkg d name t =
        some ((none, none), (d.dynamodbClient.Query (GetLatestVersion.input d name) t).2)) ∧
    (∀ out, (d.dynamodbClient.GetItem (GetSecretRecord.input d name serial) t).1 = (out, none) →
      (out = none ∨ ∃ o, out = some o ∧ (o.Item = none ∨ o.Item = some [])) →
      dao.GetSecretRecord pkg d name serial t =
        ((none, some (Error.errorString (str "Secret record not found in the data store"))),
          (d.dynamodbClient.GetItem (GetSecretRecord.input d name serial) t).2)) ∧
    (∀ out e, (d.dynamodbClient.Query (GetLatestVersion.input d name) t).1 = (out, some e) →
      dao.GetLatestVersion pkg d name t =
        some ((none, some e), (d.dynamodbClient.Query (GetLatestVersion.input d name) t).2)) ∧
    (∀ out e,
      (d.dynamodbClient.GetItem (GetSecretRecord.input d name serial) t).1 = (out, some e) →
      dao.GetSecretRecord pkg d name serial t =
        ((none, some e), (d.dynamodbClient.GetItem (GetSecretRecord.input d name serial) t).2)) := by
  refine ⟨?_, ?_, ?_, ?_⟩
  · intro out hq hout
    unfold dao.GetLatestVersion
    rcases hout with h | ⟨o, h, hcount⟩
    · subst h
      simp only [hq]
    · subst h
      simp only [hq, hcount, if_true]
  · intro out hg hout
    unfold dao.GetSecretRecord
    rcases hout with h | ⟨o, h, hitem | hitem⟩
    · subst h
      simp only [hg]
    · subst h
      simp only [hg, hitem]
    · subst h
      simp only [hg, hitem, List.length_nil, if_true]
  · intro out e hq
    unfold dao.GetLatestVersion
    simp only [hq]
  · intro out e hg
    unfold dao.GetSecretRecord
    simp only [hg]

/-- C27 (witness): `TestGetLatestVersionReturnsEmptyItems`: the query reports a count of
0 and `GetLatestVersion` returns no record and no error. -/
theorem absent_is_not_an_error_witness :
    dao.GetLatestVersion dynamodbattribute.stringsOnly
      { appName := str "myapp",
        dynamodbClient := dynamodb.fixedClient (none, none)
          (some { Count := some 0, Items := [] }, none) }
      (str "foo") () = some ((none, none), ()) :=
  (absent_is_not_an_error dynamodbattribute.stringsOnly
    { appName := str "myapp",
      dynamodbClient := dynamodb.fixedClient (none, none)
        (some { Count := some 0, Items := [] }, none) }
    (str "foo") 1 ()).1 (some { Count := some 0, Items := [] }) rfl
    (Or.inr ⟨{ Count := some 0, Items := [] }, rfl, rfl⟩)

end dao

/-! ## Theorems: the store, serial arithmetic and the two-step `Save` -/

namespace store

variable {σ κ : Type}

/-- The two steps of `Save.step`, taken one after the other, are `Save`. -/
theorem Save_two_steps (s : store σ κ) (view : api.SecretRecord) (w : World σ κ) :
    Save.interleave s [false, false] (Save.Proc.start view, Save.Proc.start view) w =
      ((Save.Proc.done (Save s view w).1.1 (Save s view w).1.2, Save.Proc.start view),
        (Save s view w).2) := by
  simp only [Save.interleave, Save.step, Save]
  cases hl : (callGetLatestVersion s view.Name w).1.2 with
  | some e => rfl
  | none =>
    simp only [Save.step]
    cases he : (callEncryptSecret s
      (Save.newSecret (Save.setSerial view (callGetLatestVersion s view.Name w).1.1))
      (Save.setSerial view (callGetLatestVersion s view.Name w).1.1).Payload
      (callGetLatestVersion s view.Name w).2).1.err with
    | some e => rfl
    | none => rfl

/-- C28 (counterexample): the latest record of "db" has the largest `int64` as serial;
`Save` succeeds and assigns the smallest `int64`, which is not greater. -/
theorem Save_serial_wraps_at_max :
    (Save inMemoryStore
        { Name := str "db", Serial := 1, Payload := str "b", Active := true }
        ⟨[{ Name := str "db", Serial := 9223372036854775807, EncryptedData := str "a",
            EncryptedDataKey := [], Active := true }], (), []⟩).1 =
      (some { Name := str "db", Serial := -9223372036854775808, Payload := str "b",
              Active := true }, none) ∧
    (Save inMemoryStore
        { Name := str "db", Serial := 1, Payload := str "b", Active := true }
        ⟨[{ Name := str "db", Serial := 9223372036854775807, EncryptedData := str "a",
            EncryptedDataKey := [], Active := true }], (), []⟩).2.dao =
      [{ Name := str "db", Serial := -9223372036854775808, EncryptedData := str "b",
         EncryptedDataKey := [], Active := true },
       { Name := str "db", Serial := 9223372036854775807, EncryptedData := str "a",
         EncryptedDataKey := [], Active := true }] ∧
    ¬ ((9223372036854775807 : Int) < -9223372036854775808) := by
  decide

/-- C28 (amended): when `GetLatestVersion` returns a record with serial `N`, an `int64`,
a successful `Save` (the crypter leaving the key fields alone) returns the view and
inserts the record with one and the same serial, which is `N + 1`, strictly greater
than `N`, for every `N` below the largest `int64`, and is the smallest `int64`, less
than `N`, when `N` is the largest. -/
theorem Save_serial_increases_below_max (s : store σ κ) (view : api.SecretRecord)
    (w : World σ κ) (latest : dao.SecretRecord)
    (hlatest : (s.dao.GetLatestVersion view.Name w.dao).1 = (some latest, none))
    (hkeeps : s.crypter.KeepsKey) (hin : InInt64 latest.Serial)
    (hok : (Save s view w).1.2 = none) :
    ∃ (v : api.SecretRecord) (record : dao.SecretRecord),
      (Save s view w).1.1 = some v ∧
      (Save s view w).2.calls = w.calls ++
        [Call.GetLatestVersion view.Name, Call.EncryptSecret (Save.newSecret v) view.Payload,
         Call.PutSecretRecord record] ∧
      v.Serial = record.Serial ∧
      (latest.Serial ≠ maxInt64 →
        record.Serial = latest.Serial + 1 ∧ latest.Serial < record.Serial) ∧
      (latest.Serial = maxInt64 → record.Serial = minInt64 ∧ record.Serial < latest.Serial) := by
  have h := Save_of_lookup_ok s view w (some latest) hlatest hok
  simp only [Save.setSerial] at h
  have hrec : (s.crypter.EncryptSecret
      (Save.newSecret { view with Serial := wrapInt64 (latest.Serial + 1) }) view.Payload
      w.crypter).1.record.Serial = wrapInt64 (latest.Serial + 1) := (hkeeps _ _ _).2.1
  refine ⟨_, _, h.1, h.2, hrec.symm, ?_, ?_⟩
  · intro hmax
    rw [hrec, wrapInt64_succ hin hmax]
    exact ⟨rfl, by omega⟩
  · intro hmax
    rw [hrec, hmax]
    decide

/-- C28 (witness): `TestSave`: the latest record of "bar" has serial 1, the record
inserted has serial 2. -/
theorem Save_serial_increases_below_max_witness :
    ∃ (v : api.SecretRecord) (record : dao.SecretRecord),
      (Save inMemoryStore
        { Name := str "bar", Serial := 1, Payload := str "foobar", Active := true }
        ⟨[{ Name := str "bar", Serial := 1, EncryptedData := str "old",
            EncryptedDataKey := [], Active := true }], (), []⟩).1.1 = some v ∧
      (Save inMemoryStore
        { Name := str "bar", Serial := 1, Payload := str "foobar", Active := true }
        ⟨[{ Name := str "bar", Serial := 1, EncryptedData := str "old",
            EncryptedDataKey := [], Active := true }], (), []⟩).2.calls = [] ++
        [Call.GetLatestVersion (str "bar"),
         Call.EncryptSecret (Save.newSecret v) (str "foobar"),
         Call.PutSecretRecord record] ∧
      v.Serial = record.Serial ∧
      ((1 : Int) ≠ maxInt64 → record.Serial = 1 + 1 ∧ 1 < record.Serial) ∧
      ((1 : Int) = maxInt64 → record.Serial = minInt64 ∧ record.Serial < 1) :=
  Save_serial_increases_below_max inMemoryStore
    { Name := str "bar", Serial := 1, Payload := str "foobar", Active := true }
    ⟨[{ Name := str "bar", Serial := 1, EncryptedData := str "old",
        EncryptedDataKey := [], Active := true }], (), []⟩
    { Name := str "bar", Serial := 1, EncryptedData := str "old", EncryptedDataKey := [],
      Active := true }
    (by decide) identityCrypter_keepsKey (by decide) (by decide)

/-- C29: the `Save` race. `Save` run in two steps (the read of the latest version, then
serial, encryption and insert), two calls for the same name against the in-memory
gateway whose latest record for the name has serial `N`, scheduled read, read, insert,
insert: after the two reads both calls hold the record with serial `N`; both calls
return their view with serial `N + 1` and no error, both hand `PutSecretRecord` a record
with that name and serial `N + 1`, and the table is left with one record under that key,
the one of the second insert. (The crypter keeps the key fields and does not fail.) -/
theorem Save_race (c : crypt.Crypter κ) (hkeeps : c.KeepsKey)
    (hnofail : ∀ r secret k, (c.EncryptSecret r secret k).1.err = none)
    (a b : api.SecretRecord) (hname : b.Name = a.Name) (w : World (List dao.SecretRecord) κ)
    (latest : dao.SecretRecord) (hlatest : dao.latest a.Name w.dao = some latest)
    (hin : InInt64 latest.Serial) (hmax : latest.Serial ≠ maxInt64) :
    (Save.interleave { dao := dao.inMemoryDAO, crypter := c } [false, true]
      (Save.Proc.start a, Save.Proc.start b) w).1 =
      (Save.Proc.read a (some latest), Save.Proc.read b (some latest)) ∧
    ∃ (ra rb : dao.SecretRecord),
      (Save.interleave { dao := dao.inMemoryDAO, crypter := c } [false, true, false, true]
        (Save.Proc.start a, Save.Proc.start b) w).1 =
        (Save.Proc.done (some { a with Serial := latest.Serial + 1 }) none,
         Save.Proc.done (some { b with Serial := latest.Serial + 1 }) none) ∧
      (Save.interleave { dao := dao.inMemoryDAO, crypter := c } [false, true, false, true]
        (Save.Proc.start a, Save.Proc.start b) w).2.calls =
        w.calls ++
          [Call.GetLatestVersion a.Name, Call.GetLatestVersion a.Name,
           Call.EncryptSecret (Save.newSecret { a with Serial := latest.Serial + 1 }) a.Payload,
           Call.PutSecretRecord ra,
           Call.EncryptSecret (Save.newSecret { b with Serial := latest.Serial + 1 }) b.Payload,
           Call.PutSecretRecord rb] ∧
      ra.Name = a.Name ∧ ra.Serial = latest.Serial + 1 ∧
      rb.Name = a.Name ∧ rb.Serial = latest.Serial + 1 ∧
      (Save.interleave { dao := dao.inMemoryDAO, crypter := c } [false, true, false, true]
        (Save.Proc.start a, Save.Proc.start b) w).2.dao =
        rb :: w.dao.filter (fun r => !r.hasKey a.Name (latest.Serial + 1)) := by
  have hw : wrapInt64 (latest.Serial + 1) = latest.Serial + 1 := wrapInt64_succ hin hmax
  constructor
  · simp [Save.interleave, Save.step, callGetLatestVersion, dao.inMemoryDAO, hlatest, hname]
  · have hra := hkeeps (Save.newSecret { a with Serial := latest.Serial + 1 }) a.Payload w.crypter
    have hrb := hkeeps (Save.newSecret { b with Serial := latest.Serial + 1 }) b.Payload
      (c.EncryptSecret (Save.newSecret { a with Serial := latest.Serial + 1 }) a.Payload
        w.crypter).2
    refine ⟨(c.EncryptSecret (Save.newSecret { a with Serial := latest.Serial + 1 }) a.Payload
        w.crypter).1.record,
      (c.EncryptSecret (Save.newSecret { b with Serial := latest.Serial + 1 }) b.Payload
        (c.EncryptSecret (Save.newSecret { a with Serial := latest.Serial + 1 }) a.Payload
          w.crypter).2).1.record, ?_, ?_, hra.1, hra.2.1, ?_, hrb.2.1, ?_⟩
    · simp [Save.interleave, Save.step, callGetLatestVersion, callEncryptSecret,
        callPutSecretRecord, dao.inMemoryDAO, hlatest, hname, Save.setSerial, hw, hnofail]
    · simp [Save.interleave, Save.step, callGetLatestVersion, callEncryptSecret,
        callPutSecretRecord, dao.inMemoryDAO, hlatest, hname, Save.setSerial, hw, hnofail]
    · rw [hrb.1]
      exact hname
    · have hk1 : ∀ r : dao.SecretRecord,
          r.hasKey (c.EncryptSecret (Save.newSecret { b with Serial := latest.Serial + 1 })
              b.Payload (c.EncryptSecret (Save.newSecret { a with Serial := latest.Serial + 1 })
                a.Payload w.crypter).2).1.record.Name
            (c.EncryptSecret (Save.newSecret { b with Serial := latest.Serial + 1 })
              b.Payload (c.EncryptSecret (Save.newSecret { a with Serial := latest.Serial + 1 })
                a.Payload w.crypter).2).1.record.Serial =
          r.hasKey a.Name (latest.Serial + 1) := by
        intro r
        rw [hrb.1, hrb.2.1]
        simp [Save.newSecret, hname]
      have hk2 : ∀ r : dao.SecretRecord,
          r.hasKey (c.EncryptSecret (Save.newSecret { a with Serial := latest.Serial + 1 })
              a.Payload w.crypter).1.record.Name
            (c.EncryptSecret (Save.newSecret { a with Serial := latest.Serial + 1 })
              a.Payload w.crypter).1.record.Serial =
          r.hasKey a.Name (latest.Serial + 1) := by
        intro r
        rw [hra.1, hra.2.1]
        simp [Save.newSecret]
      have hself : (c.EncryptSecret (Save.newSecret { a with Serial := latest.Serial + 1 })
          a.Payload w.crypter).1.record.hasKey a.Name (latest.Serial + 1) = true := by
        rw [hasKey_iff]
        exact ⟨hra.1, hra.2.1⟩
      have hlatestb : dao.latest b.Name w.dao = some latest := by
        rw [hname]
        exact hlatest
      simp only [Save.interleave, Save.step, callGetLatestVersion, callEncryptSecret,
        callPutSecretRecord, dao.inMemoryDAO, hlatest, hlatestb, Save.setSerial, hw, hnofail,
        hk1, hk2, List.filter_cons, hself, List.filter_filter, Bool.not_true,
        Bool.false_eq_true, if_false, Bool.and_self]

/-- C29 (witness): two saves for "db", whose latest version is 1, with the payloads
"x" and "y": both hold version 1 after the reads, both return serial 2 and both insert
a record under ("db", 2). -/
theorem Save_race_witness :
    (Save.interleave inMemoryStore [false, true]
      (Save.Proc.start { Name := str "db", Serial := 1, Payload := str "x", Active := true },
       Save.Proc.start { Name := str "db", Serial := 1, Payload := str "y", Active := true })
      ⟨[{ Name := str "db", Serial := 1, EncryptedData := str "pw1", EncryptedDataKey := [],
          Active := true }], (), []⟩).1 =
      (Save.Proc.read { Name := str "db", Serial := 1, Payload := str "x", Active := true }
        (some { Name := str "db", Serial := 1, EncryptedData := str "pw1",
                EncryptedDataKey := [], Active := true }),
       Save.Proc.read { Name := str "db", Serial := 1, Payload := str "y", Active := true }
        (some { Name := str "db", Serial := 1, EncryptedData := str "pw1",
                EncryptedDataKey := [], Active := true })) ∧
    ∃ (ra rb : dao.SecretRecord),
      (Save.interleave inMemoryStore [false, true, false, true]
        (Save.Proc.start { Name := str "db", Serial := 1, Payload := str "x", Active := true },
         Save.Proc.start { Name := str "db", Serial := 1, Payload := str "y", Active := true })
        ⟨[{ Name := str "db", Serial := 1, EncryptedData := str "pw1", EncryptedDataKey := [],
            Active := true }], (), []⟩).1 =
        (Save.Proc.done
          (some { Name := str "db", Serial := 1 + 1, Payload := str "x", Active := true }) none,
         Save.Proc.done
          (some { Name := str "db", Serial := 1 + 1, Payload := str "y", Active := true })
          none) ∧
      (Save.interleave inMemoryStore [false, true, false, true]
        (Save.Proc.start { Name := str "db", Serial := 1, Payload := str "x", Active := true },
         Save.Proc.start { Name := str "db", Serial := 1, Payload := str "y", Active := true })
        ⟨[{ Name := str "db", Serial := 1, EncryptedData := str "pw1", EncryptedDataKey := [],
            Active := true }], (), []⟩).2.calls =
        [] ++
          [Call.GetLatestVersion (str "db"), Call.GetLatestVersion (str "db"),
           Call.EncryptSecret
             (Save.newSecret
               { Name := str "db", Serial := 1 + 1, Payload := str "x", Active := true })
             (str "x"),
           Call.PutSecretRecord ra,
           Call.EncryptSecret
             (Save.newSecret
               { Name := str "db", Serial := 1 + 1, Payload := str "y", Active := true })
             (str "y"),
           Call.PutSecretRecord rb] ∧
      ra.Name = str "db" ∧ ra.Serial = 1 + 1 ∧ rb.Name = str "db" ∧ rb.Serial = 1 + 1 ∧
      (Save.interleave inMemoryStore [false, true, false, true]
        (Save.Proc.start { Name := str "db", Serial := 1, Payload := str "x", Active := true },
         Save.Proc.start { Name := str "db", Serial := 1, Payload := str "y", Active := true })
        ⟨[{ Name := str "db", Serial := 1, EncryptedData := str "pw1", EncryptedDataKey := [],
            Active := true }], (), []⟩).2.dao =
        rb :: List.filter (fun r => !r.hasKey (str "db") (1 + 1))
          [{ Name := str "db", Serial := 1, EncryptedData := str "pw1", EncryptedDataKey := [],
             Active := true }] :=
  Save_race crypt.identityCrypter identityCrypter_keepsKey (fun _ _ _ => rfl)
    { Name := str "db", Serial := 1, Payload := str "x", Active := true }
    { Name := str "db", Serial := 1, Payload := str "y", Active := true } rfl
    ⟨[{ Name := str "db", Serial := 1, EncryptedData := str "pw1", EncryptedDataKey := [],
        Active := true }], (), []⟩
    { Name := str "db", Serial := 1, EncryptedData := str "pw1", EncryptedDataKey := [],
      Active := true }
    (by decide) (by decide) (by decide)

end store

end EcsSecrets
